import Mathlib

/-!
# Ray tracer core: intersection tests and the recursive tracer

A shallow embedding of `Vector3D.cpp`, `Color.cpp`, `Ray.cpp`, `Light.cpp`,
`Sphere.cpp`, `Triangle.cpp` and `RayTracer.cpp`.

The program is embedded twice.

The first embedding follows the control flow of the whole program, the
recursion of `TraceRay` and the order of the random draws, and leaves the
arithmetic abstract. It carries the properties of control flow, of
comparisons and of identities between sub-results of the program, which do
not depend on how a `double` rounds. Its conventions:

* a C++ `double` is an element of a linearly ordered field `F`; the value
  `+infinity`, which the code passes as the upper end of a distance window,
  is the extra element `Dist.inf` of `Dist F`, and `closest_t`, which starts
  at `+infinity` and takes the distances the primitives report, is a
  `Quo F`;
* the functions of `<cmath>` the code calls (`std::sqrt`, `std::cos`,
  `std::sin`, `std::exp`, `std::pow`) and the constant `M_PI` are the fields
  of a `CMath F` record passed to every function that uses them; theorems
  state what they need of them as hypotheses;
* the process-wide random generator behind `randDouble()` is a stream
  `rnd : Nat → F` together with the number of draws consumed so far, which
  is threaded through every function that draws;
* the global scene (`spheres`, `triangles`, `lights`, `backgroundColor`) is
  a `Scene F` record passed explicitly;
* a `bool` function with a `double& t` output returns an `Option`:
  `some t` for `true` with output `t`, `none` for `false`; the output is in
  `F` for the triangle and in `Quo F` for the sphere;
* a quotient `x / y` whose divisor the code has tested to be non-zero (the
  determinant that passed the parallelism test of the triangle, the length
  in `normalize`, the sample counts and weights of the tracer) is the
  quotient of the field; the one quotient the code takes without a test, by
  `2 * k1` in `Sphere::intersect`, is the IEEE quotient `Quo.div`, whose
  value for a zero divisor is an infinity or NaN (type `Quo F`), and the
  distance a sphere reports is compared with the IEEE order `Quo.lt`.

The second embedding, in the namespace `IEEE`, computes on doubles. It
carries the properties of the values the program computes: the geometry of
the two `intersect` methods, `normalize`, `cross`, `getNormal`,
`randomHemisphere`, the sum of the light samples and the weights of the
subsurface block. Its conventions:

* a C++ `double` is a `Dbl`: an IEEE-754 binary64 value, finite
  (`(-1)^neg * m * 2^e`), infinite or NaN; `+`, `-`, `*`, `/` and `std::sqrt`
  are correctly rounded to nearest, ties to even, with gradual underflow and
  overflow to an infinity, each operation of the source being rounded on
  its own, in the order in which the source writes them (no fused
  multiply-add); a decimal literal is the double nearest to it; comparisons
  with NaN are false;
* a zero has no sign: the sign of a zero shows only in a division by it, and
  the divisors of the program (`2 * k1`, a sum of squares; a length; the
  determinant that passed the guard; `totalWeight` after its test;
  `sssScatter * sssRadius`, a product of two positive numbers; the constants
  `3` and `128`) are never a negative zero;
* `std::cos`, `std::sin`, `std::exp` and `std::pow`, which the standard does
  not require to be correctly rounded, are the fields of a `Libm` record;
  the statements about all inputs hold for every such record, and the
  worked examples use `knownLibm`, which has the values every
  implementation agrees on (`cos(0) = 1`, `sin(0) = 0`, `exp(0) = 1`,
  `exp(x) = 0` far below the underflow threshold, `pow(x, 0) = 1`);
* the random stream, the scene and the `Option` results are as in the first
  embedding;
* the number a double stands for is `Dbl.toRat`, and `IEEE.Vector3D.exact`,
  `IEEE.Ray.exact`, `IEEE.Sphere.exact` and `IEEE.Triangle.exact` take the
  stored doubles of an input to the first embedding over the rationals, to
  state what holds of the input in exact arithmetic;
* rounding is measured in relative errors of size `Dbl.eta = 2^-52`:
  `Dbl.Near k c a` says that `c` is `a` up to `k` of them, and one holds of
  every operation whose result is in the normal range (`Dbl.round_spec`);
  the bounds on the length of a normalized vector are composed from these.
-/

namespace RayTracer

/-! ## Vector3D -/

/-- The class `Vector3D`: three `double` components. -/
structure Vector3D (F : Type) where
  x : F
  y : F
  z : F

/-- The functions of `<cmath>` used by the code, and `M_PI`. -/
structure CMath (F : Type) where
  sqrt : F → F
  cos : F → F
  sin : F → F
  exp : F → F
  pow : F → F → F
  pi : F

namespace Vector3D

variable {F : Type} [LinearOrderedField F]

/-- The default constructor `Vector3D()`. -/
def zero : Vector3D F := ⟨0, 0, 0⟩

/-- Unary `operator-`. -/
def neg (a : Vector3D F) : Vector3D F := ⟨-a.x, -a.y, -a.z⟩

/-- Binary `operator+`. -/
def add (a v : Vector3D F) : Vector3D F := ⟨a.x + v.x, a.y + v.y, a.z + v.z⟩

/-- Binary `operator-`. -/
def sub (a v : Vector3D F) : Vector3D F := ⟨a.x - v.x, a.y - v.y, a.z - v.z⟩

/-- Member `operator*(double scalar)`. -/
def mul (a : Vector3D F) (scalar : F) : Vector3D F :=
  ⟨a.x * scalar, a.y * scalar, a.z * scalar⟩

/-- Friend `operator*(double scalar, const Vector3D& v)`. -/
def smul (scalar : F) (v : Vector3D F) : Vector3D F :=
  ⟨v.x * scalar, v.y * scalar, v.z * scalar⟩

/-- Member `operator/(double scalar)`. -/
def div (a : Vector3D F) (scalar : F) : Vector3D F :=
  ⟨a.x / scalar, a.y / scalar, a.z / scalar⟩

/-- Method `dot`. -/
def dot (a v : Vector3D F) : F := a.x * v.x + a.y * v.y + a.z * v.z

/-- Method `cross`. -/
def cross (a v : Vector3D F) : Vector3D F :=
  ⟨a.y * v.z - a.z * v.y, a.z * v.x - a.x * v.z, a.x * v.y - a.y * v.x⟩

/-- Method `length`. -/
def length (m : CMath F) (a : Vector3D F) : F :=
  m.sqrt (a.x * a.x + a.y * a.y + a.z * a.z)

/-- Method `lengthSquared`. -/
def lengthSquared (a : Vector3D F) : F := a.x * a.x + a.y * a.y + a.z * a.z

/-- Method `normalize`: the zero vector when the length is zero. -/
def normalize (m : CMath F) (a : Vector3D F) : Vector3D F :=
  let len := a.length m
  if len = 0 then ⟨0, 0, 0⟩ else ⟨a.x / len, a.y / len, a.z / len⟩

/-- The `operator==` of `Vector3D`: equality of the components within the
constant `EPSILON = 1e-8`. -/
def eq (a v : Vector3D F) : Bool :=
  decide (|a.x - v.x| < 1e-8) && decide (|a.y - v.y| < 1e-8) &&
    decide (|a.z - v.z| < 1e-8)

/-- The `operator!=` of `Vector3D`. -/
def ne (a v : Vector3D F) : Bool := !(a.eq v)

/-- Method `randomHemisphere`; the two draws are taken from the stream `rnd`
at positions `i` and `i + 1`, and the new position is returned. -/
def randomHemisphere (m : CMath F) (rnd : Nat → F) (a : Vector3D F) (i : Nat) :
    Vector3D F × Nat :=
  let u1 := rnd i
  let u2 := rnd (i + 1)
  let r := m.sqrt u1
  let theta := 2.0 * m.pi * u2
  let x_ := r * m.cos theta
  let y_ := r * m.sin theta
  let z_ := m.sqrt (1.0 - u1)
  let N := a.normalize m
  let helper : Vector3D F := if |N.x| > 0.1 then ⟨0, 1, 0⟩ else ⟨1, 0, 0⟩
  let T := (helper.cross N).normalize m
  let B := N.cross T
  (((T.mul x_).add (B.mul y_)).add (N.mul z_), i + 2)

end Vector3D

/-! ## Color -/

/-- The class `Color`: three `double` channels. -/
structure Color (F : Type) where
  r : F
  g : F
  b : F

namespace Color

variable {F : Type} [LinearOrderedField F]

/-- Method `clamp` (the C++ method mutates the object; here the clamped
colour is returned). -/
def clamp (c : Color F) : Color F :=
  ⟨min 1.0 (max 0.0 c.r), min 1.0 (max 0.0 c.g), min 1.0 (max 0.0 c.b)⟩

/-- The `operator+` of `Color`. -/
def add (a c : Color F) : Color F := ⟨a.r + c.r, a.g + c.g, a.b + c.b⟩

/-- The `operator*(double scalar)` of `Color`. -/
def scale (a : Color F) (scalar : F) : Color F :=
  ⟨a.r * scalar, a.g * scalar, a.b * scalar⟩

/-- The `operator*(const Color& c)` of `Color`: channel-wise product. -/
def mul (a c : Color F) : Color F := ⟨a.r * c.r, a.g * c.g, a.b * c.b⟩

end Color

/-! ## Ray -/

/-- The class `Ray`: public fields `origin` and `direction`. -/
structure Ray (F : Type) where
  origin : Vector3D F
  direction : Vector3D F

/-- The constructor `Ray(origin, direction)`: the direction is normalized. -/
def Ray.new {F : Type} [LinearOrderedField F] (m : CMath F)
    (origin direction : Vector3D F) : Ray F :=
  ⟨origin, direction.normalize m⟩

/-! ## Quotients that may be infinite or NaN -/

/-- The value of a `double` that results from a division: a finite number,
`+infinity`, `-infinity` or NaN. -/
inductive Quo (F : Type) where
  | fin (v : F)
  | posInf
  | negInf
  | nan

namespace Quo

variable {F : Type} [LinearOrderedField F]

/-- The C++ quotient `x / y` of two finite numbers, for a divisor that is
non-zero or a positive zero (the divisor `2 * k1` of `Sphere::intersect`, a
sum of squares): `0 / 0` is NaN, `x / 0` is the infinity of the sign of `x`. -/
def div (x y : F) : Quo F :=
  if y = 0 then
    if x = 0 then nan else if x > 0 then posInf else negInf
  else fin (x / y)

/-- The comparison `a < b` of two doubles; it is false when either is NaN. -/
def lt : Quo F → Quo F → Prop
  | fin a, fin b => a < b
  | fin _, posInf => True
  | fin _, negInf => False
  | fin _, nan => False
  | posInf, _ => False
  | negInf, fin _ => True
  | negInf, posInf => True
  | negInf, negInf => False
  | negInf, nan => False
  | nan, _ => False

instance decLt : (a b : Quo F) → Decidable (lt a b)
  | fin a, fin b => inferInstanceAs (Decidable (a < b))
  | fin _, posInf => inferInstanceAs (Decidable True)
  | fin _, negInf => inferInstanceAs (Decidable False)
  | fin _, nan => inferInstanceAs (Decidable False)
  | posInf, fin _ => inferInstanceAs (Decidable False)
  | posInf, posInf => inferInstanceAs (Decidable False)
  | posInf, negInf => inferInstanceAs (Decidable False)
  | posInf, nan => inferInstanceAs (Decidable False)
  | negInf, fin _ => inferInstanceAs (Decidable True)
  | negInf, posInf => inferInstanceAs (Decidable True)
  | negInf, negInf => inferInstanceAs (Decidable False)
  | negInf, nan => inferInstanceAs (Decidable False)
  | nan, fin _ => inferInstanceAs (Decidable False)
  | nan, posInf => inferInstanceAs (Decidable False)
  | nan, negInf => inferInstanceAs (Decidable False)
  | nan, nan => inferInstanceAs (Decidable False)

/-- The comparison `q >= 0` of a double with zero; it is false for NaN. -/
def ge0 : Quo F → Prop
  | fin v => v ≥ 0
  | posInf => True
  | negInf => False
  | nan => False

instance decGe0 : (q : Quo F) → Decidable (ge0 q)
  | fin v => inferInstanceAs (Decidable (v ≥ 0))
  | posInf => inferInstanceAs (Decidable True)
  | negInf => inferInstanceAs (Decidable False)
  | nan => inferInstanceAs (Decidable False)

/-- The function `std::min(a, b)`, which is `(b < a) ? b : a`. -/
def min (a b : Quo F) : Quo F := if lt b a then b else a

/-- The comparison `q > x` of a double with a finite number. -/
def gt (q : Quo F) (x : F) : Prop := lt (fin x) q

instance decGt (q : Quo F) (x : F) : Decidable (gt q x) := decLt (fin x) q

/-- The finite value of a double. `TraceRay` reads `closest_t` only after a
primitive was recorded, when it is finite (`nearestHit_finite` below); the
value `0` given for the other cases is never used. -/
def value : Quo F → F
  | fin v => v
  | posInf => 0
  | negInf => 0
  | nan => 0

end Quo

/-! ## Sphere -/

/-- The class `Sphere`. -/
structure Sphere (F : Type) where
  center : Vector3D F
  radius : F
  color : Color F
  specular : F
  reflective : F
  subsurfaceRadius : F
  scatteringCoefficient : F

namespace Sphere

variable {F : Type} [LinearOrderedField F]

/-- Local `oc` of `Sphere::intersect`. -/
def oc (s : Sphere F) (ray : Ray F) : Vector3D F := ray.origin.sub s.center

/-- Local `k1` of `Sphere::intersect`. -/
def k1 (ray : Ray F) : F := ray.direction.dot ray.direction

/-- Local `k2` of `Sphere::intersect`. -/
def k2 (s : Sphere F) (ray : Ray F) : F := 2 * (s.oc ray).dot ray.direction

/-- Local `k3` of `Sphere::intersect`. -/
def k3 (s : Sphere F) (ray : Ray F) : F :=
  (s.oc ray).dot (s.oc ray) - s.radius * s.radius

/-- Local `discriminant` of `Sphere::intersect`. -/
def discriminant (s : Sphere F) (ray : Ray F) : F :=
  s.k2 ray * s.k2 ray - 4 * k1 ray * s.k3 ray

/-- Local `t1` of `Sphere::intersect`: the quotient with `+ sqrt`. -/
def t1 (m : CMath F) (s : Sphere F) (ray : Ray F) : Quo F :=
  Quo.div (-(s.k2 ray) + m.sqrt (s.discriminant ray)) (2 * k1 ray)

/-- Local `t2` of `Sphere::intersect`: the quotient with `- sqrt`. -/
def t2 (m : CMath F) (s : Sphere F) (ray : Ray F) : Quo F :=
  Quo.div (-(s.k2 ray) - m.sqrt (s.discriminant ray)) (2 * k1 ray)

/-- Method `Sphere::intersect`. -/
def intersect (m : CMath F) (s : Sphere F) (ray : Ray F) : Option (Quo F) :=
  if s.discriminant ray < 0 then none
  else if (s.t1 m ray).ge0 ∧ (s.t2 m ray).ge0 then some (Quo.min (s.t1 m ray) (s.t2 m ray))
  else if (s.t1 m ray).ge0 then some (s.t1 m ray)
  else if (s.t2 m ray).ge0 then some (s.t2 m ray)
  else none

/-- Method `Sphere::getNormal`. -/
def getNormal (m : CMath F) (s : Sphere F) (point : Vector3D F) : Vector3D F :=
  (point.sub s.center).normalize m

end Sphere

/-! ## Triangle -/

/-- The class `Triangle`. -/
structure Triangle (F : Type) where
  A : Vector3D F
  B : Vector3D F
  C : Vector3D F
  color : Color F
  specular : F
  reflective : F
  subsurfaceRadius : F
  scatteringCoefficient : F

namespace Triangle

variable {F : Type} [LinearOrderedField F]

/-- Constant `EPSILON` of `Triangle::intersect`. -/
def EPSILON : F := 1e-8

/-- Local `edge1` of `Triangle::intersect`. -/
def edge1 (tr : Triangle F) : Vector3D F := tr.B.sub tr.A

/-- Local `edge2` of `Triangle::intersect`. -/
def edge2 (tr : Triangle F) : Vector3D F := tr.C.sub tr.A

/-- Local `h` of `Triangle::intersect`. -/
def h (tr : Triangle F) (ray : Ray F) : Vector3D F := ray.direction.cross tr.edge2

/-- Local `a` of `Triangle::intersect`. -/
def a (tr : Triangle F) (ray : Ray F) : F := tr.edge1.dot (tr.h ray)

/-- Local `f` of `Triangle::intersect`. -/
def f (tr : Triangle F) (ray : Ray F) : F := 1.0 / tr.a ray

/-- Local `s` of `Triangle::intersect`. -/
def s (tr : Triangle F) (ray : Ray F) : Vector3D F := ray.origin.sub tr.A

/-- Local `u` of `Triangle::intersect`. -/
def u (tr : Triangle F) (ray : Ray F) : F := tr.f ray * (tr.s ray).dot (tr.h ray)

/-- Local `q` of `Triangle::intersect`. -/
def q (tr : Triangle F) (ray : Ray F) : Vector3D F := (tr.s ray).cross tr.edge1

/-- Local `v` of `Triangle::intersect`. -/
def v (tr : Triangle F) (ray : Ray F) : F := tr.f ray * ray.direction.dot (tr.q ray)

/-- Local `tempT` of `Triangle::intersect`. -/
def tempT (tr : Triangle F) (ray : Ray F) : F := tr.f ray * tr.edge2.dot (tr.q ray)

/-- Method `Triangle::intersect` (Moller-Trumbore). -/
def intersect (tr : Triangle F) (ray : Ray F) : Option F :=
  if |tr.a ray| < EPSILON then none
  else if tr.u ray < 0.0 ∨ tr.u ray > 1.0 then none
  else if tr.v ray < 0.0 ∨ tr.u ray + tr.v ray > 1.0 then none
  else if tr.tempT ray > EPSILON then some (tr.tempT ray)
  else none

/-- Method `Triangle::intersect` together with the divisors of the divisions
it executes: none when it returns at the parallelism test (line 50), the
determinant `a`, of which line 52 takes the reciprocal, otherwise. -/
def intersectTraced (tr : Triangle F) (ray : Ray F) : Option F × List F :=
  if |tr.a ray| < EPSILON then (none, [])
  else
    (if tr.u ray < 0.0 ∨ tr.u ray > 1.0 then none
      else if tr.v ray < 0.0 ∨ tr.u ray + tr.v ray > 1.0 then none
      else if tr.tempT ray > EPSILON then some (tr.tempT ray)
      else none,
     [tr.a ray])

/-- Method `Triangle::getNormal`. -/
def getNormal (m : CMath F) (tr : Triangle F) : Vector3D F :=
  let normal := ((tr.B.sub tr.A).cross (tr.C.sub tr.A)).normalize m
  if normal.dot tr.A > 0 then normal.neg else normal

end Triangle

/-! ## Light -/

/-- The enum `LightType`. -/
inductive LightType where
  | AMBIENT
  | POINT
  | DIRECTIONAL
  deriving DecidableEq, Repr

/-- The class `Light`. -/
structure Light (F : Type) where
  type : LightType
  intensity : F
  position : Vector3D F
  direction : Vector3D F
  radius : F

namespace Light

variable {F : Type} [LinearOrderedField F]

/-- Constructor `Light(double intensity)`: an ambient light. -/
def ambient (intensity : F) : Light F :=
  ⟨LightType.AMBIENT, intensity, Vector3D.zero, Vector3D.zero, 0.0⟩

/-- Constructor `Light(double intensity, const Vector3D& position, double radius)`:
a point light. -/
def point (intensity : F) (position : Vector3D F) (radius : F) : Light F :=
  ⟨LightType.POINT, intensity, position, Vector3D.zero, radius⟩

/-- Constructor `Light(const Vector3D& direction, double intensity)`: a
directional light, its direction normalized. -/
def directional (m : CMath F) (direction : Vector3D F) (intensity : F) : Light F :=
  ⟨LightType.DIRECTIONAL, intensity, Vector3D.zero, direction.normalize m, 0.0⟩

end Light

/-! ## Distances that may be infinite -/

/-- A `double` used as an upper distance bound: a finite value or
`std::numeric_limits<double>::infinity()`. -/
inductive Dist (F : Type) where
  | fin (v : F)
  | inf

namespace Dist

variable {F : Type} [LinearOrderedField F]

/-- The comparison `t < d` of a finite `t` with a bound `d`. -/
def below (t : F) : Dist F → Prop
  | fin v => t < v
  | inf => True

instance decBelow (t : F) : (d : Dist F) → Decidable (below t d)
  | fin v => inferInstanceAs (Decidable (t < v))
  | inf => inferInstanceAs (Decidable True)

end Dist

namespace Quo

variable {F : Type} [LinearOrderedField F]

/-- The comparison `q < d` of a double with a bound. -/
def below (q : Quo F) : Dist F → Prop
  | Dist.fin v => lt q (fin v)
  | Dist.inf => lt q posInf

instance decBelow (q : Quo F) : (d : Dist F) → Decidable (below q d)
  | Dist.fin v => decLt q (fin v)
  | Dist.inf => decLt q posInf

end Quo

/-! ## The scene and the lighting integrator -/

/-- The global scene data of `RayTracer.cpp`. -/
structure Scene (F : Type) where
  spheres : List (Sphere F)
  triangles : List (Triangle F)
  lights : List (Light F)
  backgroundColor : Color F

section Tracer

variable {F : Type} [LinearOrderedField F]

/-- Constant `numSamples` of `computeLighting`. -/
def numSamples : Nat := 128

/-- The shadow test of `computeLighting`: some sphere, or failing that some
triangle, reports a distance `t` with `0 < t < t_max` on the shadow ray. -/
def inShadow (m : CMath F) (sc : Scene F) (shadowRay : Ray F) (t_max : Dist F) : Bool :=
  sc.spheres.any (fun sphere =>
    match sphere.intersect m shadowRay with
    | some t => decide (t.gt 0 ∧ t.below t_max)
    | none => false)
  || sc.triangles.any (fun triangle =>
    match triangle.intersect shadowRay with
    | some t => decide (t > 0 ∧ Dist.below t t_max)
    | none => false)

/-- Lines 84-93 of `computeLighting`: the local `lightSample` of one sample and
the position in the random stream after it; `j` is the position before. -/
def samplePoint (m : CMath F) (rnd : Nat → F) (light : Light F) (j : Nat) :
    Vector3D F × Nat :=
  if light.radius > 0 then
    let r := light.radius * m.sqrt (rnd j)
    let theta := 2.0 * m.pi * rnd (j + 1)
    let x := r * m.cos theta
    let y := r * m.sin theta
    let z := 0.0
    (light.position.add ⟨x, y, z⟩, j + 2)
  else (light.position, j)

/-- Line 95 of `computeLighting`: the local `lightDir`, from the shaded point
and the local `lightSample`. -/
def sampleDir (m : CMath F) (point lightSample : Vector3D F) : Vector3D F :=
  (lightSample.sub point).normalize m

/-- Line 96 of `computeLighting`: the local `t_max` of the shadow test. -/
def shadowBound (light : Light F) : Dist F :=
  if light.type = LightType.POINT then Dist.fin 1.0 else Dist.inf

/-- Lines 98-99 of `computeLighting`: the local `shadowRay`. -/
def shadowRayOf (m : CMath F) (point normal lightDir : Vector3D F) : Ray F :=
  Ray.new m
    (if lightDir.dot normal < 0 then point.sub (normal.mul 1e-5)
      else point.add (normal.mul 1e-5))
    lightDir

/-- Lines 122-135 of `computeLighting`: the new `sampleColor` after the
diffuse and specular terms of a sample that is not in shadow. -/
def shade (m : CMath F) (light : Light F) (normal view : Vector3D F) (specular : F)
    (lightDir : Vector3D F) (sampleColor : Color F) : Color F :=
  let n_dot_l := normal.dot lightDir
  let afterDiffuse :=
    if n_dot_l > 0 then
      let diffuseIntensity := light.intensity * n_dot_l
      sampleColor.add
        ((Color.mk diffuseIntensity diffuseIntensity diffuseIntensity).scale 0.8)
    else sampleColor
  if specular ≥ 0 then
    let reflectDir := (((Vector3D.smul 2 normal).mul (normal.dot lightDir))).sub lightDir
    let r_dot_v := reflectDir.dot view
    if r_dot_v > 0 then
      let specularIntensity := light.intensity * m.pow r_dot_v specular
      afterDiffuse.add
        ((Color.mk specularIntensity specularIntensity specularIntensity).scale 0.5)
    else afterDiffuse
  else afterDiffuse

/-- One iteration of the sample loop of `computeLighting` for a non-ambient
light. The state is `(sampleColor, position in the random stream)`. -/
def lightSample (m : CMath F) (rnd : Nat → F) (sc : Scene F) (light : Light F)
    (point normal view : Vector3D F) (specular : F) (st : Color F × Nat) :
    Color F × Nat :=
  let sampleColor := st.1
  let drawn : Vector3D F × Nat :=
    if light.radius > 0 then
      let r := light.radius * m.sqrt (rnd st.2)
      let theta := 2.0 * m.pi * rnd (st.2 + 1)
      let x := r * m.cos theta
      let y := r * m.sin theta
      let z := 0.0
      (light.position.add ⟨x, y, z⟩, st.2 + 2)
    else (light.position, st.2)
  let lightSample := drawn.1
  let lightDir := (lightSample.sub point).normalize m
  let t_max : Dist F := if light.type = LightType.POINT then Dist.fin 1.0 else Dist.inf
  let shadowOrig :=
    if lightDir.dot normal < 0 then point.sub (normal.mul 1e-5)
    else point.add (normal.mul 1e-5)
  let shadowRay := Ray.new m shadowOrig lightDir
  if inShadow m sc shadowRay t_max then (sampleColor, drawn.2)
  else
    let n_dot_l := normal.dot lightDir
    let afterDiffuse :=
      if n_dot_l > 0 then
        let diffuseIntensity := light.intensity * n_dot_l
        sampleColor.add
          ((Color.mk diffuseIntensity diffuseIntensity diffuseIntensity).scale 0.8)
      else sampleColor
    let afterSpecular :=
      if specular ≥ 0 then
        let reflectDir := (((Vector3D.smul 2 normal).mul (normal.dot lightDir))).sub lightDir
        let r_dot_v := reflectDir.dot view
        if r_dot_v > 0 then
          let specularIntensity := light.intensity * m.pow r_dot_v specular
          afterDiffuse.add
            ((Color.mk specularIntensity specularIntensity specularIntensity).scale 0.5)
        else afterDiffuse
      else afterDiffuse
    (afterSpecular, drawn.2)

/-- The body of the loop over the lights in `computeLighting`. The state is
`(result, position in the random stream)`. -/
def lightStep (m : CMath F) (rnd : Nat → F) (sc : Scene F)
    (point normal view : Vector3D F) (specular : F) (st : Color F × Nat)
    (light : Light F) : Color F × Nat :=
  if light.type = LightType.AMBIENT then
    (st.1.add ⟨light.intensity, light.intensity, light.intensity⟩, st.2)
  else
    let samples := (List.range numSamples).foldl
      (fun acc _ => lightSample m rnd sc light point normal view specular acc)
      (⟨0, 0, 0⟩, st.2)
    (st.1.add (samples.1.scale (1.0 / (numSamples : F))), samples.2)

/-- Function `computeLighting`; `i` is the position in the random stream
at entry, the new position is returned with the colour. -/
def computeLighting (m : CMath F) (rnd : Nat → F) (sc : Scene F)
    (point normal view : Vector3D F) (specular : F) (i : Nat) : Color F × Nat :=
  sc.lights.foldl (lightStep m rnd sc point normal view specular) (⟨0, 0, 0⟩, i)

/-! ## The recursive tracer -/

/-- The three locals of the nearest-hit search of `TraceRay`: `closest_t`,
`closest_sphere` and `closest_triangle` (a null pointer is `none`). -/
structure Closest (F : Type) where
  closest_t : Quo F
  closest_sphere : Option (Sphere F)
  closest_triangle : Option (Triangle F)

/-- Body of the loop over the spheres in `TraceRay`. -/
def sphereStep (m : CMath F) (ray : Ray F) (t_min : F) (t_max : Dist F)
    (st : Closest F) (sphere : Sphere F) : Closest F :=
  match sphere.intersect m ray with
  | some t =>
    if t.gt t_min ∧ t.below t_max ∧ Quo.lt t st.closest_t then
      ⟨t, some sphere, none⟩
    else st
  | none => st

/-- Body of the loop over the triangles in `TraceRay`. -/
def triangleStep (ray : Ray F) (t_min : F) (t_max : Dist F)
    (st : Closest F) (triangle : Triangle F) : Closest F :=
  match triangle.intersect ray with
  | some t =>
    if t > t_min ∧ Dist.below t t_max ∧ Quo.lt (Quo.fin t) st.closest_t then
      ⟨Quo.fin t, none, some triangle⟩
    else st
  | none => st

/-- The nearest-hit search of `TraceRay`: the loop over the spheres, then the
loop over the triangles, from `closest_t = infinity` and two null pointers. -/
def nearestHit (m : CMath F) (sc : Scene F) (ray : Ray F) (t_min : F)
    (t_max : Dist F) : Closest F :=
  sc.triangles.foldl (triangleStep ray t_min t_max)
    (sc.spheres.foldl (sphereStep m ray t_min t_max) ⟨Quo.posInf, none, none⟩)

/-- The locals `normal`, `objectColor`, `specular`, `reflective`, `sssRadius`
and `sssScatter` that `TraceRay` fills in from the object hit. -/
structure Surface (F : Type) where
  normal : Vector3D F
  objectColor : Color F
  specular : F
  reflective : F
  sssRadius : F
  sssScatter : F

/-- The early return and the `if (closest_sphere) ... else ...` of `TraceRay`:
`none` when both pointers are null (the background is returned), otherwise
the surface data of the sphere when `closest_sphere` is set and of the
triangle when it is not. -/
def surfaceOf (m : CMath F) (cl : Closest F) (point : Vector3D F) : Option (Surface F) :=
  match cl.closest_sphere, cl.closest_triangle with
  | none, none => none
  | some s, _ =>
    some ⟨s.getNormal m point, s.color, s.specular, s.reflective,
      s.subsurfaceRadius, s.scatteringCoefficient⟩
  | none, some tr =>
    some ⟨tr.getNormal m, tr.color, tr.specular, tr.reflective,
      tr.subsurfaceRadius, tr.scatteringCoefficient⟩

/-- Constant `sssSamples` of `TraceRay`. -/
def sssSamples : Nat := 16

/-- One iteration of the subsurface-scattering loop of `TraceRay`. The state
is `((sssAccum, totalWeight), position in the random stream)`. -/
def sssSample (m : CMath F) (rnd : Nat → F) (sc : Scene F) (point : Vector3D F)
    (sf : Surface F) (N T B : Vector3D F) (st : (Color F × F) × Nat) :
    (Color F × F) × Nat :=
  let sssAccum := st.1.1
  let totalWeight := st.1.2
  let r := sf.sssRadius * m.sqrt (rnd st.2)
  let theta := 2.0 * m.pi * rnd (st.2 + 1)
  let dx := r * m.cos theta
  let dy := r * m.sin theta
  let offsetPoint := (point.add (T.mul dx)).add (B.mul dy)
  let probeRay := Ray.new m (offsetPoint.add (N.mul 1e-5)) N
  let lit := computeLighting m rnd sc offsetPoint N probeRay.direction.neg sf.specular
    (st.2 + 2)
  let probeLight := lit.1.mul sf.objectColor
  let dist := (offsetPoint.sub point).length m
  let weight := m.exp (-dist / (sf.sssScatter * sf.sssRadius))
  ((sssAccum.add (probeLight.scale weight), totalWeight + weight), lit.2)

/-- The block "Approximate Subsurface Scattering" of `TraceRay`: the new
`localColor` and the new position in the random stream. -/
def sssBlock (m : CMath F) (rnd : Nat → F) (sc : Scene F) (point : Vector3D F)
    (sf : Surface F) (localColor : Color F) (i : Nat) : Color F × Nat :=
  if sf.sssRadius > 0.0 ∧ sf.sssScatter > 0.0 then
    let N := sf.normal
    let helper : Vector3D F := if |N.x| > 0.1 then ⟨0, 1, 0⟩ else ⟨1, 0, 0⟩
    let T := (helper.cross N).normalize m
    let B := N.cross T
    let acc := (List.range sssSamples).foldl
      (fun st _ => sssSample m rnd sc point sf N T B st) ((⟨0, 0, 0⟩, 0.0), i)
    let sssAccum := acc.1.1
    let totalWeight := acc.1.2
    if totalWeight > 0.0 then
      let sssResult := sssAccum.scale (1.0 / totalWeight)
      let blendFactor : F := 0.5
      ((localColor.scale (1.0 - blendFactor)).add (sssResult.scale blendFactor), acc.2)
    else (localColor, acc.2)
  else (localColor, i)

/-- Line 172 of `TraceRay`: the local `point`, from the result of the
nearest-hit search. -/
def hitPoint (m : CMath F) (sc : Scene F) (ray : Ray F) (t_min : F) (t_max : Dist F) :
    Vector3D F :=
  ray.origin.add (ray.direction.mul (nearestHit m sc ray t_min t_max).closest_t.value)

/-- Lines 170-194 of `TraceRay`: the surface data of the object hit, `none`
when nothing was hit. -/
def hitSurface (m : CMath F) (sc : Scene F) (ray : Ray F) (t_min : F) (t_max : Dist F) :
    Option (Surface F) :=
  surfaceOf m (nearestHit m sc ray t_min t_max) (hitPoint m sc ray t_min t_max)

/-- Lines 199-205 of `TraceRay`: the local `reflectionColor` and the position
in the random stream after it; `j` is the position before. -/
def reflectionPart (m : CMath F) (recurse : Ray F → F → Dist F → Nat → Color F × Nat)
    (ray : Ray F) (point : Vector3D F) (sf : Surface F) (t_max : Dist F) (j : Nat) :
    Color F × Nat :=
  if sf.reflective > 0 then
    let reflectDir := ray.direction.sub
      ((sf.normal.mul 2).mul (ray.direction.dot sf.normal))
    let reflectRay := Ray.new m (point.add (sf.normal.mul 1e-5)) reflectDir
    let traced := recurse reflectRay 0.001 t_max j
    (traced.1.scale sf.reflective, traced.2)
  else (⟨0, 0, 0⟩, j)

/-- Lines 207-216 of `TraceRay`: the local `indirectColor` and the position in
the random stream after it; `j` is the position before. -/
def indirectPart (m : CMath F) (rnd : Nat → F)
    (recurse : Ray F → F → Dist F → Nat → Color F × Nat)
    (point : Vector3D F) (sf : Surface F) (t_max : Dist F) (depth : Int) (j : Nat) :
    Color F × Nat :=
  if depth > 1 then
    let terminationProbability : F := 0.2
    if rnd j > terminationProbability then
      let randomDir := sf.normal.randomHemisphere m rnd (j + 1)
      let indirectRay := Ray.new m (point.add (sf.normal.mul 1e-5)) randomDir.1
      let traced := recurse indirectRay 0.001 t_max randomDir.2
      (traced.1.scale 0.1, traced.2)
    else (⟨0, 0, 0⟩, j + 1)
  else (⟨0, 0, 0⟩, j)

/-- Lines 148-255 of `TraceRay`, the part run when `depth > 0`. The two
recursive calls `TraceRay(..., depth - 1)` are the calls of `recurse`, which
takes the ray, `t_min`, `t_max` and the position in the random stream. -/
def traceBody (m : CMath F) (rnd : Nat → F) (sc : Scene F)
    (recurse : Ray F → F → Dist F → Nat → Color F × Nat)
    (ray : Ray F) (t_min : F) (t_max : Dist F) (depth : Int) (i : Nat) :
    Color F × Nat :=
  let cl := nearestHit m sc ray t_min t_max
  let point := ray.origin.add (ray.direction.mul cl.closest_t.value)
  match surfaceOf m cl point with
  | none => (sc.backgroundColor, i)
  | some sf =>
    let localLighting := computeLighting m rnd sc point sf.normal ray.direction.neg
      sf.specular i
    let localColor := sf.objectColor.mul localLighting.1
    -- Reflection
    let reflection : Color F × Nat :=
      if sf.reflective > 0 then
        let reflectDir := ray.direction.sub
          ((sf.normal.mul 2).mul (ray.direction.dot sf.normal))
        let reflectRay := Ray.new m (point.add (sf.normal.mul 1e-5)) reflectDir
        let traced := recurse reflectRay 0.001 t_max localLighting.2
        (traced.1.scale sf.reflective, traced.2)
      else (⟨0, 0, 0⟩, localLighting.2)
    -- Indirect lighting (simple diffuse)
    let indirect : Color F × Nat :=
      if depth > 1 then
        let terminationProbability : F := 0.2
        if rnd reflection.2 > terminationProbability then
          let randomDir := sf.normal.randomHemisphere m rnd (reflection.2 + 1)
          let indirectRay := Ray.new m (point.add (sf.normal.mul 1e-5)) randomDir.1
          let traced := recurse indirectRay 0.001 t_max randomDir.2
          (traced.1.scale 0.1, traced.2)
        else (⟨0, 0, 0⟩, reflection.2 + 1)
      else (⟨0, 0, 0⟩, reflection.2)
    -- Approximate Subsurface Scattering
    let sss := sssBlock m rnd sc point sf localColor indirect.2
    let finalColor := (sss.1.add reflection.1).add indirect.1
    (finalColor.clamp, sss.2)

/-- Function `TraceRay`; `i` is the position in the random stream at entry,
the new position is returned with the colour. -/
def TraceRay (m : CMath F) (rnd : Nat → F) (sc : Scene F) (ray : Ray F) (t_min : F)
    (t_max : Dist F) (depth : Int) (i : Nat) : Color F × Nat :=
  if _hd : depth ≤ 0 then (⟨0, 0, 0⟩, i)
  else
    traceBody m rnd sc (fun r lo hi j => TraceRay m rnd sc r lo hi (depth - 1) j)
      ray t_min t_max depth i
termination_by depth.toNat
decreasing_by
  all_goals simp_wf
  all_goals omega

end Tracer

/-! ## The scene of `setupScene` -/

/-- Function `setupScene`: the spheres, triangle and lights it pushes and the
initial value of the global `backgroundColor`. -/
def setupScene {F : Type} [LinearOrderedField F] (m : CMath F) : Scene F where
  spheres :=
    [ ⟨⟨0, -1, 3⟩, 1, ⟨1, 0.5, 0.5⟩, 500, 0.2, 2.0, 0.5⟩,
      ⟨⟨2, 0, 4⟩, 1, ⟨0.5, 0.5, 1⟩, 500, 0.3, 3.0, 0.3⟩,
      ⟨⟨-2, 0, 4⟩, 1, ⟨0.5, 1, 0.5⟩, 10, 0.4, 1.5, 0.3⟩,
      ⟨⟨0, -5002, 0⟩, 5000, ⟨1.0, 0.9, 0.6⟩, 1000, 0.2, 0.0, 0.0⟩ ]
  triangles :=
    [ ⟨⟨0, 0, 2⟩, ⟨1, 2, 2⟩, ⟨-1, 2, 2⟩, ⟨1, 0, 1⟩, 1000, 0.4, 3.0, 0.3⟩ ]
  lights :=
    [ Light.ambient 0.3,
      Light.point 0.8 ⟨-4, 3, 3⟩ 1.0,
      Light.directional m ⟨1, 4, 4⟩ 0.5,
      Light.point 1.0 ⟨0, 1.5, -2⟩ 0.5 ]
  backgroundColor := ⟨0.2, 0.3, 0.5⟩

/-! ## Notions used to state the properties -/

section SpecNotions

variable {F : Type} [LinearOrderedField F]

/-- What the theorems assume of `std::sqrt`: on a non-negative argument it
returns the non-negative square root. -/
def CMath.SqrtSpec (m : CMath F) : Prop :=
  ∀ x : F, 0 ≤ x → 0 ≤ m.sqrt x ∧ m.sqrt x * m.sqrt x = x

/-- The root `(-k2 + sqrt(discriminant)) / (2 k1)` of the quadratic of
`Sphere::intersect`; it is the value of the local `t1` when `k1` is not zero. -/
def Sphere.root1 (m : CMath F) (s : Sphere F) (ray : Ray F) : F :=
  (-(s.k2 ray) + m.sqrt (s.discriminant ray)) / (2 * Sphere.k1 ray)

/-- The root `(-k2 - sqrt(discriminant)) / (2 k1)` of the quadratic of
`Sphere::intersect`; it is the value of the local `t2` when `k1` is not zero. -/
def Sphere.root2 (m : CMath F) (s : Sphere F) (ray : Ray F) : F :=
  (-(s.k2 ray) - m.sqrt (s.discriminant ray)) / (2 * Sphere.k1 ray)

/-- Every channel of the colour lies in the closed interval `[0, 1]`. -/
def Color.inUnit (c : Color F) : Prop :=
  (0 ≤ c.r ∧ c.r ≤ 1) ∧ (0 ≤ c.g ∧ c.g ≤ 1) ∧ (0 ≤ c.b ∧ c.b ≤ 1)

/-- The reflection vector `2 * normal * (normal . lightDir) - lightDir`. -/
def reflectOf (normal lightDir : Vector3D F) : Vector3D F :=
  ((Vector3D.smul 2 normal).mul (normal.dot lightDir)).sub lightDir

/-- The diffuse term `intensity * max(0, normal . lightDir) * 0.8` of a sample. -/
def Light.diffuseTerm (light : Light F) (normal lightDir : Vector3D F) : F :=
  light.intensity * max 0 (normal.dot lightDir) * 0.8

/-- The specular term `intensity * max(0, reflect . view)^s * 0.5` of a sample,
the power being that of `std::pow`. -/
def Light.specularTerm (m : CMath F) (light : Light F) (normal view lightDir : Vector3D F)
    (s : F) : F :=
  light.intensity * m.pow (max 0 ((reflectOf normal lightDir).dot view)) s * 0.5

end SpecNotions

/-! ## Example data -/

section Examples

variable {F : Type} [LinearOrderedField F]

/-- The sphere of the worked example: centre `(0,0,0)`, radius `1`, with the
material of the first sphere of `setupScene`. -/
def unitSphere : Sphere F := ⟨⟨0, 0, 0⟩, 1, ⟨1, 0.5, 0.5⟩, 500, 0.2, 2.0, 0.5⟩

/-- The ray of the sphere example: origin `(0,0,-5)`, direction `(0,0,1)`. -/
def zRay : Ray F := ⟨⟨0, 0, -5⟩, ⟨0, 0, 1⟩⟩

/-- The triangle of the worked example: `A = (0,0,0)`, `B = (1,0,0)`,
`C = (0,1,0)`, with the material of the triangle of `setupScene`. -/
def cornerTriangle : Triangle F :=
  ⟨⟨0, 0, 0⟩, ⟨1, 0, 0⟩, ⟨0, 1, 0⟩, ⟨1, 0, 1⟩, 1000, 0.4, 3.0, 0.3⟩

/-- A scene with the unit sphere, the example triangle and an ambient light. -/
def windowScene : Scene F :=
  ⟨[unitSphere], [cornerTriangle], [Light.ambient 0.3], ⟨0.2, 0.3, 0.5⟩⟩

/-- An empty scene whose background colour has a red channel of `2`. -/
def brightScene : Scene F := ⟨[], [], [], ⟨2, 0, 0⟩⟩

/-- A ray from the camera position `(0,1,-3)` of `main` along `(0,0,1)`. -/
def cameraRay : Ray F := ⟨⟨0, 1, -3⟩, ⟨0, 0, 1⟩⟩

/-- A ray from the camera position whose direction is the zero vector. -/
def zeroRay : Ray F := ⟨⟨0, 1, -3⟩, ⟨0, 0, 0⟩⟩

/-- The unit sphere at the origin with reflectivity `0` and no subsurface
scattering. -/
def matteSphere : Sphere F := ⟨⟨0, 0, 0⟩, 1, ⟨1, 0.5, 0.5⟩, 500, 0, 0, 0⟩

/-- A scene with the matte sphere alone and an ambient light. -/
def matteScene : Scene F :=
  ⟨[matteSphere], [], [Light.ambient 0.3], ⟨0.2, 0.3, 0.5⟩⟩

/-- A scene without primitives and without lights. -/
def emptyScene : Scene F := ⟨[], [], [], ⟨0.2, 0.3, 0.5⟩⟩

/-- A point light of intensity `1` at `(0,0,2)` with radius `0`. -/
def lamp : Light F := Light.point 1 ⟨0, 0, 2⟩ 0

end Examples

/-! ## Parts of the tracer named for the properties -/

section Parts

variable {F : Type} [LinearOrderedField F]

/-- The local `reflectRay` of `TraceRay`. -/
def reflectRayOf (m : CMath F) (ray : Ray F) (point : Vector3D F) (sf : Surface F) :
    Ray F :=
  let reflectDir := ray.direction.sub
    ((sf.normal.mul 2).mul (ray.direction.dot sf.normal))
  Ray.new m (point.add (sf.normal.mul 1e-5)) reflectDir

/-- The local `indirectRay` of `TraceRay`; `j` is the position in the random
stream before the draw of the roulette number, so that the two draws of
`randomHemisphere` are at `j + 1` and `j + 2`. -/
def indirectRayOf (m : CMath F) (rnd : Nat → F) (point : Vector3D F) (sf : Surface F)
    (j : Nat) : Ray F :=
  let randomDir := sf.normal.randomHemisphere m rnd (j + 1)
  Ray.new m (point.add (sf.normal.mul 1e-5)) randomDir.1

/-- The number of invocations of `TraceRay` that the call with these
arguments causes, itself included: the control flow of `TraceRay` with a
counter in place of the colour. An invocation with `depth <= 0`, or one
that misses, counts for one; one that hits adds the invocations of the
reflection call, made when `reflective > 0`, and those of the indirect call,
made when `depth > 1` and the roulette draw exceeds `0.2`, each with
`depth - 1` and with the position in the random stream it has in
`TraceRay`. -/
def invocations (m : CMath F) (rnd : Nat → F) (sc : Scene F) (ray : Ray F) (t_min : F)
    (t_max : Dist F) (depth : Int) (i : Nat) : Nat :=
  if _hd : depth ≤ 0 then 1
  else
    match hitSurface m sc ray t_min t_max with
    | none => 1
    | some sf =>
      let point := hitPoint m sc ray t_min t_max
      let localLighting := computeLighting m rnd sc point sf.normal ray.direction.neg
        sf.specular i
      let reflectionCalls : Nat :=
        if sf.reflective > 0 then
          invocations m rnd sc (reflectRayOf m ray point sf) 0.001 t_max (depth - 1)
            localLighting.2
        else 0
      let reflection := reflectionPart m
        (fun r lo hi j => TraceRay m rnd sc r lo hi (depth - 1) j)
        ray point sf t_max localLighting.2
      let indirectCalls : Nat :=
        if depth > 1 ∧ rnd reflection.2 > 0.2 then
          invocations m rnd sc (indirectRayOf m rnd point sf reflection.2) 0.001 t_max
            (depth - 1) (sf.normal.randomHemisphere m rnd (reflection.2 + 1)).2
        else 0
      1 + reflectionCalls + indirectCalls
termination_by depth.toNat
decreasing_by
  all_goals simp_wf
  all_goals omega

/-- The body of the two loops of the nearest-hit search of `TraceRay` as one
function of the primitive scanned: `sphereStep` for a sphere, `triangleStep`
for a triangle. -/
def primStep (m : CMath F) (ray : Ray F) (t_min : F) (t_max : Dist F)
    (st : Closest F) : Sphere F ⊕ Triangle F → Closest F
  | Sum.inl sphere => sphereStep m ray t_min t_max st sphere
  | Sum.inr triangle => triangleStep ray t_min t_max st triangle

end Parts

section SpecNotions2

variable {F : Type} [LinearOrderedField F]

/-- The primitives of a scene in the order in which the nearest-hit search of
`TraceRay` scans them: the spheres in list order, then the triangles in list
order. -/
def Scene.scanOrder (sc : Scene F) : List (Sphere F ⊕ Triangle F) :=
  sc.spheres.map Sum.inl ++ sc.triangles.map Sum.inr

/-- The primitive reports the finite distance `t` for the ray: its
`intersect` returns `true` with output `t`. -/
def Reports (m : CMath F) (ray : Ray F) (p : Sphere F ⊕ Triangle F) (t : F) : Prop :=
  match p with
  | Sum.inl sphere => sphere.intersect m ray = some (Quo.fin t)
  | Sum.inr triangle => triangle.intersect ray = some t

/-- The distance lies strictly inside the window: `t_min < t < t_max`. -/
def InWindow (t_min : F) (t_max : Dist F) (t : F) : Prop :=
  t_min < t ∧ Dist.below t t_max

/-- The three locals of the nearest-hit search when the primitive `p` is the
one selected, at distance `t`: `closest_t = t`, the pointer of the kind of
`p` set to `p`, the other pointer null. -/
def Closest.selecting (t : F) : Sphere F ⊕ Triangle F → Closest F
  | Sum.inl sphere => ⟨Quo.fin t, some sphere, none⟩
  | Sum.inr triangle => ⟨Quo.fin t, none, some triangle⟩

end SpecNotions2

section Examples2

variable {F : Type} [LinearOrderedField F]

/-- A scene with the matte sphere, an ambient light and the point light
`lamp`, whose radius is `0`. -/
def lampScene : Scene F :=
  ⟨[matteSphere], [], [Light.ambient 0.3, lamp], ⟨0.2, 0.3, 0.5⟩⟩

end Examples2

section SpecNotions3

variable {F : Type} [LinearOrderedField F]

/-- What the nearest-hit search holds after it has scanned the primitives
`pre`, in this order: either no primitive of `pre` reports a distance inside
the window and the three locals have their initial values, or the locals
select a primitive `p` of `pre` at the distance `t` it reports, `t` lies
inside the window, every primitive before `p` reports only distances that
are outside the window or strictly greater than `t`, and every primitive
after `p` only distances that are outside the window or at least `t`. -/
def Scanned (m : CMath F) (ray : Ray F) (t_min : F) (t_max : Dist F)
    (pre : List (Sphere F ⊕ Triangle F)) (st : Closest F) : Prop :=
  (st = ⟨Quo.posInf, none, none⟩ ∧
    ∀ q ∈ pre, ∀ u : F, Reports m ray q u → ¬ InWindow t_min t_max u) ∨
  (∃ (t : F) (p : Sphere F ⊕ Triangle F) (before after : List (Sphere F ⊕ Triangle F)),
    pre = before ++ p :: after ∧ Reports m ray p t ∧ InWindow t_min t_max t ∧
    (∀ q ∈ before, ∀ u : F, Reports m ray q u → InWindow t_min t_max u → t < u) ∧
    (∀ q ∈ after, ∀ u : F, Reports m ray q u → InWindow t_min t_max u → t ≤ u) ∧
    st = Closest.selecting t p)

end SpecNotions3

section SpecNotions4

variable {F : Type} [LinearOrderedField F]

end SpecNotions4

/-! ## The type `double` -/

/-- A value of the C++ type `double` (IEEE-754 binary64), up to the sign of a
zero: the finite number `(-1)^neg * m * 2^e`, an infinity, or NaN. Every
operation returns a finite result in the canonical form in which `m` is odd,
or `m = 0`, `e = 0` and `neg = false`, so that two results are equal as
terms exactly when they are the same number. -/
inductive Dbl where
  | fin (neg : Bool) (m : Nat) (e : Int)
  | inf (neg : Bool)
  | nan
  deriving DecidableEq

namespace Dbl

/-- Binary search for the number of bits, from the step `2^k` downwards. -/
def bitsAux : Nat → Nat → Nat → Nat
  | 0, n, acc => if n = 0 then acc else acc + 1
  | k + 1, n, acc =>
    if n ≥ 1 <<< (1 <<< k) then bitsAux k (n >>> (1 <<< k)) (acc + (1 <<< k))
    else bitsAux k n acc

/-- The number of bits of `n` (for `n < 2^8192`): `0` for `0`, otherwise the
`b` with `2^(b-1) <= n < 2^b`. -/
def bits (n : Nat) : Nat := bitsAux 13 n 0

/-- Binary search for the number of trailing zero bits. -/
def tzAux : Nat → Nat → Nat → Nat
  | 0, _, acc => acc
  | k + 1, n, acc =>
    if n % (1 <<< (1 <<< k)) = 0 then tzAux k (n >>> (1 <<< k)) (acc + (1 <<< k))
    else tzAux k n acc

/-- The number of trailing zero bits of `n` (for `0 < n < 2^8192`). -/
def trailingZeros (n : Nat) : Nat := if n = 0 then 0 else tzAux 13 n 0

/-- The canonical form of the finite number `(-1)^neg * m * 2^e`. -/
def canon (neg : Bool) (m : Nat) (e : Int) : Dbl :=
  let m' := m >>> trailingZeros m
  fin (neg && decide (m' ≠ 0)) m' (if m' = 0 then 0 else e + (trailingZeros m : Nat))

/-- The integer nearest to `n / 2^shift`, ties to even. -/
def roundAt (n shift : Nat) : Nat :=
  if shift = 0 then n
  else
    let hi := n >>> shift
    let lo := n % (1 <<< shift)
    let half := 1 <<< (shift - 1)
    if lo > half ∨ (lo = half ∧ hi % 2 = 1) then hi + 1 else hi

/-- The double nearest to `(-1)^neg * n * 2^e`, ties to even (the rounding
of every arithmetic operation): 53 significant bits, the last place never
below `2^-1074`, infinity from `2^1024` on. -/
def round (neg : Bool) (n : Nat) (e : Int) : Dbl :=
  if n = 0 then fin false 0 0
  else
    let top : Int := e + (bits n : Nat) - 1
    let q : Int := max (top - 52) (-1074)
    let m : Nat := if e ≥ q then n <<< (e - q).toNat else roundAt n (q - e).toNat
    if q + (bits m : Nat) > 1024 then inf neg else canon neg m q

/-- The double nearest to `(-1)^neg * (num / den) * 2^e`, for `den > 0`: the
quotient is taken to more than 64 bits and a last bit records whether a
remainder is left. -/
def roundRat (neg : Bool) (num den : Nat) (e : Int) : Dbl :=
  if num = 0 then fin false 0 0
  else
    let k := 64 + bits den
    let quo := (num <<< k) / den
    let rem := (num <<< k) % den
    round neg (2 * quo + (if rem = 0 then 0 else 1)) (e - (k : Nat) - 1)

/-- Bit-by-bit integer square root: the bits `k-1, ..., 0` of the root. -/
def isqrtAux : Nat → Nat → Nat → Nat
  | 0, _, r => r
  | k + 1, n, r =>
    if (r + (1 <<< k)) * (r + (1 <<< k)) ≤ n then isqrtAux k n (r + (1 <<< k))
    else isqrtAux k n r

/-- The integer square root of `n`: the largest `r` with `r * r <= n`. -/
def isqrt (n : Nat) : Nat := isqrtAux (bits n / 2 + 1) n 0

/-- The zero of type `double`. -/
def zero : Dbl := fin false 0 0

/-- Unary minus. -/
def neg : Dbl → Dbl
  | fin s m e => fin (!s && decide (m ≠ 0)) m e
  | inf s => inf (!s)
  | nan => nan

/-- Function `std::fabs`. -/
def abs : Dbl → Dbl
  | fin _ m e => fin false m e
  | inf _ => inf false
  | nan => nan

/-- The integer `(-1)^s * m * 2^(e - e0)`, for `e0 <= e`. -/
def scaled (s : Bool) (m : Nat) (e e0 : Int) : Int :=
  if s then -((m <<< (e - e0).toNat : Nat) : Int) else ((m <<< (e - e0).toNat : Nat) : Int)

/-- The sum `x + y`. -/
def add : Dbl → Dbl → Dbl
  | fin s1 m1 e1, fin s2 m2 e2 =>
    let e := min e1 e2
    let sum := scaled s1 m1 e1 e + scaled s2 m2 e2 e
    round (decide (sum < 0)) sum.natAbs e
  | fin _ _ _, inf s => inf s
  | inf s, fin _ _ _ => inf s
  | inf s1, inf s2 => if s1 = s2 then inf s1 else nan
  | nan, _ => nan
  | _, nan => nan

/-- The difference `x - y`. -/
def sub (x y : Dbl) : Dbl := add x (neg y)

/-- The product `x * y`. -/
def mul : Dbl → Dbl → Dbl
  | fin s1 m1 e1, fin s2 m2 e2 => round (s1 != s2) (m1 * m2) (e1 + e2)
  | fin s1 m _, inf s2 => if m = 0 then nan else inf (s1 != s2)
  | inf s1, fin s2 m _ => if m = 0 then nan else inf (s1 != s2)
  | inf s1, inf s2 => inf (s1 != s2)
  | nan, _ => nan
  | _, nan => nan

/-- The quotient `x / y`; a zero divisor is taken to be `+0`, which is the
only zero the program divides by. -/
def div : Dbl → Dbl → Dbl
  | fin s1 m1 e1, fin s2 m2 e2 =>
    if m2 = 0 then (if m1 = 0 then nan else inf s1)
    else roundRat (s1 != s2) m1 m2 (e1 - e2)
  | fin _ _ _, inf _ => fin false 0 0
  | inf s1, fin s2 _ _ => inf (s1 != s2)
  | inf _, inf _ => nan
  | nan, _ => nan
  | _, nan => nan

/-- Function `std::sqrt`, correctly rounded. -/
def sqrt : Dbl → Dbl
  | fin s m e =>
    if m = 0 then fin false 0 0
    else if s then nan
    else
      let p : Nat := if e % 2 = 0 then 0 else 1
      let n := m <<< (128 + p)
      let r := isqrt n
      round false (2 * r + (if r * r = n then 0 else 1)) ((e - (p : Nat) - 128) / 2 - 1)
  | inf s => if s then nan else inf false
  | nan => nan

/-- The comparison `x < y`; false when either is NaN. -/
def blt : Dbl → Dbl → Bool
  | fin s1 m1 e1, fin s2 m2 e2 =>
    decide (scaled s1 m1 e1 (min e1 e2) < scaled s2 m2 e2 (min e1 e2))
  | fin _ _ _, inf s => !s
  | inf s, fin _ _ _ => s
  | inf s1, inf s2 => s1 && !s2
  | nan, _ => false
  | _, nan => false

/-- The comparison `x == y`; false when either is NaN. -/
def beq : Dbl → Dbl → Bool
  | fin s1 m1 e1, fin s2 m2 e2 =>
    decide (scaled s1 m1 e1 (min e1 e2) = scaled s2 m2 e2 (min e1 e2))
  | inf s1, inf s2 => s1 == s2
  | _, _ => false

/-- The comparison `x <= y`; false when either is NaN. -/
def ble (x y : Dbl) : Bool := blt x y || beq x y

instance : LT Dbl := ⟨fun x y => blt x y = true⟩
instance : LE Dbl := ⟨fun x y => ble x y = true⟩
instance (x y : Dbl) : Decidable (x < y) := inferInstanceAs (Decidable (blt x y = true))
instance (x y : Dbl) : Decidable (x ≤ y) := inferInstanceAs (Decidable (ble x y = true))
instance : Add Dbl := ⟨add⟩
instance : Sub Dbl := ⟨sub⟩
instance : Mul Dbl := ⟨mul⟩
instance : Div Dbl := ⟨div⟩
instance : Neg Dbl := ⟨neg⟩

/-- Exponentiation by squaring: `acc * b^k` (for `k < 2^fuel`). -/
def powAux : Nat → Nat → Nat → Nat → Nat
  | 0, _, _, acc => acc
  | fuel + 1, b, k, acc =>
    if k = 0 then acc
    else powAux fuel (b * b) (k / 2) (if k % 2 = 1 then acc * b else acc)

/-- The power `10^k`. -/
def pow10 (k : Nat) : Nat := powAux 64 10 k 1

/-- The conversion of a non-negative `int` to `double`. -/
def ofNat (n : Nat) : Dbl := round false n 0

/-- An integer literal, converted to `double`. -/
instance (n : Nat) : OfNat Dbl n := ⟨round false n 0⟩

/-- A decimal literal: the double nearest to `mantissa / 10^exponent`, or to
`mantissa * 10^exponent`. -/
instance : OfScientific Dbl :=
  ⟨fun mantissa exponentSign exponent =>
    if exponentSign then roundRat false mantissa (pow10 exponent) 0
    else round false (mantissa * pow10 exponent) 0⟩

/-- The double is a finite number. -/
def isFinite : Dbl → Bool
  | fin _ _ _ => true
  | _ => false

/-- The rational number a finite double stands for (`0` for the others). -/
def toRat : Dbl → ℚ
  | fin s m e => (if s then -1 else 1) * (m : ℚ) * (2 : ℚ) ^ e
  | _ => 0

/-- The sign of a finite result is not set on a zero. -/
def signNormal : Dbl → Prop
  | fin s m _ => s = true → m ≠ 0
  | _ => True

/-- The sign bit is clear: the value is zero, positive, `+inf` or NaN. -/
def signClear : Dbl → Prop
  | fin s _ _ => s = false
  | inf s => s = false
  | nan => True

/-- The double `b` is not on the other side of zero from `a`: it does not
compare below `0` when `a` compares above `0`, nor above `0` when `a`
compares below `0`. -/
def sameSide (a b : Dbl) : Prop := ((0 : Dbl) < a → ¬ b < 0) ∧ (a < 0 → ¬ (0 : Dbl) < b)

/-- The magnitude of a finite double, as a rational number (`0` for an
infinity and for NaN). -/
def mag : Dbl → ℚ
  | fin _ m e => (m : ℚ) * (2 : ℚ) ^ e
  | _ => 0

/-- The relative error bound of one operation used in the error analysis:
`2^-52`, twice the unit roundoff. -/
def eta : ℚ := 1 / 4503599627370496

/-- The number `c` is `a` up to `k` relative errors of size `eta`:
`a (1 - eta)^k <= c <= a (1 + eta)^k`. -/
def Near (k : Nat) (c a : ℚ) : Prop := a * (1 - eta) ^ k ≤ c ∧ c ≤ a * (1 + eta) ^ k

/-- A finite double with a significand of at most `2^53` and an exponent
between `-1200` and `1200`; `pos` asks for the sign bit to be clear. -/
def Fits (pos : Bool) : Dbl → Prop
  | fin s m e => m ≤ 2 ^ 53 ∧ -1200 ≤ e ∧ e ≤ 1200 ∧ (pos = true → s = false)
  | _ => False

/-- The number `c` is zero or between `2^lo` and `2^hi`. -/
def ZeroOrBetween (lo hi : ℤ) (c : ℚ) : Prop :=
  c = 0 ∨ ((2 : ℚ) ^ lo ≤ c ∧ c ≤ (2 : ℚ) ^ hi)

/-- A double that is zero or of magnitude between `2^-100` and `2^100`, with a
significand below `2^53` and an exponent between `-153` and `100`, as every
double of this magnitude is stored. -/
def moderate : Dbl → Prop
  | fin _ m e => m < 2 ^ 53 ∧ -153 ≤ e ∧ e ≤ 100 ∧
      ZeroOrBetween (-100) 100 ((m : ℚ) * (2 : ℚ) ^ e)
  | _ => False

end Dbl

/-! ## The program on doubles

The functions of `Vector3D.cpp`, `Color.cpp`, `Ray.cpp`, `Sphere.cpp`,
`Triangle.cpp` and the lighting and subsurface code of `RayTracer.cpp` once
more, with every `double` a `Dbl` and every operation rounded as the
machine rounds it, in the order in which the source writes them. -/

namespace IEEE

/-- The functions of `<cmath>` that are not correctly rounded by the
standard, and are therefore not fixed here: `std::cos`, `std::sin`,
`std::exp` and `std::pow`. -/
structure Libm where
  cos : Dbl → Dbl
  sin : Dbl → Dbl
  exp : Dbl → Dbl
  pow : Dbl → Dbl → Dbl

/-- The constant `M_PI` of `<cmath>`. -/
def M_PI : Dbl := 3.14159265358979323846

/-- The value `std::numeric_limits<double>::infinity()`. -/
def infinity : Dbl := Dbl.inf false

/-- The class `Vector3D`. -/
structure Vector3D where
  x : Dbl
  y : Dbl
  z : Dbl
  deriving DecidableEq

namespace Vector3D

/-- The default constructor `Vector3D()`. -/
def zero : Vector3D := ⟨0.0, 0.0, 0.0⟩

/-- Unary `operator-`. -/
def neg (a : Vector3D) : Vector3D := ⟨-a.x, -a.y, -a.z⟩

/-- The `operator+`. -/
def add (a v : Vector3D) : Vector3D := ⟨a.x + v.x, a.y + v.y, a.z + v.z⟩

/-- Binary `operator-`. -/
def sub (a v : Vector3D) : Vector3D := ⟨a.x - v.x, a.y - v.y, a.z - v.z⟩

/-- Member `operator*(double)`. -/
def mul (a : Vector3D) (scalar : Dbl) : Vector3D :=
  ⟨a.x * scalar, a.y * scalar, a.z * scalar⟩

/-- Free `operator*(double, const Vector3D&)`. -/
def smul (scalar : Dbl) (v : Vector3D) : Vector3D :=
  ⟨v.x * scalar, v.y * scalar, v.z * scalar⟩

/-- The `operator/`. -/
def div (a : Vector3D) (scalar : Dbl) : Vector3D :=
  ⟨a.x / scalar, a.y / scalar, a.z / scalar⟩

/-- Method `dot`. -/
def dot (a v : Vector3D) : Dbl := a.x * v.x + a.y * v.y + a.z * v.z

/-- Method `cross`. -/
def cross (a v : Vector3D) : Vector3D :=
  ⟨a.y * v.z - a.z * v.y, a.z * v.x - a.x * v.z, a.x * v.y - a.y * v.x⟩

/-- Method `length`. -/
def length (a : Vector3D) : Dbl := Dbl.sqrt (a.x * a.x + a.y * a.y + a.z * a.z)

/-- Method `normalize`. -/
def normalize (a : Vector3D) : Vector3D :=
  let len := a.length
  if Dbl.beq len 0 then ⟨0, 0, 0⟩ else ⟨a.x / len, a.y / len, a.z / len⟩

/-- Method `normalize` together with the divisors of the divisions it
executes, in order. -/
def normalizeTraced (a : Vector3D) : Vector3D × List Dbl :=
  let len := a.length
  if Dbl.beq len 0 then (⟨0, 0, 0⟩, [])
  else (⟨a.x / len, a.y / len, a.z / len⟩, [len, len, len])

/-- The `operator==`. -/
def eq (a v : Vector3D) : Bool :=
  let EPSILON : Dbl := 1e-8
  decide (Dbl.abs (a.x - v.x) < EPSILON) && decide (Dbl.abs (a.y - v.y) < EPSILON) &&
    decide (Dbl.abs (a.z - v.z) < EPSILON)

/-- Method `randomHemisphere`; the two draws are taken from the stream `rnd`
at positions `i` and `i + 1`, and the new position is returned. -/
def randomHemisphere (m : Libm) (rnd : Nat → Dbl) (a : Vector3D) (i : Nat) :
    Vector3D × Nat :=
  let u1 := rnd i
  let u2 := rnd (i + 1)
  let r := Dbl.sqrt u1
  let theta := 2.0 * M_PI * u2
  let x_ := r * m.cos theta
  let y_ := r * m.sin theta
  let z_ := Dbl.sqrt (1.0 - u1)
  let N := a.normalize
  let helper : Vector3D := if Dbl.abs N.x > 0.1 then ⟨0, 1, 0⟩ else ⟨1, 0, 0⟩
  let T := (helper.cross N).normalize
  let B := N.cross T
  (((T.mul x_).add (B.mul y_)).add (N.mul z_), i + 2)

end Vector3D

/-- The class `Color`. -/
structure Color where
  r : Dbl
  g : Dbl
  b : Dbl
  deriving DecidableEq

namespace Color

/-- The `operator+`. -/
def add (a c : Color) : Color := ⟨a.r + c.r, a.g + c.g, a.b + c.b⟩

/-- The `operator*(double)`. -/
def scale (a : Color) (scalar : Dbl) : Color := ⟨a.r * scalar, a.g * scalar, a.b * scalar⟩

/-- The `operator*(const Color&)`. -/
def mul (a c : Color) : Color := ⟨a.r * c.r, a.g * c.g, a.b * c.b⟩

end Color

/-- The class `Ray`. -/
structure Ray where
  origin : Vector3D
  direction : Vector3D
  deriving DecidableEq

/-- Constructor `Ray(origin, direction)`: the direction is normalized. -/
def Ray.new (origin direction : Vector3D) : Ray := ⟨origin, direction.normalize⟩

/-- The class `Sphere`. -/
structure Sphere where
  center : Vector3D
  radius : Dbl
  color : Color
  specular : Dbl
  reflective : Dbl
  subsurfaceRadius : Dbl
  scatteringCoefficient : Dbl
  deriving DecidableEq

namespace Sphere

/-- Local `oc` of `Sphere::intersect`. -/
def oc (s : Sphere) (ray : Ray) : Vector3D := ray.origin.sub s.center

/-- Local `k1` of `Sphere::intersect`. -/
def k1 (ray : Ray) : Dbl := ray.direction.dot ray.direction

/-- Local `k2` of `Sphere::intersect`. -/
def k2 (s : Sphere) (ray : Ray) : Dbl := 2 * (s.oc ray).dot ray.direction

/-- Local `k3` of `Sphere::intersect`. -/
def k3 (s : Sphere) (ray : Ray) : Dbl := (s.oc ray).dot (s.oc ray) - s.radius * s.radius

/-- Local `discriminant` of `Sphere::intersect`. -/
def discriminant (s : Sphere) (ray : Ray) : Dbl :=
  s.k2 ray * s.k2 ray - 4 * k1 ray * s.k3 ray

/-- Local `t1` of `Sphere::intersect`. -/
def t1 (s : Sphere) (ray : Ray) : Dbl :=
  (-(s.k2 ray) + Dbl.sqrt (s.discriminant ray)) / (2 * k1 ray)

/-- Local `t2` of `Sphere::intersect`. -/
def t2 (s : Sphere) (ray : Ray) : Dbl :=
  (-(s.k2 ray) - Dbl.sqrt (s.discriminant ray)) / (2 * k1 ray)

/-- Method `Sphere::intersect`: `some t` for `true` with output `t`, `none`
for `false`. -/
def intersect (s : Sphere) (ray : Ray) : Option Dbl :=
  if s.discriminant ray < 0 then none
  else if s.t1 ray ≥ 0 ∧ s.t2 ray ≥ 0 then
    some (if s.t2 ray < s.t1 ray then s.t2 ray else s.t1 ray)
  else if s.t1 ray ≥ 0 then some (s.t1 ray)
  else if s.t2 ray ≥ 0 then some (s.t2 ray)
  else none

end Sphere

/-- The class `Triangle`. -/
structure Triangle where
  A : Vector3D
  B : Vector3D
  C : Vector3D
  color : Color
  specular : Dbl
  reflective : Dbl
  subsurfaceRadius : Dbl
  scatteringCoefficient : Dbl
  deriving DecidableEq

namespace Triangle

/-- Constant `EPSILON` of `Triangle::intersect`. -/
def EPSILON : Dbl := 1e-8

/-- Local `edge1` of `Triangle::intersect`. -/
def edge1 (tr : Triangle) : Vector3D := tr.B.sub tr.A

/-- Local `edge2` of `Triangle::intersect`. -/
def edge2 (tr : Triangle) : Vector3D := tr.C.sub tr.A

/-- Local `h` of `Triangle::intersect`. -/
def h (tr : Triangle) (ray : Ray) : Vector3D := ray.direction.cross tr.edge2

/-- Local `a` of `Triangle::intersect`. -/
def a (tr : Triangle) (ray : Ray) : Dbl := tr.edge1.dot (tr.h ray)

/-- Local `f` of `Triangle::intersect`. -/
def f (tr : Triangle) (ray : Ray) : Dbl := 1.0 / tr.a ray

/-- Local `s` of `Triangle::intersect`. -/
def s (tr : Triangle) (ray : Ray) : Vector3D := ray.origin.sub tr.A

/-- Local `u` of `Triangle::intersect`. -/
def u (tr : Triangle) (ray : Ray) : Dbl := tr.f ray * (tr.s ray).dot (tr.h ray)

/-- Local `q` of `Triangle::intersect`. -/
def q (tr : Triangle) (ray : Ray) : Vector3D := (tr.s ray).cross tr.edge1

/-- Local `v` of `Triangle::intersect`. -/
def v (tr : Triangle) (ray : Ray) : Dbl := tr.f ray * ray.direction.dot (tr.q ray)

/-- Local `tempT` of `Triangle::intersect`. -/
def tempT (tr : Triangle) (ray : Ray) : Dbl := tr.f ray * tr.edge2.dot (tr.q ray)

/-- Method `Triangle::intersect` (Moller-Trumbore). -/
def intersect (tr : Triangle) (ray : Ray) : Option Dbl :=
  if Dbl.abs (tr.a ray) < EPSILON then none
  else if tr.u ray < 0.0 ∨ tr.u ray > 1.0 then none
  else if tr.v ray < 0.0 ∨ tr.u ray + tr.v ray > 1.0 then none
  else if tr.tempT ray > EPSILON then some (tr.tempT ray)
  else none

/-- Method `Triangle::getNormal`. -/
def getNormal (tr : Triangle) : Vector3D :=
  let normal := ((tr.B.sub tr.A).cross (tr.C.sub tr.A)).normalize
  if normal.dot tr.A > 0 then normal.neg else normal

end Triangle

/-- The class `Light`. -/
structure Light where
  type : LightType
  intensity : Dbl
  position : Vector3D
  direction : Vector3D
  radius : Dbl
  deriving DecidableEq

namespace Light

/-- Constructor `Light(double intensity)`: an ambient light. -/
def ambient (intensity : Dbl) : Light :=
  ⟨LightType.AMBIENT, intensity, Vector3D.zero, Vector3D.zero, 0.0⟩

/-- Constructor `Light(double intensity, const Vector3D& position, double radius)`:
a point light. -/
def point (intensity : Dbl) (position : Vector3D) (radius : Dbl) : Light :=
  ⟨LightType.POINT, intensity, position, Vector3D.zero, radius⟩

end Light

/-- The global scene data of `RayTracer.cpp`. -/
structure Scene where
  spheres : List Sphere
  triangles : List Triangle
  lights : List Light
  backgroundColor : Color

/-- Constant `numSamples` of `computeLighting`. -/
def numSamples : Nat := 128

/-- The shadow test of `computeLighting`. -/
def inShadow (sc : Scene) (shadowRay : Ray) (t_max : Dbl) : Bool :=
  sc.spheres.any (fun sphere =>
    match sphere.intersect shadowRay with
    | some t => decide (t > 0 ∧ t < t_max)
    | none => false)
  || sc.triangles.any (fun triangle =>
    match triangle.intersect shadowRay with
    | some t => decide (t > 0 ∧ t < t_max)
    | none => false)

/-- One iteration of the sample loop of `computeLighting` for a non-ambient
light. The state is `(sampleColor, position in the random stream)`. -/
def lightSample (m : Libm) (rnd : Nat → Dbl) (sc : Scene) (light : Light)
    (point normal view : Vector3D) (specular : Dbl) (st : Color × Nat) : Color × Nat :=
  let sampleColor := st.1
  let drawn : Vector3D × Nat :=
    if light.radius > 0 then
      let r := light.radius * Dbl.sqrt (rnd st.2)
      let theta := 2.0 * M_PI * rnd (st.2 + 1)
      let x := r * m.cos theta
      let y := r * m.sin theta
      let z := 0.0
      (light.position.add ⟨x, y, z⟩, st.2 + 2)
    else (light.position, st.2)
  let lightSample := drawn.1
  let lightDir := (lightSample.sub point).normalize
  let t_max : Dbl := if light.type = LightType.POINT then 1.0 else infinity
  let shadowOrig :=
    if lightDir.dot normal < 0 then point.sub (normal.mul 1e-5)
    else point.add (normal.mul 1e-5)
  let shadowRay := Ray.new shadowOrig lightDir
  if inShadow sc shadowRay t_max then (sampleColor, drawn.2)
  else
    let n_dot_l := normal.dot lightDir
    let afterDiffuse :=
      if n_dot_l > 0 then
        let diffuseIntensity := light.intensity * n_dot_l
        sampleColor.add
          ((Color.mk diffuseIntensity diffuseIntensity diffuseIntensity).scale 0.8)
      else sampleColor
    let afterSpecular :=
      if specular ≥ 0 then
        let reflectDir := (((Vector3D.smul 2 normal).mul (normal.dot lightDir))).sub lightDir
        let r_dot_v := reflectDir.dot view
        if r_dot_v > 0 then
          let specularIntensity := light.intensity * m.pow r_dot_v specular
          afterDiffuse.add
            ((Color.mk specularIntensity specularIntensity specularIntensity).scale 0.5)
        else afterDiffuse
      else afterDiffuse
    (afterSpecular, drawn.2)

/-- The body of the loop over the lights in `computeLighting`. The state is
`(result, position in the random stream)`. -/
def lightStep (m : Libm) (rnd : Nat → Dbl) (sc : Scene)
    (point normal view : Vector3D) (specular : Dbl) (st : Color × Nat)
    (light : Light) : Color × Nat :=
  if light.type = LightType.AMBIENT then
    (st.1.add ⟨light.intensity, light.intensity, light.intensity⟩, st.2)
  else
    let samples := (List.range numSamples).foldl
      (fun acc _ => lightSample m rnd sc light point normal view specular acc)
      (⟨0, 0, 0⟩, st.2)
    (st.1.add (samples.1.scale (1.0 / Dbl.ofNat numSamples)), samples.2)

/-- Function `computeLighting`; `i` is the position in the random stream at
entry, the new position is returned with the colour. -/
def computeLighting (m : Libm) (rnd : Nat → Dbl) (sc : Scene)
    (point normal view : Vector3D) (specular : Dbl) (i : Nat) : Color × Nat :=
  sc.lights.foldl (lightStep m rnd sc point normal view specular) (⟨0, 0, 0⟩, i)

/-- The locals `normal`, `objectColor`, `specular`, `reflective`, `sssRadius`
and `sssScatter` that `TraceRay` fills in from the object hit. -/
structure Surface where
  normal : Vector3D
  objectColor : Color
  specular : Dbl
  reflective : Dbl
  sssRadius : Dbl
  sssScatter : Dbl

/-- Constant `sssSamples` of `TraceRay`. -/
def sssSamples : Nat := 16

/-- One iteration of the subsurface-scattering loop of `TraceRay`. The state
is `((sssAccum, totalWeight), position in the random stream)`. -/
def sssSample (m : Libm) (rnd : Nat → Dbl) (sc : Scene) (point : Vector3D)
    (sf : Surface) (N T B : Vector3D) (st : (Color × Dbl) × Nat) : (Color × Dbl) × Nat :=
  let sssAccum := st.1.1
  let totalWeight := st.1.2
  let r := sf.sssRadius * Dbl.sqrt (rnd st.2)
  let theta := 2.0 * M_PI * rnd (st.2 + 1)
  let dx := r * m.cos theta
  let dy := r * m.sin theta
  let offsetPoint := (point.add (T.mul dx)).add (B.mul dy)
  let probeRay := Ray.new (offsetPoint.add (N.mul 1e-5)) N
  let lit := computeLighting m rnd sc offsetPoint N probeRay.direction.neg sf.specular
    (st.2 + 2)
  let probeLight := lit.1.mul sf.objectColor
  let dist := (offsetPoint.sub point).length
  let weight := m.exp (-dist / (sf.sssScatter * sf.sssRadius))
  ((sssAccum.add (probeLight.scale weight), totalWeight + weight), lit.2)

/-- The loop of the block "Approximate Subsurface Scattering" of `TraceRay`:
the final `((sssAccum, totalWeight), position in the random stream)`. -/
def sssLoop (m : Libm) (rnd : Nat → Dbl) (sc : Scene) (point : Vector3D)
    (sf : Surface) (i : Nat) : (Color × Dbl) × Nat :=
  let N := sf.normal
  let helper : Vector3D := if Dbl.abs N.x > 0.1 then ⟨0, 1, 0⟩ else ⟨1, 0, 0⟩
  let T := (helper.cross N).normalize
  let B := N.cross T
  (List.range sssSamples).foldl
    (fun st _ => sssSample m rnd sc point sf N T B st) ((⟨0, 0, 0⟩, 0.0), i)

/-- The block "Approximate Subsurface Scattering" of `TraceRay`: the new
`localColor` and the new position in the random stream. -/
def sssBlock (m : Libm) (rnd : Nat → Dbl) (sc : Scene) (point : Vector3D)
    (sf : Surface) (localColor : Color) (i : Nat) : Color × Nat :=
  if sf.sssRadius > 0.0 ∧ sf.sssScatter > 0.0 then
    let acc := sssLoop m rnd sc point sf i
    let sssAccum := acc.1.1
    let totalWeight := acc.1.2
    if totalWeight > 0.0 then
      let sssResult := sssAccum.scale (1.0 / totalWeight)
      let blendFactor : Dbl := 0.5
      ((localColor.scale (1.0 - blendFactor)).add (sssResult.scale blendFactor), acc.2)
    else (localColor, acc.2)
  else (localColor, i)

end IEEE

/-! ## Doubles as exact numbers

The numbers the doubles of an input stand for, to state what holds of the
input in exact arithmetic next to what the program computes. -/

namespace IEEE

/-- The vector of the exact values of the components. -/
def Vector3D.exact (v : Vector3D) : RayTracer.Vector3D ℚ := ⟨v.x.toRat, v.y.toRat, v.z.toRat⟩

/-- The colour of the exact values of the channels. -/
def Color.exact (c : Color) : RayTracer.Color ℚ := ⟨c.r.toRat, c.g.toRat, c.b.toRat⟩

/-- The ray of the exact values of the components of a stored ray. -/
def Ray.exact (r : Ray) : RayTracer.Ray ℚ := ⟨r.origin.exact, r.direction.exact⟩

/-- The sphere of the exact values of the members of a stored sphere. -/
def Sphere.exact (s : Sphere) : RayTracer.Sphere ℚ :=
  ⟨s.center.exact, s.radius.toRat, s.color.exact, s.specular.toRat, s.reflective.toRat,
    s.subsurfaceRadius.toRat, s.scatteringCoefficient.toRat⟩

/-- The triangle of the exact values of the members of a stored triangle. -/
def Triangle.exact (t : Triangle) : RayTracer.Triangle ℚ :=
  ⟨t.A.exact, t.B.exact, t.C.exact, t.color.exact, t.specular.toRat, t.reflective.toRat,
    t.subsurfaceRadius.toRat, t.scatteringCoefficient.toRat⟩

/-- The triangle with the material of `tr` and the vertices `X`, `Y`, `Z`, in
this order. -/
def Triangle.withVertices (tr : Triangle) (X Y Z : Vector3D) : Triangle :=
  ⟨X, Y, Z, tr.color, tr.specular, tr.reflective, tr.subsurfaceRadius,
    tr.scatteringCoefficient⟩

/-- One run of the body of the sample loop of `computeLighting` for a light
that makes no draw (its radius is not above `0`): the new `sampleColor`. -/
def sampleOnce (m : Libm) (sc : Scene) (light : Light) (point normal view : Vector3D)
    (specular : Dbl) (sampleColor : Color) : Color :=
  (lightSample m (fun _ => 0) sc light point normal view specular (sampleColor, 0)).1

/-- What a light adds to the result of `computeLighting` when it makes no
draw: its intensity on every channel for an ambient light, and otherwise the
colour that `numSamples` runs of the sample body accumulate from black,
multiplied by the double `1.0 / numSamples`. -/
def contributionOf (m : Libm) (sc : Scene) (point normal view : Vector3D) (specular : Dbl)
    (light : Light) : Color :=
  if light.type = LightType.AMBIENT then ⟨light.intensity, light.intensity, light.intensity⟩
  else ((sampleOnce m sc light point normal view specular)^[numSamples] ⟨0, 0, 0⟩).scale
    (1.0 / Dbl.ofNat numSamples)

end IEEE

/-! ## Example data on doubles -/

namespace IEEE

/-- The sphere of the worked example: centre `(0,0,0)`, radius `1`. -/
def unitSphere : Sphere := ⟨⟨0, 0, 0⟩, 1, ⟨1, 0.5, 0.5⟩, 500, 0.2, 2.0, 0.5⟩

/-- The ray of the sphere example: origin `(0,0,-5)`, direction `(0,0,1)`. -/
def zRay : Ray := ⟨⟨0, 0, -5⟩, ⟨0, 0, 1⟩⟩

/-- The triangle of the worked example: `A = (0,0,0)`, `B = (1,0,0)`,
`C = (0,1,0)`, with the material of the triangle of `setupScene`. -/
def cornerTriangle : Triangle :=
  ⟨⟨0, 0, 0⟩, ⟨1, 0, 0⟩, ⟨0, 1, 0⟩, ⟨1, 0, 1⟩, 1000, 0.4, 3.0, 0.3⟩

/-- The triangle of `setupScene`. -/
def setupTriangle : Triangle :=
  ⟨⟨0, 0, 2⟩, ⟨1, 2, 2⟩, ⟨-1, 2, 2⟩, ⟨1, 0, 1⟩, 1000, 0.4, 3.0, 0.3⟩

/-- A triangle at scale `1e100`: `A = (0,0,1e100)`, `B = (1e100,0,1e100)`,
`C = (0,1e100,1e100)`. -/
def hugeTriangle : Triangle :=
  ⟨⟨0, 0, 1e100⟩, ⟨1e100, 0, 1e100⟩, ⟨0, 1e100, 1e100⟩, ⟨1, 0, 1⟩, 1000, 0.4, 3.0, 0.3⟩

/-- The triangle `A = (1.9,0.8,1.5)`, `B = (0.9,1.3,1.0)`, `C = (5.6,4.2,5.0)`,
whose plane passes close to the coordinate origin. -/
def needleTriangle : Triangle :=
  ⟨⟨1.9, 0.8, 1.5⟩, ⟨0.9, 1.3, 1.0⟩, ⟨5.6, 4.2, 5.0⟩, ⟨1, 0, 1⟩, 1000, 0.4, 3.0, 0.3⟩

/-- The values of `std::cos`, `std::sin`, `std::exp` and `std::pow` that are
the same in every implementation of `<cmath>`: `cos(0) = 1`, `sin(0) = 0`,
`exp(0) = 1`, `exp(x) = 0` for `x < -1000` (the exact value is far below
half of the least positive double) and `pow(x, 0) = 1`. At every other
argument the value is NaN here; the examples call the library at the
arguments listed only. -/
def knownLibm : Libm where
  cos x := if Dbl.beq x 0 then 1 else Dbl.nan
  sin x := if Dbl.beq x 0 then 0 else Dbl.nan
  exp x := if Dbl.beq x 0 then 1 else if x < -1000 then 0 else Dbl.nan
  pow _ y := if Dbl.beq y 0 then 1 else Dbl.nan

/-- The random stream whose draws are all `0`. -/
def zeroDraws : Nat → Dbl := fun _ => 0

/-- The random stream `0.25, 0, 0.25, 0, ...`. -/
def quarterDraws : Nat → Dbl := fun i => if i % 2 = 0 then 0.25 else 0

/-- A point light of intensity `1` at `(0,0,2)` with radius `0`. -/
def lamp : Light := Light.point 1 ⟨0, 0, 2⟩ 0

/-- A scene without primitives, lit by `lamp` alone. -/
def lampOnlyScene : Scene := ⟨[], [], [lamp], ⟨0.2, 0.3, 0.5⟩⟩

/-- A scene without primitives, lit by an ambient light of intensity `0.3`
and by `lamp`. -/
def lampScene : Scene := ⟨[], [], [Light.ambient 0.3, lamp], ⟨0.2, 0.3, 0.5⟩⟩

end IEEE

/-! ## Auxiliary lemmas -/

section Lemmas

variable {F : Type} [LinearOrderedField F]

/-- A non-negative number whose square is `x` is the value of `sqrt x`. -/
theorem CMath.sqrt_unique (m : CMath F) (hs : m.SqrtSpec) (x r : F) (hr : 0 ≤ r)
    (hx : r * r = x) : m.sqrt x = r := by
  have hx0 : 0 ≤ x := by rw [← hx]; exact mul_self_nonneg r
  obtain ⟨h0, h1⟩ := hs x hx0
  have : m.sqrt x * m.sqrt x = r * r := by rw [h1, hx]
  rcases mul_self_eq_mul_self_iff.mp this with h | h
  · exact h
  · have : m.sqrt x = 0 := by linarith
    linarith

theorem Vector3D.normalize_eq (m : CMath F) (v : Vector3D F) (h : v.length m ≠ 0) :
    v.normalize m = ⟨v.x / v.length m, v.y / v.length m, v.z / v.length m⟩ := by
  simp only [Vector3D.normalize, if_neg h]

theorem Quo.div_of_ne (x y : F) (h : y ≠ 0) : Quo.div x y = Quo.fin (x / y) := by
  unfold Quo.div
  rw [if_neg h]

/-- For `k1` not zero the local `t1` is the finite number `root1`. -/
theorem Sphere.t1_fin (m : CMath F) (s : Sphere F) (ray : Ray F)
    (hk : Sphere.k1 ray ≠ 0) : s.t1 m ray = Quo.fin (s.root1 m ray) := by
  unfold Sphere.t1 Sphere.root1
  exact Quo.div_of_ne _ _ (mul_ne_zero two_ne_zero hk)

/-- For `k1` not zero the local `t2` is the finite number `root2`. -/
theorem Sphere.t2_fin (m : CMath F) (s : Sphere F) (ray : Ray F)
    (hk : Sphere.k1 ray ≠ 0) : s.t2 m ray = Quo.fin (s.root2 m ray) := by
  unfold Sphere.t2 Sphere.root2
  exact Quo.div_of_ne _ _ (mul_ne_zero two_ne_zero hk)

/-- The result of `Sphere::intersect` once the discriminant and the two roots
are known, both roots being non-negative. -/
theorem Sphere.intersect_of_roots (m : CMath F) (s : Sphere F) (ray : Ray F) (lo hi : F)
    (hk : Sphere.k1 ray ≠ 0)
    (hd : 0 ≤ s.discriminant ray) (h1 : s.root1 m ray = hi) (h2 : s.root2 m ray = lo)
    (hlo : 0 ≤ lo) (hle : lo ≤ hi) : s.intersect m ray = some (Quo.fin lo) := by
  unfold Sphere.intersect
  rw [Sphere.t1_fin m s ray hk, Sphere.t2_fin m s ray hk, h1, h2]
  simp only [Quo.ge0, Quo.min, Quo.lt]
  have hhi : 0 ≤ hi := le_trans hlo hle
  simp [not_lt.mpr hd, hlo, hhi, hle]
  intro h
  exact le_antisymm h hle

theorem Sphere.intersect_unit_example (m : CMath F) (hs : m.SqrtSpec) (col : Color F)
    (sp rf sr sk : F) :
    Sphere.intersect m ⟨⟨0, 0, 0⟩, 1, col, sp, rf, sr, sk⟩ ⟨⟨0, 0, -5⟩, ⟨0, 0, 1⟩⟩
      = some (Quo.fin 4) := by
  have hdv : Sphere.discriminant (⟨⟨0, 0, 0⟩, 1, col, sp, rf, sr, sk⟩ : Sphere F)
      ⟨⟨0, 0, -5⟩, ⟨0, 0, 1⟩⟩ = 4 := by
    simp only [Sphere.discriminant, Sphere.k1, Sphere.k2, Sphere.k3, Sphere.oc,
      Vector3D.dot, Vector3D.sub]
    norm_num
  have hsq : m.sqrt 4 = 2 := m.sqrt_unique hs 4 2 (by norm_num) (by norm_num)
  apply Sphere.intersect_of_roots m _ _ 4 6
  · simp only [Sphere.k1, Vector3D.dot]
    norm_num
  · rw [hdv]; norm_num
  · simp only [Sphere.root1, hdv, hsq]
    simp only [Sphere.k1, Sphere.k2, Sphere.oc, Vector3D.dot, Vector3D.sub]
    norm_num
  · simp only [Sphere.root2, hdv, hsq]
    simp only [Sphere.k1, Sphere.k2, Sphere.oc, Vector3D.dot, Vector3D.sub]
    norm_num
  · norm_num
  · norm_num

/-- The reading of `Triangle::intersect` when it returns true. -/
theorem Triangle.intersect_eq_some (tr : Triangle F) (ray : Ray F) (t : F) :
    tr.intersect ray = some t ↔
      (¬ |tr.a ray| < Triangle.EPSILON ∧ 0 ≤ tr.u ray ∧ tr.u ray ≤ 1 ∧ 0 ≤ tr.v ray ∧
        tr.u ray + tr.v ray ≤ 1 ∧ Triangle.EPSILON < tr.tempT ray ∧ tr.tempT ray = t) := by
  unfold Triangle.intersect
  have h0 : (0.0 : F) = 0 := by norm_num
  have h1 : (1.0 : F) = 1 := by norm_num
  rw [h0, h1]
  by_cases ha : |tr.a ray| < Triangle.EPSILON
  · simp [ha]
  · by_cases hu : tr.u ray < 0 ∨ tr.u ray > 1
    · rw [if_neg ha, if_pos hu]
      simp only [reduceCtorEq, false_iff, not_and, not_lt]
      intro _ h1 h2
      rcases hu with hu | hu <;> linarith
    · rw [if_neg ha, if_neg hu]
      simp only [not_or, not_lt, gt_iff_lt] at hu
      by_cases hv : tr.v ray < 0 ∨ tr.u ray + tr.v ray > 1
      · rw [if_pos hv]
        simp only [reduceCtorEq, false_iff, not_and, not_lt]
        intro _ _ _ h3 h4
        rcases hv with hv | hv <;> linarith
      · rw [if_neg hv]
        simp only [not_or, not_lt, gt_iff_lt] at hv
        by_cases ht : tr.tempT ray > Triangle.EPSILON
        · rw [if_pos ht]
          simp only [Option.some.injEq]
          constructor
          · intro h
            exact ⟨ha, hu.1, hu.2, hv.1, hv.2, ht, h⟩
          · intro h
            exact h.2.2.2.2.2.2
        · rw [if_neg ht]
          simp only [reduceCtorEq, false_iff, not_and]
          intro _ _ _ _ _ h
          exact absurd h ht

theorem foldl_fixed {α β : Type} (f : β → α → β) (l : List α) (st : β)
    (h : ∀ x ∈ l, f st x = st) : l.foldl f st = st := by
  induction l with
  | nil => rfl
  | cons x xs ih =>
    rw [List.foldl_cons, h x (List.mem_cons_self x xs)]
    exact ih (fun y hy => h y (List.mem_cons_of_mem x hy))

/-- A double that is above a finite number and below a bound is finite. -/
theorem Quo.fin_of_window (q : Quo F) (x : F) (d : Dist F) (h1 : q.gt x)
    (h2 : q.below d) : ∃ v : F, q = Quo.fin v := by
  cases q with
  | fin v => exact ⟨v, rfl⟩
  | posInf => cases d <;> simp [Quo.below, Quo.lt] at h2
  | negInf => simp [Quo.gt, Quo.lt] at h1
  | nan => simp [Quo.gt, Quo.lt] at h1

/-- The nearest-hit search records nothing when no primitive reports a
distance inside the window. -/
theorem nearestHit_none (m : CMath F) (sc : Scene F) (ray : Ray F) (t_min : F)
    (t_max : Dist F)
    (hS : ∀ s ∈ sc.spheres, ∀ t : Quo F, s.intersect m ray = some t →
      ¬ (t.gt t_min ∧ t.below t_max))
    (hT : ∀ tr ∈ sc.triangles, ∀ t : F, tr.intersect ray = some t →
      ¬ (t_min < t ∧ Dist.below t t_max)) :
    nearestHit m sc ray t_min t_max = ⟨Quo.posInf, none, none⟩ := by
  unfold nearestHit
  rw [foldl_fixed (sphereStep m ray t_min t_max) sc.spheres _ ?_]
  · apply foldl_fixed
    intro tr htr
    unfold triangleStep
    cases hres : tr.intersect ray with
    | none => rfl
    | some t =>
      have := hT tr htr t hres
      simp only [gt_iff_lt]
      rw [if_neg]
      intro h
      exact this ⟨h.1, h.2.1⟩
  · intro s hs
    unfold sphereStep
    cases hres : s.intersect m ray with
    | none => rfl
    | some t =>
      have := hS s hs t hres
      dsimp only
      rw [if_neg]
      intro h
      exact this ⟨h.1, h.2.1⟩

theorem Color.clamp_inUnit (c : Color F) : c.clamp.inUnit := by
  have h0 : (0.0 : F) = 0 := by norm_num
  have h1 : (1.0 : F) = 1 := by norm_num
  simp only [Color.clamp, Color.inUnit, h0, h1]
  refine ⟨⟨?_, ?_⟩, ⟨?_, ?_⟩, ⟨?_, ?_⟩⟩ <;>
    simp [le_min_iff, le_max_iff, min_le_iff]

/-- The colour returned by the part of `TraceRay` run at `depth > 0` is the
background colour or a clamped colour. -/
theorem traceBody_cases (m : CMath F) (rnd : Nat → F) (sc : Scene F)
    (recurse : Ray F → F → Dist F → Nat → Color F × Nat)
    (ray : Ray F) (t_min : F) (t_max : Dist F) (depth : Int) (i : Nat) :
    traceBody m rnd sc recurse ray t_min t_max depth i = (sc.backgroundColor, i) ∨
    ∃ c : Color F, (traceBody m rnd sc recurse ray t_min t_max depth i).1 = c.clamp := by
  unfold traceBody
  simp only
  cases surfaceOf m (nearestHit m sc ray t_min t_max)
      (ray.origin.add (ray.direction.mul (nearestHit m sc ray t_min t_max).closest_t.value)) with
  | none => exact Or.inl rfl
  | some sf => exact Or.inr ⟨_, rfl⟩

/-- The square root of the real numbers meets `SqrtSpec`. -/
theorem real_sqrtSpec :
    CMath.SqrtSpec
      (⟨Real.sqrt, Real.cos, Real.sin, Real.exp, fun x y => x ^ y, Real.pi⟩ : CMath ℝ) := by
  intro x hx
  exact ⟨Real.sqrt_nonneg x, Real.mul_self_sqrt hx⟩

theorem unitSphere_zRay (m : CMath F) (hs : m.SqrtSpec) :
    Sphere.intersect m (unitSphere : Sphere F) zRay = some (Quo.fin 4) :=
  Sphere.intersect_unit_example m hs _ _ _ _ _

/-- The part of `TraceRay` run at `depth >= 1` returns the background colour
and draws nothing when no primitive reports a distance inside the window. -/
theorem traceRay_background (m : CMath F) (rnd : Nat → F) (sc : Scene F) (ray : Ray F)
    (t_min : F) (t_max : Dist F) (depth : Int) (i : Nat) (hd : 1 ≤ depth)
    (hS : ∀ s ∈ sc.spheres, ∀ t : Quo F, s.intersect m ray = some t →
      ¬ (t.gt t_min ∧ t.below t_max))
    (hT : ∀ tr ∈ sc.triangles, ∀ t : F, tr.intersect ray = some t →
      ¬ (t_min < t ∧ Dist.below t t_max)) :
    TraceRay m rnd sc ray t_min t_max depth i = (sc.backgroundColor, i) := by
  have hd' : ¬ depth ≤ 0 := by omega
  rw [TraceRay, dif_neg hd']
  unfold traceBody
  simp only [nearestHit_none m sc ray t_min t_max hS hT, surfaceOf]

theorem windowScene_spheres (m : CMath F) (hs : m.SqrtSpec) :
    ∀ s ∈ (windowScene : Scene F).spheres, ∀ t : Quo F, s.intersect m zRay = some t →
      ¬ (t.gt 1 ∧ t.below (Dist.fin 3)) := by
  intro s hmem t ht
  simp only [windowScene, List.mem_singleton] at hmem
  subst hmem
  rw [unitSphere_zRay m hs] at ht
  injection ht with ht
  subst ht
  simp only [Quo.gt, Quo.below, Quo.lt]
  norm_num

theorem windowScene_triangles :
    ∀ tr ∈ (windowScene : Scene F).triangles, ∀ t : F, tr.intersect zRay = some t →
      ¬ (1 < t ∧ Dist.below t (Dist.fin 3)) := by
  intro tr hmem t ht
  simp only [windowScene, List.mem_singleton] at hmem
  subst hmem
  have h5 : Triangle.tempT (cornerTriangle : Triangle F) zRay = 5 := by
    simp only [Triangle.tempT, Triangle.f, Triangle.a, Triangle.h, Triangle.q, Triangle.s,
      Triangle.edge1, Triangle.edge2, Vector3D.dot, Vector3D.cross, Vector3D.sub,
      cornerTriangle, zRay]
    norm_num
  have := ((Triangle.intersect_eq_some _ _ t).mp ht).2.2.2.2.2.2
  rw [h5] at this
  subst this
  simp only [Dist.below]
  norm_num

theorem brightScene_trace (m : CMath F) (rnd : Nat → F) :
    TraceRay m rnd (brightScene : Scene F) cameraRay 1 Dist.inf 1 0 = (⟨2, 0, 0⟩, 0) := by
  apply traceRay_background m rnd brightScene cameraRay 1 Dist.inf 1 0 (le_refl 1)
  · intro s hmem
    simp [brightScene] at hmem
  · intro tr hmem
    simp [brightScene] at hmem

/-- The example of the specification: the triangle `(0,0,0)`, `(1,0,0)`,
`(0,1,0)` and the ray from `(0.25,0.25,-1)` along `(0,0,1)`. -/
theorem Triangle.corner_example (col : Color F) (sp rf sr sk : F) :
    Triangle.intersect (⟨⟨0, 0, 0⟩, ⟨1, 0, 0⟩, ⟨0, 1, 0⟩, col, sp, rf, sr, sk⟩ : Triangle F)
        ⟨⟨0.25, 0.25, -1⟩, ⟨0, 0, 1⟩⟩ = some 1 ∧
      Triangle.u (⟨⟨0, 0, 0⟩, ⟨1, 0, 0⟩, ⟨0, 1, 0⟩, col, sp, rf, sr, sk⟩ : Triangle F)
        ⟨⟨0.25, 0.25, -1⟩, ⟨0, 0, 1⟩⟩ = 0.25 ∧
      Triangle.v (⟨⟨0, 0, 0⟩, ⟨1, 0, 0⟩, ⟨0, 1, 0⟩, col, sp, rf, sr, sk⟩ : Triangle F)
        ⟨⟨0.25, 0.25, -1⟩, ⟨0, 0, 1⟩⟩ = 0.25 := by
  have ha : Triangle.a (⟨⟨0, 0, 0⟩, ⟨1, 0, 0⟩, ⟨0, 1, 0⟩, col, sp, rf, sr, sk⟩ : Triangle F)
      ⟨⟨0.25, 0.25, -1⟩, ⟨0, 0, 1⟩⟩ = -1 := by
    simp only [Triangle.a, Triangle.h, Triangle.edge1, Triangle.edge2, Vector3D.dot,
      Vector3D.cross, Vector3D.sub]
    norm_num
  have hu : Triangle.u (⟨⟨0, 0, 0⟩, ⟨1, 0, 0⟩, ⟨0, 1, 0⟩, col, sp, rf, sr, sk⟩ : Triangle F)
      ⟨⟨0.25, 0.25, -1⟩, ⟨0, 0, 1⟩⟩ = 0.25 := by
    simp only [Triangle.u, Triangle.f, ha]
    simp only [Triangle.s, Triangle.h, Triangle.edge2, Vector3D.dot,
      Vector3D.cross, Vector3D.sub]
    norm_num
  have hv : Triangle.v (⟨⟨0, 0, 0⟩, ⟨1, 0, 0⟩, ⟨0, 1, 0⟩, col, sp, rf, sr, sk⟩ : Triangle F)
      ⟨⟨0.25, 0.25, -1⟩, ⟨0, 0, 1⟩⟩ = 0.25 := by
    simp only [Triangle.v, Triangle.f, ha]
    simp only [Triangle.s, Triangle.q, Triangle.edge1, Vector3D.dot,
      Vector3D.cross, Vector3D.sub]
    norm_num
  have ht : Triangle.tempT (⟨⟨0, 0, 0⟩, ⟨1, 0, 0⟩, ⟨0, 1, 0⟩, col, sp, rf, sr, sk⟩ : Triangle F)
      ⟨⟨0.25, 0.25, -1⟩, ⟨0, 0, 1⟩⟩ = 1 := by
    simp only [Triangle.tempT, Triangle.f, ha]
    simp only [Triangle.s, Triangle.q, Triangle.edge1, Triangle.edge2, Vector3D.dot,
      Vector3D.cross, Vector3D.sub]
    norm_num
  refine ⟨?_, hu, hv⟩
  rw [Triangle.intersect_eq_some, ha, hu, hv, ht]
  unfold Triangle.EPSILON
  refine ⟨?_, ?_, ?_, ?_, ?_, ?_, rfl⟩ <;> norm_num

/-! ### Divisions, `normalize`, `operator==`, `clamp` -/

theorem Triangle.intersect_parallel (tr : Triangle F) (ray : Ray F)
    (h : |tr.a ray| < 1e-8) :
    tr.intersect ray = none ∧ tr.intersectTraced ray = (none, []) := by
  have h' : |tr.a ray| < Triangle.EPSILON := h
  unfold Triangle.intersectTraced Triangle.intersect
  rw [if_pos h', if_pos h']
  exact ⟨rfl, rfl⟩

theorem CMath.sqrt_zero (m : CMath F) (hs : m.SqrtSpec) : m.sqrt 0 = 0 :=
  m.sqrt_unique hs 0 0 (le_refl 0) (by norm_num)

theorem Vector3D.normalize_of_length_zero (m : CMath F) (v : Vector3D F)
    (h : v.length m = 0) : v.normalize m = Vector3D.zero := by
  unfold Vector3D.normalize
  simp only [h, if_true]
  rfl

theorem Color.clamp_channel (x : F) :
    (0 ≤ min 1 (max 0 x) ∧ min 1 (max 0 x) ≤ 1) ∧
    min 1 (max 0 (min 1 (max 0 x))) = min 1 (max 0 x) ∧
    (0 ≤ x → x ≤ 1 → min 1 (max 0 x) = x) := by
  refine ⟨⟨?_, ?_⟩, ?_, ?_⟩
  · exact le_min zero_le_one (le_max_left 0 x)
  · exact min_le_left 1 _
  · have h0 : 0 ≤ min 1 (max 0 x) := le_min zero_le_one (le_max_left 0 x)
    have h1 : min 1 (max 0 x) ≤ 1 := min_le_left 1 _
    rw [max_eq_right h0, min_eq_right h1]
  · intro h0 h1
    rw [max_eq_right h0, min_eq_right h1]

theorem Color.clamp_eq (c : Color F) :
    c.clamp = ⟨min 1 (max 0 c.r), min 1 (max 0 c.g), min 1 (max 0 c.b)⟩ := by
  have h0 : (0.0 : F) = 0 := by norm_num
  have h1 : (1.0 : F) = 1 := by norm_num
  simp only [Color.clamp, h0, h1]

/-! ### Rays whose direction is the zero vector -/

/-- For a zero direction both quotients of `Sphere::intersect` are `0 / 0`,
which is NaN, and every test on them fails. -/
theorem Sphere.zero_direction_nan (m : CMath F) (hs : m.SqrtSpec) (s : Sphere F)
    (ray : Ray F) (hz : ray.direction = Vector3D.zero) : s.intersect m ray = none := by
  have hk1 : Sphere.k1 ray = 0 := by
    simp [Sphere.k1, hz, Vector3D.zero, Vector3D.dot]
  have hk2 : s.k2 ray = 0 := by
    simp [Sphere.k2, hz, Vector3D.zero, Vector3D.dot]
  have hd : s.discriminant ray = 0 := by
    simp [Sphere.discriminant, hk1, hk2]
  unfold Sphere.intersect Sphere.t1 Sphere.t2
  rw [hd, hk1, hk2, m.sqrt_zero hs]
  simp [Quo.div, Quo.ge0]

theorem Triangle.zero_direction_parallel (tr : Triangle F) (ray : Ray F)
    (hz : ray.direction = Vector3D.zero) : tr.intersect ray = none := by
  apply (Triangle.intersect_parallel tr ray _).1
  have ha : tr.a ray = 0 := by
    simp [Triangle.a, Triangle.h, hz, Vector3D.zero, Vector3D.dot, Vector3D.cross]
  rw [ha, abs_zero]
  norm_num

theorem nearestHit_zero_direction (m : CMath F) (hs : m.SqrtSpec) (sc : Scene F)
    (ray : Ray F) (hz : ray.direction = Vector3D.zero) (t_min : F) (t_max : Dist F) :
    nearestHit m sc ray t_min t_max = ⟨Quo.posInf, none, none⟩ := by
  apply nearestHit_none
  · intro s _ t ht
    rw [Sphere.zero_direction_nan m hs s ray hz] at ht
    cases ht
  · intro tr _ t ht
    rw [Triangle.zero_direction_parallel tr ray hz] at ht
    cases ht

theorem inShadow_zero_direction (m : CMath F) (hs : m.SqrtSpec) (sc : Scene F)
    (ray : Ray F) (hz : ray.direction = Vector3D.zero) (t_max : Dist F) :
    inShadow m sc ray t_max = false := by
  unfold inShadow
  simp only [Sphere.zero_direction_nan m hs _ ray hz,
    Triangle.zero_direction_parallel _ ray hz]
  simp

theorem traceRay_zero_direction (m : CMath F) (hs : m.SqrtSpec) (rnd : Nat → F)
    (sc : Scene F) (ray : Ray F) (hz : ray.direction = Vector3D.zero) (t_min : F)
    (t_max : Dist F) (depth : Int) (i : Nat) (hd : 1 ≤ depth) :
    TraceRay m rnd sc ray t_min t_max depth i = (sc.backgroundColor, i) := by
  apply traceRay_background m rnd sc ray t_min t_max depth i hd
  · intro s _ t ht
    rw [Sphere.zero_direction_nan m hs s ray hz] at ht
    cases ht
  · intro tr _ t ht
    rw [Triangle.zero_direction_parallel tr ray hz] at ht
    cases ht

/-! ### The lighting integrator and the stages of `TraceRay` -/

/-- The sample loop body of `computeLighting` in terms of its locals. -/
theorem lightSample_eq (m : CMath F) (rnd : Nat → F) (sc : Scene F) (light : Light F)
    (point normal view : Vector3D F) (specular : F) (st : Color F × Nat) :
    lightSample m rnd sc light point normal view specular st =
      if inShadow m sc
          (shadowRayOf m point normal (sampleDir m point (samplePoint m rnd light st.2).1))
          (shadowBound light) then
        (st.1, (samplePoint m rnd light st.2).2)
      else
        (shade m light normal view specular
          (sampleDir m point (samplePoint m rnd light st.2).1) st.1,
          (samplePoint m rnd light st.2).2) := by
  rfl

/-- The part of `TraceRay` run at `depth > 0`, when an object was hit, in terms
of its stages. -/
theorem traceBody_hit (m : CMath F) (rnd : Nat → F) (sc : Scene F)
    (recurse : Ray F → F → Dist F → Nat → Color F × Nat)
    (ray : Ray F) (t_min : F) (t_max : Dist F) (depth : Int) (i : Nat) (sf : Surface F)
    (h : hitSurface m sc ray t_min t_max = some sf) :
    traceBody m rnd sc recurse ray t_min t_max depth i =
      (let P := hitPoint m sc ray t_min t_max
       let lit := computeLighting m rnd sc P sf.normal ray.direction.neg sf.specular i
       let refl := reflectionPart m recurse ray P sf t_max lit.2
       let ind := indirectPart m rnd recurse P sf t_max depth refl.2
       let sss := sssBlock m rnd sc P sf (sf.objectColor.mul lit.1) ind.2
       (((sss.1.add refl.1).add ind.1).clamp, sss.2)) := by
  unfold hitSurface hitPoint at h
  unfold traceBody
  simp only [h]
  rfl

theorem reflectionPart_of_nonpos (m : CMath F)
    (recurse : Ray F → F → Dist F → Nat → Color F × Nat) (ray : Ray F)
    (point : Vector3D F) (sf : Surface F) (t_max : Dist F) (j : Nat)
    (h : sf.reflective ≤ 0) :
    reflectionPart m recurse ray point sf t_max j = (⟨0, 0, 0⟩, j) := by
  unfold reflectionPart
  rw [if_neg (not_lt.mpr h)]

theorem sssBlock_skipped (m : CMath F) (rnd : Nat → F) (sc : Scene F) (point : Vector3D F)
    (sf : Surface F) (localColor : Color F) (j : Nat)
    (h : sf.sssRadius = 0 ∨ sf.sssScatter = 0) :
    sssBlock m rnd sc point sf localColor j = (localColor, j) := by
  unfold sssBlock
  have h0 : (0.0 : F) = 0 := by norm_num
  rw [h0, if_neg]
  rintro ⟨h1, h2⟩
  rcases h with h | h
  · rw [h] at h1; exact lt_irrefl _ h1
  · rw [h] at h2; exact lt_irrefl _ h2

theorem Color.add_black (c : Color F) : c.add ⟨0, 0, 0⟩ = c := by
  simp only [Color.add, add_zero]

/-- The colour added by a sample that is not in shadow: the diffuse term, and
the specular term when `specular >= 0` and `reflect . view > 0`. -/
theorem shade_eq (m : CMath F) (light : Light F) (normal view : Vector3D F) (s : F)
    (l : Vector3D F) (c0 : Color F) :
    shade m light normal view s l c0 =
      c0.add
        ⟨light.diffuseTerm normal l +
            (if 0 ≤ s ∧ 0 < (reflectOf normal l).dot view then
              light.specularTerm m normal view l s else 0),
          light.diffuseTerm normal l +
            (if 0 ≤ s ∧ 0 < (reflectOf normal l).dot view then
              light.specularTerm m normal view l s else 0),
          light.diffuseTerm normal l +
            (if 0 ≤ s ∧ 0 < (reflectOf normal l).dot view then
              light.specularTerm m normal view l s else 0)⟩ := by
  have hrefl : ((Vector3D.smul 2 normal).mul (normal.dot l)).sub l = reflectOf normal l := rfl
  obtain ⟨cr, cg, cb⟩ := c0
  unfold shade
  simp only [hrefl, Light.diffuseTerm, Light.specularTerm, gt_iff_lt, ge_iff_le]
  by_cases hn : 0 < normal.dot l
  · rw [if_pos hn, max_eq_right (le_of_lt hn)]
    by_cases hs : 0 ≤ s
    · by_cases hr : 0 < (reflectOf normal l).dot view
      · rw [if_pos hs, if_pos hr, if_pos ⟨hs, hr⟩, max_eq_right (le_of_lt hr)]
        simp only [Color.add, Color.scale, Color.mk.injEq]
        refine ⟨?_, ?_, ?_⟩ <;> ring
      · rw [if_pos hs, if_neg hr, if_neg (fun h => hr h.2)]
        simp only [Color.add, Color.scale, Color.mk.injEq]
        refine ⟨?_, ?_, ?_⟩ <;> ring
    · rw [if_neg hs, if_neg (fun h => hs h.1)]
      simp only [Color.add, Color.scale, Color.mk.injEq]
      refine ⟨?_, ?_, ?_⟩ <;> ring
  · rw [if_neg hn, max_eq_left (not_lt.mp hn)]
    by_cases hs : 0 ≤ s
    · by_cases hr : 0 < (reflectOf normal l).dot view
      · rw [if_pos hs, if_pos hr, if_pos ⟨hs, hr⟩, max_eq_right (le_of_lt hr)]
        simp only [Color.add, Color.scale, Color.mk.injEq]
        refine ⟨?_, ?_, ?_⟩ <;> ring
      · rw [if_pos hs, if_neg hr, if_neg (fun h => hr h.2)]
        simp only [Color.add, Color.mk.injEq]
        refine ⟨?_, ?_, ?_⟩ <;> ring
    · rw [if_neg hs, if_neg (fun h => hs h.1)]
      simp only [Color.add, Color.mk.injEq]
      refine ⟨?_, ?_, ?_⟩ <;> ring

/-- A sample that is not in shadow adds `shade` and nothing else. -/
theorem lightSample_unoccluded (m : CMath F) (rnd : Nat → F) (sc : Scene F)
    (light : Light F) (point normal view : Vector3D F) (s : F) (st : Color F × Nat)
    (hun : inShadow m sc
      (shadowRayOf m point normal (sampleDir m point (samplePoint m rnd light st.2).1))
      (shadowBound light) = false) :
    (lightSample m rnd sc light point normal view s st).1 =
      shade m light normal view s (sampleDir m point (samplePoint m rnd light st.2).1) st.1 := by
  rw [lightSample_eq, hun]
  rfl

theorem inShadow_emptyScene (m : CMath F) (ray : Ray F) (b : Dist F) :
    inShadow m (emptyScene : Scene F) ray b = false := by
  simp [inShadow, emptyScene]

theorem Vector3D.length_of_sq (m : CMath F) (hs : m.SqrtSpec) (v : Vector3D F) (L : F)
    (hL : 0 ≤ L) (h : L * L = v.x * v.x + v.y * v.y + v.z * v.z) : v.length m = L := by
  unfold Vector3D.length
  exact m.sqrt_unique hs _ L hL h

theorem Vector3D.normalize_of_length (m : CMath F) (v : Vector3D F) (L : F)
    (hL : v.length m = L) (h0 : L ≠ 0) : v.normalize m = ⟨v.x / L, v.y / L, v.z / L⟩ := by
  rw [Vector3D.normalize_eq m v (by rw [hL]; exact h0), hL]

/-- In `matteScene` the ray `zRay` hits the matte sphere at `(0,0,-1)`, where the
normal is `(0,0,-1)`. -/
theorem matteScene_hit (m : CMath F) (hs : m.SqrtSpec) :
    hitSurface m (matteScene : Scene F) zRay 1 Dist.inf
      = some ⟨⟨0, 0, -1⟩, ⟨1, 0.5, 0.5⟩, 500, 0, 0, 0⟩ := by
  have hint : Sphere.intersect m (matteSphere : Sphere F) zRay = some (Quo.fin 4) :=
    Sphere.intersect_unit_example m hs _ _ _ _ _
  have hn : nearestHit m (matteScene : Scene F) zRay 1 Dist.inf
      = ⟨Quo.fin 4, some matteSphere, none⟩ := by
    simp only [nearestHit, matteScene, List.foldl_cons, List.foldl_nil, sphereStep, hint]
    rw [if_pos]
    simp only [Quo.gt, Quo.below, Quo.lt, and_true]
    norm_num
  unfold hitSurface hitPoint
  rw [hn]
  simp only [surfaceOf, Quo.value, Sphere.getNormal]
  have hp : (Vector3D.add (zRay : Ray F).origin (Vector3D.mul (zRay : Ray F).direction 4))
      = ⟨0, 0, -1⟩ := by
    simp only [zRay, Vector3D.add, Vector3D.mul, Vector3D.mk.injEq]
    norm_num
  rw [hp]
  have hlen : (Vector3D.sub (⟨0, 0, -1⟩ : Vector3D F) (matteSphere : Sphere F).center).length m
      = 1 := by
    apply Vector3D.length_of_sq m hs _ 1 (by norm_num)
    simp only [matteSphere, Vector3D.sub]
    norm_num
  rw [Vector3D.normalize_of_length m _ 1 hlen one_ne_zero]
  simp only [matteSphere, Vector3D.sub, Option.some.injEq, Surface.mk.injEq,
    Vector3D.mk.injEq]
  norm_num

/-- The directional light of direction `(0,1,0)`: its stored direction, the
light direction `computeLighting` uses at the points `(0,0,-1)` and
`(-1,0,0)`, the result of one sample at `(0,0,-1)` with normal `(0,0,1)`,
and the diffuse term for the stored direction. -/
theorem directional_example (m : CMath F) (hs : m.SqrtSpec) (rnd : Nat → F) :
    (Light.directional m ⟨0, 1, 0⟩ 0.5).direction = ⟨0, 1, 0⟩ ∧
    sampleDir m ⟨0, 0, -1⟩ (samplePoint m rnd (Light.directional m ⟨0, 1, 0⟩ 0.5) 0).1
      = ⟨0, 0, 1⟩ ∧
    sampleDir m ⟨-1, 0, 0⟩ (samplePoint m rnd (Light.directional m ⟨0, 1, 0⟩ 0.5) 0).1
      = ⟨1, 0, 0⟩ ∧
    lightSample m rnd (emptyScene : Scene F) (Light.directional m ⟨0, 1, 0⟩ 0.5)
      ⟨0, 0, -1⟩ ⟨0, 0, 1⟩ ⟨0, 0, 1⟩ (-1) (⟨0, 0, 0⟩, 0) = (⟨0.4, 0.4, 0.4⟩, 0) ∧
    (Light.directional m ⟨0, 1, 0⟩ 0.5).diffuseTerm ⟨0, 0, 1⟩
      (Light.directional m ⟨0, 1, 0⟩ 0.5).direction = 0 := by
  have hp : samplePoint m rnd (Light.directional m ⟨0, 1, 0⟩ 0.5) 0 = (⟨0, 0, 0⟩, 0) := by
    unfold samplePoint
    rw [if_neg]
    · rfl
    · simp only [Light.directional]
      norm_num
  have hdir : (Light.directional m ⟨0, 1, 0⟩ 0.5).direction = ⟨0, 1, 0⟩ := by
    have hlen : (⟨0, 1, 0⟩ : Vector3D F).length m = 1 := by
      apply Vector3D.length_of_sq m hs _ 1 (by norm_num)
      norm_num
    simp only [Light.directional]
    rw [Vector3D.normalize_of_length m _ 1 hlen one_ne_zero]
    simp
  have h1 : sampleDir m ⟨0, 0, -1⟩ (⟨0, 0, 0⟩ : Vector3D F) = ⟨0, 0, 1⟩ := by
    unfold sampleDir
    have hlen : (Vector3D.sub (⟨0, 0, 0⟩ : Vector3D F) ⟨0, 0, -1⟩).length m = 1 := by
      apply Vector3D.length_of_sq m hs _ 1 (by norm_num)
      simp only [Vector3D.sub]
      norm_num
    rw [Vector3D.normalize_of_length m _ 1 hlen one_ne_zero]
    simp [Vector3D.sub]
  have h2 : sampleDir m ⟨-1, 0, 0⟩ (⟨0, 0, 0⟩ : Vector3D F) = ⟨1, 0, 0⟩ := by
    unfold sampleDir
    have hlen : (Vector3D.sub (⟨0, 0, 0⟩ : Vector3D F) ⟨-1, 0, 0⟩).length m = 1 := by
      apply Vector3D.length_of_sq m hs _ 1 (by norm_num)
      simp only [Vector3D.sub]
      norm_num
    rw [Vector3D.normalize_of_length m _ 1 hlen one_ne_zero]
    simp [Vector3D.sub]
  refine ⟨hdir, ?_, ?_, ?_, ?_⟩
  · rw [hp]; exact h1
  · rw [hp]; exact h2
  · rw [lightSample_eq, inShadow_emptyScene]
    simp only [hp, h1, shade_eq, Bool.false_eq_true, if_false, Prod.mk.injEq, and_true]
    simp only [Light.diffuseTerm, Light.directional, Vector3D.dot, Color.add,
      Color.mk.injEq]
    norm_num
  · rw [hdir]
    simp only [Light.diffuseTerm, Light.directional, Vector3D.dot]
    norm_num

/-- The light direction of a sample does not depend on the `direction` field
of the light. -/
theorem lightSample_direction_unused (m : CMath F) (rnd : Nat → F) (sc : Scene F)
    (light : Light F) (d : Vector3D F) (point normal view : Vector3D F) (s : F)
    (st : Color F × Nat) :
    lightSample m rnd sc { light with direction := d } point normal view s st
      = lightSample m rnd sc light point normal view s st := by
  rfl

/-! ### The recursion of `TraceRay` -/

theorem traceRay_of_nonpos (m : CMath F) (rnd : Nat → F) (sc : Scene F) (ray : Ray F)
    (t_min : F) (t_max : Dist F) (depth : Int) (i : Nat) (hd : depth ≤ 0) :
    TraceRay m rnd sc ray t_min t_max depth i = (⟨0, 0, 0⟩, i) := by
  rw [TraceRay, dif_pos hd]

theorem traceRay_of_hit (m : CMath F) (rnd : Nat → F) (sc : Scene F) (ray : Ray F)
    (t_min : F) (t_max : Dist F) (depth : Int) (i : Nat) (sf : Surface F)
    (hd : 1 ≤ depth) (hhit : hitSurface m sc ray t_min t_max = some sf) :
    TraceRay m rnd sc ray t_min t_max depth i =
      (let P := hitPoint m sc ray t_min t_max
       let lit := computeLighting m rnd sc P sf.normal ray.direction.neg sf.specular i
       let refl := reflectionPart m
         (fun r lo hi j => TraceRay m rnd sc r lo hi (depth - 1) j) ray P sf t_max lit.2
       let ind := indirectPart m rnd
         (fun r lo hi j => TraceRay m rnd sc r lo hi (depth - 1) j) P sf t_max depth refl.2
       let sss := sssBlock m rnd sc P sf (sf.objectColor.mul lit.1) ind.2
       (((sss.1.add refl.1).add ind.1).clamp, sss.2)) := by
  have hd' : ¬ depth ≤ 0 := by omega
  rw [TraceRay, dif_neg hd', traceBody_hit m rnd sc _ ray t_min t_max depth i sf hhit]

theorem reflectionPart_eq (m : CMath F)
    (recurse : Ray F → F → Dist F → Nat → Color F × Nat) (ray : Ray F)
    (point : Vector3D F) (sf : Surface F) (t_max : Dist F) (j : Nat) :
    reflectionPart m recurse ray point sf t_max j =
      if sf.reflective > 0 then
        ((recurse (reflectRayOf m ray point sf) 0.001 t_max j).1.scale sf.reflective,
          (recurse (reflectRayOf m ray point sf) 0.001 t_max j).2)
      else (⟨0, 0, 0⟩, j) := rfl

theorem indirectPart_eq (m : CMath F) (rnd : Nat → F)
    (recurse : Ray F → F → Dist F → Nat → Color F × Nat)
    (point : Vector3D F) (sf : Surface F) (t_max : Dist F) (depth : Int) (j : Nat) :
    indirectPart m rnd recurse point sf t_max depth j =
      if depth > 1 then
        if rnd j > 0.2 then
          ((recurse (indirectRayOf m rnd point sf j) 0.001 t_max (j + 3)).1.scale 0.1,
            (recurse (indirectRayOf m rnd point sf j) 0.001 t_max (j + 3)).2)
        else (⟨0, 0, 0⟩, j + 1)
      else (⟨0, 0, 0⟩, j) := rfl

theorem nearestHit_scan (m : CMath F) (sc : Scene F) (ray : Ray F) (t_min : F)
    (t_max : Dist F) :
    nearestHit m sc ray t_min t_max =
      sc.scanOrder.foldl (primStep m ray t_min t_max) ⟨Quo.posInf, none, none⟩ := by
  simp only [nearestHit, Scene.scanOrder, List.foldl_append, List.foldl_map]
  rfl

theorem reports_unique (m : CMath F) (ray : Ray F) (p : Sphere F ⊕ Triangle F) (t u : F)
    (h1 : Reports m ray p t) (h2 : Reports m ray p u) : t = u := by
  cases p with
  | inl s =>
    simp only [Reports] at h1 h2
    rw [h1] at h2
    injection h2 with h3
    injection h3
  | inr tr =>
    simp only [Reports] at h1 h2
    rw [h1] at h2
    injection h2

theorem Quo.window_fin (t t_min : F) (t_max : Dist F) :
    ((Quo.fin t).gt t_min ∧ (Quo.fin t).below t_max) ↔ InWindow t_min t_max t := by
  cases t_max <;> simp [Quo.gt, Quo.below, Quo.lt, InWindow, Dist.below]

theorem primStep_cases (m : CMath F) (ray : Ray F) (t_min : F) (t_max : Dist F)
    (st : Closest F) (p : Sphere F ⊕ Triangle F) :
    (∃ t : F, Reports m ray p t ∧ InWindow t_min t_max t ∧
      Quo.lt (Quo.fin t) st.closest_t ∧
      primStep m ray t_min t_max st p = Closest.selecting t p) ∨
    ((∀ t : F, Reports m ray p t → InWindow t_min t_max t →
        ¬ Quo.lt (Quo.fin t) st.closest_t) ∧
      primStep m ray t_min t_max st p = st) := by
  cases p with
  | inl s =>
    simp only [primStep, sphereStep, Reports, Closest.selecting]
    cases hi : s.intersect m ray with
    | none =>
      right
      exact ⟨fun t ht => (by cases ht), rfl⟩
    | some q =>
      by_cases hg : q.gt t_min ∧ q.below t_max ∧ Quo.lt q st.closest_t
      · left
        obtain ⟨v, rfl⟩ := Quo.fin_of_window q t_min t_max hg.1 hg.2.1
        exact ⟨v, rfl, (Quo.window_fin v t_min t_max).mp ⟨hg.1, hg.2.1⟩, hg.2.2,
          if_pos hg⟩
      · right
        refine ⟨?_, if_neg hg⟩
        intro t ht hw hlt
        injection ht with ht'
        rw [ht'] at hg
        obtain ⟨h1, h2⟩ := (Quo.window_fin t t_min t_max).mpr hw
        exact hg ⟨h1, h2, hlt⟩
  | inr tr =>
    simp only [primStep, triangleStep, Reports, Closest.selecting]
    cases hi : tr.intersect ray with
    | none =>
      right
      exact ⟨fun t ht => (by cases ht), rfl⟩
    | some v =>
      by_cases hg : v > t_min ∧ Dist.below v t_max ∧ Quo.lt (Quo.fin v) st.closest_t
      · left
        exact ⟨v, rfl, ⟨hg.1, hg.2.1⟩, hg.2.2, if_pos hg⟩
      · right
        refine ⟨?_, if_neg hg⟩
        intro t ht hw hlt
        injection ht with ht'
        rw [ht'] at hg
        exact hg ⟨hw.1, hw.2, hlt⟩

omit [LinearOrderedField F] in
theorem selecting_closest_t (t : F) (p : Sphere F ⊕ Triangle F) :
    (Closest.selecting t p).closest_t = Quo.fin t := by
  cases p <;> rfl

theorem scanned_step (m : CMath F) (ray : Ray F) (t_min : F) (t_max : Dist F)
    (pre : List (Sphere F ⊕ Triangle F)) (st : Closest F) (x : Sphere F ⊕ Triangle F)
    (h : Scanned m ray t_min t_max pre st) :
    Scanned m ray t_min t_max (pre ++ [x]) (primStep m ray t_min t_max st x) := by
  rcases primStep_cases m ray t_min t_max st x with ⟨t, hr, hw, hlt, hst⟩ | ⟨hno, hst⟩
  · rw [hst]
    right
    refine ⟨t, x, pre, [], rfl, hr, hw, ?_, ?_, rfl⟩
    · intro q hq u hru hwu
      rcases h with ⟨_, hnone⟩ | ⟨t', p, l1, l2, hpre, hrp, _, h1, h2, hsel⟩
      · exact absurd hwu (hnone q hq u hru)
      · have hlt' : t < t' := by
          rw [hsel, selecting_closest_t] at hlt
          exact hlt
        rw [hpre] at hq
        rcases List.mem_append.mp hq with hq1 | hq2
        · exact lt_trans hlt' (h1 q hq1 u hru hwu)
        · rcases List.mem_cons.mp hq2 with hqp | hq3
          · rw [hqp] at hru
            rw [← reports_unique m ray p t' u hrp hru]
            exact hlt'
          · exact lt_of_lt_of_le hlt' (h2 q hq3 u hru hwu)
    · intro q hq
      cases hq
  · rw [hst]
    rcases h with ⟨hinit, hnone⟩ | ⟨t', p, l1, l2, hpre, hrp, hwp, h1, h2, hsel⟩
    · left
      refine ⟨hinit, ?_⟩
      intro q hq u hru hwu
      rcases List.mem_append.mp hq with hq1 | hq2
      · exact hnone q hq1 u hru hwu
      · have hqx : q = x := List.mem_singleton.mp hq2
        rw [hqx] at hru
        have hn := hno u hru hwu
        rw [hinit] at hn
        exact hn trivial
    · right
      refine ⟨t', p, l1, l2 ++ [x], ?_, hrp, hwp, h1, ?_, hsel⟩
      · rw [hpre, List.append_assoc, List.cons_append]
      · intro q hq u hru hwu
        rcases List.mem_append.mp hq with hq1 | hq2
        · exact h2 q hq1 u hru hwu
        · have hqx : q = x := List.mem_singleton.mp hq2
          rw [hqx] at hru
          have hn := hno u hru hwu
          rw [hsel, selecting_closest_t] at hn
          exact not_lt.mp hn

theorem scanned_foldl (m : CMath F) (ray : Ray F) (t_min : F) (t_max : Dist F)
    (l : List (Sphere F ⊕ Triangle F)) :
    ∀ (pre : List (Sphere F ⊕ Triangle F)) (st : Closest F),
      Scanned m ray t_min t_max pre st →
      Scanned m ray t_min t_max (pre ++ l) (l.foldl (primStep m ray t_min t_max) st) := by
  induction l with
  | nil =>
    intro pre st h
    rw [List.append_nil]
    exact h
  | cons x xs ih =>
    intro pre st h
    have h2 := ih (pre ++ [x]) _ (scanned_step m ray t_min t_max pre st x h)
    rw [List.append_assoc, List.singleton_append] at h2
    exact h2

theorem nearestHit_scanned (m : CMath F) (sc : Scene F) (ray : Ray F) (t_min : F)
    (t_max : Dist F) :
    Scanned m ray t_min t_max sc.scanOrder (nearestHit m sc ray t_min t_max) := by
  rw [nearestHit_scan]
  have h := scanned_foldl m ray t_min t_max sc.scanOrder [] ⟨Quo.posInf, none, none⟩
    (Or.inl ⟨rfl, fun q hq => by cases hq⟩)
  rw [List.nil_append] at h
  exact h

theorem step_boundary (m : CMath F) (ray : Ray F) (t_min : F) (t_max : Dist F)
    (st : Closest F) (t : F) (hb : t = t_min ∨ t_max = Dist.fin t) :
    (∀ s : Sphere F, s.intersect m ray = some (Quo.fin t) →
      sphereStep m ray t_min t_max st s = st) ∧
    (∀ tr : Triangle F, tr.intersect ray = some t →
      triangleStep ray t_min t_max st tr = st) := by
  have hout : ¬ InWindow t_min t_max t := by
    rintro ⟨h1, h2⟩
    rcases hb with h | h
    · rw [h] at h1
      exact lt_irrefl _ h1
    · rw [h] at h2
      exact lt_irrefl _ h2
  constructor
  · intro s hs
    simp only [sphereStep, hs]
    apply if_neg
    rintro ⟨h1, h2, _⟩
    exact hout ((Quo.window_fin t t_min t_max).mp ⟨h1, h2⟩)
  · intro tr htr
    simp only [triangleStep, htr]
    apply if_neg
    rintro ⟨h1, h2, _⟩
    exact hout ⟨h1, h2⟩

/-! ### The shadow test -/

theorem inShadow_iff (m : CMath F) (sc : Scene F) (ray : Ray F) (b : Dist F) :
    inShadow m sc ray b = true ↔
      (∃ s ∈ sc.spheres, ∃ t : Quo F, s.intersect m ray = some t ∧ t.gt 0 ∧ t.below b) ∨
      (∃ tr ∈ sc.triangles, ∃ t : F, tr.intersect ray = some t ∧ 0 < t ∧ Dist.below t b) := by
  unfold inShadow
  rw [Bool.or_eq_true, List.any_eq_true, List.any_eq_true]
  constructor
  · rintro (⟨s, hs, h⟩ | ⟨tr, htr, h⟩)
    · left
      refine ⟨s, hs, ?_⟩
      cases hi : s.intersect m ray with
      | none => rw [hi] at h; cases h
      | some t =>
        rw [hi] at h
        exact ⟨t, rfl, of_decide_eq_true h⟩
    · right
      refine ⟨tr, htr, ?_⟩
      cases hi : tr.intersect ray with
      | none => rw [hi] at h; cases h
      | some t =>
        rw [hi] at h
        exact ⟨t, rfl, of_decide_eq_true h⟩
  · rintro (⟨s, hs, t, hi, h⟩ | ⟨tr, htr, t, hi, h⟩)
    · left
      refine ⟨s, hs, ?_⟩
      rw [hi]
      exact decide_eq_true h
    · right
      refine ⟨tr, htr, ?_⟩
      rw [hi]
      exact decide_eq_true h

theorem traceBody_miss (m : CMath F) (rnd : Nat → F) (sc : Scene F)
    (recurse : Ray F → F → Dist F → Nat → Color F × Nat)
    (ray : Ray F) (t_min : F) (t_max : Dist F) (depth : Int) (i : Nat)
    (h : hitSurface m sc ray t_min t_max = none) :
    traceBody m rnd sc recurse ray t_min t_max depth i = (sc.backgroundColor, i) := by
  unfold hitSurface hitPoint at h
  unfold traceBody
  simp only [h]

theorem invocations_of_nonpos (m : CMath F) (rnd : Nat → F) (sc : Scene F) (ray : Ray F)
    (t_min : F) (t_max : Dist F) (depth : Int) (i : Nat) (hd : depth ≤ 0) :
    invocations m rnd sc ray t_min t_max depth i = 1 := by
  rw [invocations, dif_pos hd]

/-- The counter of an invocation with `depth > 0`: one, plus the counters of
the recursive calls made. -/
theorem invocations_le_calls (m : CMath F) (rnd : Nat → F) (sc : Scene F) (ray : Ray F)
    (t_min : F) (t_max : Dist F) (depth : Int) (i : Nat) (hd : 0 < depth) :
    invocations m rnd sc ray t_min t_max depth i = 1 ∨
    ∃ (r1 r2 : Ray F) (j1 j2 : Nat),
      invocations m rnd sc ray t_min t_max depth i ≤
        1 + invocations m rnd sc r1 0.001 t_max (depth - 1) j1 +
          invocations m rnd sc r2 0.001 t_max (depth - 1) j2 := by
  have hd' : ¬ depth ≤ 0 := not_le.mpr hd
  rw [invocations, dif_neg hd']
  cases hitSurface m sc ray t_min t_max with
  | none => left; rfl
  | some sf =>
    right
    simp only
    refine ⟨reflectRayOf m ray (hitPoint m sc ray t_min t_max) sf,
      indirectRayOf m rnd (hitPoint m sc ray t_min t_max) sf
        (reflectionPart m (fun r lo hi j => TraceRay m rnd sc r lo hi (depth - 1) j) ray
          (hitPoint m sc ray t_min t_max) sf t_max
          (computeLighting m rnd sc (hitPoint m sc ray t_min t_max) sf.normal
            ray.direction.neg sf.specular i).2).2,
      (computeLighting m rnd sc (hitPoint m sc ray t_min t_max) sf.normal
        ray.direction.neg sf.specular i).2,
      (sf.normal.randomHemisphere m rnd
        ((reflectionPart m (fun r lo hi j => TraceRay m rnd sc r lo hi (depth - 1) j) ray
          (hitPoint m sc ray t_min t_max) sf t_max
          (computeLighting m rnd sc (hitPoint m sc ray t_min t_max) sf.normal
            ray.direction.neg sf.specular i).2).2 + 1)).2, ?_⟩
    split_ifs <;> omega

theorem invocations_bound (m : CMath F) (rnd : Nat → F) (sc : Scene F) (n : Nat) :
    ∀ (depth : Int) (ray : Ray F) (t_min : F) (t_max : Dist F) (i : Nat),
      depth ≤ n → invocations m rnd sc ray t_min t_max depth i + 1 ≤ 2 ^ (n + 1) := by
  induction n with
  | zero =>
    intro depth ray t_min t_max i hd
    rw [invocations_of_nonpos m rnd sc ray t_min t_max depth i (by simpa using hd)]
    norm_num
  | succ k ih =>
    intro depth ray t_min t_max i hd
    by_cases h0 : depth ≤ 0
    · rw [invocations_of_nonpos m rnd sc ray t_min t_max depth i h0]
      have : 1 ≤ 2 ^ (k + 1) := Nat.one_le_two_pow
      rw [pow_succ]
      omega
    · have hk : depth - 1 ≤ (k : Int) := by
        push_cast at hd
        omega
      rcases invocations_le_calls m rnd sc ray t_min t_max depth i (not_le.mp h0) with
        h1 | ⟨r1, r2, j1, j2, hle⟩
      · rw [h1]
        have : 1 ≤ 2 ^ (k + 1) := Nat.one_le_two_pow
        rw [pow_succ]
        omega
      · have ha := ih (depth - 1) r1 0.001 t_max j1 hk
        have hb := ih (depth - 1) r2 0.001 t_max j2 hk
        rw [pow_succ]
        omega

/-- The body of `TraceRay` calls `recurse` at most twice: its result is
determined by the values of `recurse` at two argument lists, both with the
window `(0.001, t_max)`. -/
theorem traceBody_two_calls (m : CMath F) (rnd : Nat → F) (sc : Scene F)
    (recurse : Ray F → F → Dist F → Nat → Color F × Nat)
    (ray : Ray F) (t_min : F) (t_max : Dist F) (depth : Int) (i : Nat) :
    ∃ (r1 r2 : Ray F) (j1 j2 : Nat),
      ∀ recurse' : Ray F → F → Dist F → Nat → Color F × Nat,
        recurse' r1 0.001 t_max j1 = recurse r1 0.001 t_max j1 →
        recurse' r2 0.001 t_max j2 = recurse r2 0.001 t_max j2 →
        traceBody m rnd sc recurse' ray t_min t_max depth i =
          traceBody m rnd sc recurse ray t_min t_max depth i := by
  cases hhit : hitSurface m sc ray t_min t_max with
  | none =>
    refine ⟨ray, ray, 0, 0, fun recurse' _ _ => ?_⟩
    rw [traceBody_miss m rnd sc recurse' ray t_min t_max depth i hhit,
      traceBody_miss m rnd sc recurse ray t_min t_max depth i hhit]
  | some sf =>
    refine ⟨reflectRayOf m ray (hitPoint m sc ray t_min t_max) sf,
      indirectRayOf m rnd (hitPoint m sc ray t_min t_max) sf
        (reflectionPart m recurse ray (hitPoint m sc ray t_min t_max) sf t_max
          (computeLighting m rnd sc (hitPoint m sc ray t_min t_max) sf.normal
            ray.direction.neg sf.specular i).2).2,
      (computeLighting m rnd sc (hitPoint m sc ray t_min t_max) sf.normal
        ray.direction.neg sf.specular i).2,
      (reflectionPart m recurse ray (hitPoint m sc ray t_min t_max) sf t_max
        (computeLighting m rnd sc (hitPoint m sc ray t_min t_max) sf.normal
          ray.direction.neg sf.specular i).2).2 + 3, fun recurse' h1 h2 => ?_⟩
    have hrefl : reflectionPart m recurse' ray (hitPoint m sc ray t_min t_max) sf t_max
        (computeLighting m rnd sc (hitPoint m sc ray t_min t_max) sf.normal
          ray.direction.neg sf.specular i).2 =
        reflectionPart m recurse ray (hitPoint m sc ray t_min t_max) sf t_max
        (computeLighting m rnd sc (hitPoint m sc ray t_min t_max) sf.normal
          ray.direction.neg sf.specular i).2 := by
      rw [reflectionPart_eq, reflectionPart_eq, h1]
    rw [traceBody_hit m rnd sc recurse' ray t_min t_max depth i sf hhit,
      traceBody_hit m rnd sc recurse ray t_min t_max depth i sf hhit]
    simp only [hrefl]
    have hind : indirectPart m rnd recurse' (hitPoint m sc ray t_min t_max) sf t_max depth
        (reflectionPart m recurse ray (hitPoint m sc ray t_min t_max) sf t_max
          (computeLighting m rnd sc (hitPoint m sc ray t_min t_max) sf.normal
            ray.direction.neg sf.specular i).2).2 =
        indirectPart m rnd recurse (hitPoint m sc ray t_min t_max) sf t_max depth
        (reflectionPart m recurse ray (hitPoint m sc ray t_min t_max) sf t_max
          (computeLighting m rnd sc (hitPoint m sc ray t_min t_max) sf.normal
            ray.direction.neg sf.specular i).2).2 := by
      rw [indirectPart_eq, indirectPart_eq, h2]
    rw [hind]

/-- The point light `lamp` at `(0,0,2)`, the shaded point `(0,0,-5)` with
normal `(0,0,-1)` and the matte unit sphere between them: the shadow ray
starts at `(0,0,-4.99999)` with direction `(0,0,1)`, the sphere reports the
distance `3.99999` on it, the light is at distance `7` from the point, and
the shadow test with the bound of `lamp` is negative. -/
theorem lamp_occluder (m : CMath F) (hs : m.SqrtSpec) (rnd : Nat → F) (j : Nat) :
    shadowRayOf m ⟨0, 0, -5⟩ ⟨0, 0, -1⟩
        (sampleDir m ⟨0, 0, -5⟩ (samplePoint m rnd (lamp : Light F) j).1)
      = ⟨⟨0, 0, -4.99999⟩, ⟨0, 0, 1⟩⟩ ∧
    Sphere.intersect m (matteSphere : Sphere F) ⟨⟨0, 0, -4.99999⟩, ⟨0, 0, 1⟩⟩
      = some (Quo.fin 3.99999) ∧
    (Vector3D.sub (lamp : Light F).position ⟨0, 0, -5⟩).length m = 7 ∧
    inShadow m (lampScene : Scene F) ⟨⟨0, 0, -4.99999⟩, ⟨0, 0, 1⟩⟩
      (shadowBound (lamp : Light F)) = false := by
  have hp : samplePoint m rnd (lamp : Light F) j = (⟨0, 0, 2⟩, j) := by
    simp [samplePoint, lamp, Light.point]
  have hlen : (Vector3D.sub (⟨0, 0, 2⟩ : Vector3D F) ⟨0, 0, -5⟩).length m = 7 := by
    apply Vector3D.length_of_sq m hs _ 7 (by norm_num)
    simp only [Vector3D.sub]
    norm_num
  have hdir : sampleDir m ⟨0, 0, -5⟩ (samplePoint m rnd (lamp : Light F) j).1
      = ⟨0, 0, 1⟩ := by
    rw [hp]
    unfold sampleDir
    rw [Vector3D.normalize_of_length m _ 7 hlen (by norm_num)]
    simp only [Vector3D.sub, Vector3D.mk.injEq]
    norm_num
  have hunit : (⟨0, 0, 1⟩ : Vector3D F).length m = 1 := by
    apply Vector3D.length_of_sq m hs _ 1 (by norm_num)
    norm_num
  have hint : Sphere.intersect m (matteSphere : Sphere F) ⟨⟨0, 0, -4.99999⟩, ⟨0, 0, 1⟩⟩
      = some (Quo.fin 3.99999) := by
    have hdv : Sphere.discriminant (matteSphere : Sphere F)
        ⟨⟨0, 0, -4.99999⟩, ⟨0, 0, 1⟩⟩ = 4 := by
      simp only [Sphere.discriminant, Sphere.k1, Sphere.k2, Sphere.k3, Sphere.oc,
        Vector3D.dot, Vector3D.sub, matteSphere]
      norm_num
    have hsq : m.sqrt 4 = 2 := m.sqrt_unique hs 4 2 (by norm_num) (by norm_num)
    apply Sphere.intersect_of_roots m _ _ 3.99999 5.99999
    · simp only [Sphere.k1, Vector3D.dot]
      norm_num
    · rw [hdv]; norm_num
    · simp only [Sphere.root1, hdv, hsq]
      simp only [Sphere.k1, Sphere.k2, Sphere.oc, Vector3D.dot, Vector3D.sub, matteSphere]
      norm_num
    · simp only [Sphere.root2, hdv, hsq]
      simp only [Sphere.k1, Sphere.k2, Sphere.oc, Vector3D.dot, Vector3D.sub, matteSphere]
      norm_num
    · norm_num
    · norm_num
  refine ⟨?_, hint, ?_, ?_⟩
  · rw [hdir]
    unfold shadowRayOf Ray.new
    rw [Vector3D.normalize_of_length m _ 1 hunit one_ne_zero]
    simp only [Vector3D.dot, Vector3D.sub, Vector3D.add, Vector3D.mul, Ray.mk.injEq,
      Vector3D.mk.injEq]
    norm_num
  · simp only [lamp, Light.point]
    exact hlen
  · simp only [inShadow, lampScene, List.any_cons, List.any_nil, hint, shadowBound, lamp,
      Light.point, Quo.gt, Quo.below, Quo.lt, if_true]
    norm_num

/-! ### The channels of `computeLighting` -/

end Lemmas

/-! ## Auxiliary lemmas on doubles -/

/-! ### Laws of the arithmetic of `double` -/

namespace Dbl

theorem neg_canon (s : Bool) (m : Nat) (e : Int) : neg (canon s m e) = canon (!s) m e := by
  unfold canon neg
  cases s <;> by_cases h : m >>> trailingZeros m = 0 <;> simp [h]

theorem neg_round (s : Bool) (n : Nat) (e : Int) : neg (round s n e) = round (!s) n e := by
  unfold round
  by_cases h : n = 0
  · simp [h, neg]
  · simp only [h, if_false]
    split_ifs
    all_goals first | rfl | exact neg_canon s _ _

theorem neg_roundRat (s : Bool) (n d : Nat) (e : Int) :
    neg (roundRat s n d e) = roundRat (!s) n d e := by
  unfold roundRat
  by_cases h : n = 0
  · simp [h, neg]
  · simp only [h, if_false]
    exact neg_round s _ _

theorem round_zero (s : Bool) (e : Int) : round s 0 e = fin false 0 0 := by
  unfold round
  simp

theorem mul_flip (x y : Dbl) : mul x y = mul y x := by
  cases x <;> cases y <;> simp [mul, Nat.mul_comm, Int.add_comm, Bool.xor_comm]

theorem mul_neg_left (x y : Dbl) : mul (neg x) y = neg (mul x y) := by
  cases x with
  | fin s1 m1 e1 =>
    cases y with
    | fin s2 m2 e2 =>
      show round ((!s1 && decide (m1 ≠ 0)) != s2) (m1 * m2) (e1 + e2) =
        neg (round (s1 != s2) (m1 * m2) (e1 + e2))
      rw [neg_round]
      by_cases h : m1 = 0
      · simp [h, round_zero]
      · cases s1 <;> cases s2 <;> simp [h]
    | inf s2 =>
      simp only [neg, mul]
      by_cases h : m1 = 0
      · simp [h]
      · cases s1 <;> cases s2 <;> simp [h, neg]
    | nan => simp [neg, mul]
  | inf s1 =>
    cases y with
    | fin s2 m2 e2 =>
      simp only [neg, mul]
      by_cases h : m2 = 0
      · simp [h]
      · cases s1 <;> cases s2 <;> simp [h, neg]
    | inf s2 => cases s1 <;> cases s2 <;> simp [neg, mul]
    | nan => simp [neg, mul]
  | nan => cases y <;> simp [neg, mul]

theorem mul_neg_neg (x y : Dbl) : mul (neg x) (neg y) = mul x y := by
  cases x with
  | fin s1 m1 e1 =>
    cases y with
    | fin s2 m2 e2 =>
      simp only [neg, mul]
      by_cases h1 : m1 = 0
      · simp [h1, round_zero]
      · by_cases h2 : m2 = 0
        · simp [h2, round_zero]
        · cases s1 <;> cases s2 <;> simp [h1, h2]
    | inf s2 =>
      simp only [neg, mul]
      by_cases h : m1 = 0
      · simp [h]
      · cases s1 <;> cases s2 <;> simp [h]
    | nan => simp [neg, mul]
  | inf s1 =>
    cases y with
    | fin s2 m2 e2 =>
      simp only [neg, mul]
      by_cases h : m2 = 0
      · simp [h]
      · cases s1 <;> cases s2 <;> simp [h]
    | inf s2 => cases s1 <;> cases s2 <;> simp [neg, mul]
    | nan => simp [neg, mul]
  | nan => cases y <;> simp [neg, mul]

theorem scaled_neg (s : Bool) (m : Nat) (e e0 : Int) :
    scaled (!s && decide (m ≠ 0)) m e e0 = -scaled s m e e0 := by
  unfold scaled
  by_cases h : m = 0
  · simp [h]
  · cases s <;> simp [h]

theorem add_neg_neg (x y : Dbl) : add (neg x) (neg y) = neg (add x y) := by
  cases x with
  | fin s1 m1 e1 =>
    cases y with
    | fin s2 m2 e2 =>
      show round _ (scaled (!s1 && decide (m1 ≠ 0)) m1 e1 (min e1 e2) +
          scaled (!s2 && decide (m2 ≠ 0)) m2 e2 (min e1 e2)).natAbs (min e1 e2) =
        neg (round _ (scaled s1 m1 e1 (min e1 e2) + scaled s2 m2 e2 (min e1 e2)).natAbs
          (min e1 e2))
      rw [neg_round, scaled_neg, scaled_neg]
      by_cases h : scaled s1 m1 e1 (min e1 e2) + scaled s2 m2 e2 (min e1 e2) = 0
      · have h' : -scaled s1 m1 e1 (min e1 e2) + -scaled s2 m2 e2 (min e1 e2) = 0 := by omega
        simp [h, h', round_zero]
      · have e1' : (-scaled s1 m1 e1 (min e1 e2) + -scaled s2 m2 e2 (min e1 e2)).natAbs =
            (scaled s1 m1 e1 (min e1 e2) + scaled s2 m2 e2 (min e1 e2)).natAbs := by omega
        rw [e1']
        congr 1
        by_cases hneg : scaled s1 m1 e1 (min e1 e2) + scaled s2 m2 e2 (min e1 e2) < 0
        · have : ¬ (-scaled s1 m1 e1 (min e1 e2) + -scaled s2 m2 e2 (min e1 e2) < 0) := by omega
          simp [hneg, this]
        · have : -scaled s1 m1 e1 (min e1 e2) + -scaled s2 m2 e2 (min e1 e2) < 0 := by omega
          simp [hneg, this]
    | inf s2 => simp [neg, add]
    | nan => simp [neg, add]
  | inf s1 =>
    cases y with
    | fin s2 m2 e2 => simp [neg, add]
    | inf s2 => cases s1 <;> cases s2 <;> simp [neg, add]
    | nan => simp [neg, add]
  | nan => cases y <;> simp [neg, add]

theorem add_flip (x y : Dbl) : add x y = add y x := by
  cases x with
  | fin s1 m1 e1 =>
    cases y with
    | fin s2 m2 e2 =>
      simp only [add]
      rw [min_comm e2 e1, Int.add_comm]
    | inf s2 => simp [add]
    | nan => simp [add]
  | inf s1 =>
    cases y with
    | fin s2 m2 e2 => simp [add]
    | inf s2 => cases s1 <;> cases s2 <;> simp [add]
    | nan => simp [add]
  | nan => cases y <;> simp [add]

/-- Adding `-(-y)` is adding `y`. -/
theorem add_neg_neg_right (x y : Dbl) : add x (neg (neg y)) = add x y := by
  cases y with
  | fin s m e =>
    cases x with
    | fin s1 m1 e1 =>
      simp only [neg, add]
      have h : scaled (!(!s && decide (m ≠ 0)) && decide (m ≠ 0)) m e (min e1 e) =
          scaled s m e (min e1 e) := by
        unfold scaled
        by_cases hm : m = 0
        · simp [hm]
        · cases s <;> simp [hm]
      rw [h]
    | inf s1 => simp [neg, add]
    | nan => simp [neg, add]
  | inf s => cases x <;> simp [neg, add]
  | nan => cases x <;> simp [neg, add]

theorem sub_swap (x y : Dbl) : sub y x = neg (sub x y) := by
  unfold sub
  rw [← add_neg_neg, add_neg_neg_right, add_flip]

theorem div_neg_left (x y : Dbl) : div (neg x) y = neg (div x y) := by
  cases x with
  | fin s1 m1 e1 =>
    cases y with
    | fin s2 m2 e2 =>
      simp only [neg, div]
      by_cases h2 : m2 = 0
      · by_cases h1 : m1 = 0
        · simp [h1, h2]
        · cases s1 <;> simp [h1, h2, neg]
      · show (if m2 = 0 then _ else roundRat ((!s1 && decide (m1 ≠ 0)) != s2) m1 m2 (e1 - e2)) =
          neg (if m2 = 0 then _ else roundRat (s1 != s2) m1 m2 (e1 - e2))
        rw [if_neg h2, if_neg h2, neg_roundRat]
        by_cases h1 : m1 = 0
        · simp [h1, roundRat]
        · cases s1 <;> cases s2 <;> simp [h1]
    | inf s2 => simp [neg, div]
    | nan => simp [neg, div]
  | inf s1 =>
    cases y with
    | fin s2 m2 e2 => cases s1 <;> cases s2 <;> simp [neg, div]
    | inf s2 => simp [neg, div]
    | nan => simp [neg, div]
  | nan => cases y <;> simp [neg, div]

/-- The sum of a finite double and its negation is zero. -/
theorem add_neg_fin_self (s : Bool) (m : Nat) (e : Int) :
    add (fin s m e) (neg (fin s m e)) = fin false 0 0 := by
  show round _ (scaled s m e (min e e) + scaled (!s && decide (m ≠ 0)) m e (min e e)).natAbs
    (min e e) = fin false 0 0
  rw [scaled_neg]
  have h : scaled s m e (min e e) + -scaled s m e (min e e) = 0 := by omega
  rw [h]
  simp [round_zero]

theorem blt_zero_neg (d : Dbl) : blt (fin false 0 0) (neg d) = blt d (fin false 0 0) := by
  cases d with
  | fin s m e =>
    simp only [neg, blt, scaled_neg]
    have h0 : ∀ a b : Int, scaled false 0 a b = 0 := by
      intro a b
      simp [scaled]
    rw [h0, h0, min_comm]
    by_cases h : scaled s m e (min e 0) < 0
    · have : (0 : Int) < -scaled s m e (min e 0) := by omega
      simp [h, this]
    · have : ¬ ((0 : Int) < -scaled s m e (min e 0)) := by omega
      simp [h, this]
  | inf s => cases s <;> simp [neg, blt]
  | nan => simp [neg, blt]

/-- No double is both below and above zero. -/
theorem blt_asymm_zero (d : Dbl) (h : blt (fin false 0 0) d = true) :
    blt d (fin false 0 0) = false := by
  cases d with
  | fin s m e =>
    simp only [blt, decide_eq_true_eq, decide_eq_false_iff_not] at h ⊢
    rw [min_comm]
    omega
  | inf s => cases s <;> simp_all [blt]
  | nan => simp [blt]

theorem neg_neg_of_signNormal (x : Dbl) (h : signNormal x) : neg (neg x) = x := by
  cases x with
  | fin s m e =>
    simp only [signNormal] at h
    simp only [neg]
    by_cases hm : m = 0
    · cases s
      · simp [hm]
      · exact absurd hm (h rfl)
    · cases s <;> simp [hm]
  | inf s => simp [neg]
  | nan => rfl

theorem signNormal_canon (s : Bool) (m : Nat) (e : Int) : signNormal (canon s m e) := by
  simp only [canon, signNormal]
  intro h
  simp at h
  exact h.2

theorem signNormal_round (s : Bool) (n : Nat) (e : Int) : signNormal (round s n e) := by
  unfold round
  by_cases h : n = 0
  · simp [h, signNormal]
  · simp only [h, if_false]
    split_ifs
    all_goals first | trivial | exact signNormal_canon _ _ _

theorem signNormal_roundRat (s : Bool) (n d : Nat) (e : Int) :
    signNormal (roundRat s n d e) := by
  unfold roundRat
  split_ifs
  · simp [signNormal]
  · exact signNormal_round _ _ _

theorem signNormal_div (x y : Dbl) : signNormal (div x y) := by
  cases x <;> cases y <;> simp only [div] <;> try trivial
  · split_ifs
    · trivial
    · trivial
    · exact signNormal_roundRat _ _ _ _
  · simp [signNormal]

end Dbl

/-! ### The order of `double` -/

namespace Dbl

theorem toRat_fin (s : Bool) (m : Nat) (e : Int) :
    (Dbl.fin s m e).toRat = (if s then -1 else 1) * (m : ℚ) * (2 : ℚ) ^ e := rfl

theorem neg_fin (s : Bool) (m : Nat) (e : Int) :
    -(Dbl.fin s m e) = Dbl.fin (!s && decide (m ≠ 0)) m e := rfl

theorem le_of_lt (x y : Dbl) (h : x < y) : x ≤ y := by
  show ble x y = true
  have h' : blt x y = true := h
  simp [ble, h']

theorem zero_eq : (0 : Dbl) = fin false 0 0 := by decide

theorem scaled_false_nonneg (m : Nat) (e e0 : Int) : 0 ≤ scaled false m e e0 := by
  simp only [scaled, Bool.false_eq_true, if_false]
  exact Int.ofNat_nonneg _

theorem scaled_true_nonpos (m : Nat) (e e0 : Int) : scaled true m e e0 ≤ 0 := by
  simp only [scaled, if_true]
  have := Int.ofNat_nonneg (m <<< (e - e0).toNat)
  omega

theorem signClear_round (n : Nat) (e : Int) : signClear (round false n e) := by
  unfold round
  by_cases h : n = 0
  · simp [h, signClear]
  · simp only [h, if_false]
    split_ifs
    all_goals rfl

theorem signClear_roundRat (n d : Nat) (e : Int) : signClear (roundRat false n d e) := by
  unfold roundRat
  split_ifs
  · rfl
  · exact signClear_round _ _

/-- The result of `std::sqrt` never has the sign bit set. -/
theorem signClear_sqrt (x : Dbl) : signClear (sqrt x) := by
  cases x with
  | fin s m e =>
    simp only [sqrt]
    by_cases hm : m = 0
    · rw [if_pos hm]
      rfl
    · rw [if_neg hm]
      by_cases hs : s = true
      · rw [if_pos hs]
        trivial
      · rw [if_neg hs]
        exact signClear_round _ _
  | inf s =>
    simp only [sqrt]
    split_ifs
    · trivial
    · rfl
  | nan => trivial

/-- A value with the sign bit clear does not compare below zero. -/
theorem not_lt_zero_of_signClear (x : Dbl) (h : signClear x) : ¬ x < 0 := by
  show ¬ blt x 0 = true
  rw [zero_eq]
  cases x with
  | fin s m e =>
    simp only [signClear] at h
    subst h
    simp only [blt, decide_eq_true_eq]
    have a1 := scaled_false_nonneg m e (min e 0)
    have a2 : scaled false 0 0 (min e 0) = 0 := by simp [scaled]
    omega
  | inf s =>
    simp only [signClear] at h
    subst h
    simp [blt]
  | nan => simp [blt]

/-- The negation of a value with the sign bit clear does not compare above
zero. -/
theorem not_zero_lt_neg_of_signClear (x : Dbl) (h : signClear x) : ¬ (0 : Dbl) < neg x := by
  show ¬ blt 0 (neg x) = true
  rw [zero_eq, blt_zero_neg]
  exact not_lt_zero_of_signClear x h

/-- The quotient by a value with the sign bit clear is not on the other side
of zero from the dividend. -/
theorem sameSide_div (x y : Dbl) (hy : signClear y) : sameSide x (x / y) := by
  show sameSide x (div x y)
  cases x with
  | fin s1 m1 e1 =>
    cases y with
    | fin s2 m2 e2 =>
      simp only [signClear] at hy
      subst hy
      cases s1 with
      | false =>
        refine ⟨fun _ => ?_, fun h => ?_⟩
        · apply not_lt_zero_of_signClear
          simp only [div]
          split_ifs
          · trivial
          · rfl
          · exact signClear_roundRat _ _ _
        · exact absurd h (not_lt_zero_of_signClear _ rfl)
      | true =>
        refine ⟨fun h => ?_, fun _ => ?_⟩
        · exfalso
          have h' : blt 0 (fin true m1 e1) = true := h
          rw [zero_eq] at h'
          simp only [blt, decide_eq_true_eq] at h'
          have a1 := scaled_false_nonneg 0 0 (min 0 e1)
          have a2 := scaled_true_nonpos m1 e1 (min 0 e1)
          omega
        · simp only [div]
          split_ifs
          · show ¬ blt 0 nan = true
            rw [zero_eq]
            simp [blt]
          · show ¬ blt 0 (inf true) = true
            rw [zero_eq]
            simp [blt]
          · have e : roundRat (true != false) m1 m2 (e1 - e2) =
                neg (roundRat false m1 m2 (e1 - e2)) := by
              rw [neg_roundRat]
              rfl
            rw [e]
            exact not_zero_lt_neg_of_signClear _ (signClear_roundRat _ _ _)
    | inf s2 =>
      refine ⟨fun _ => ?_, fun _ => ?_⟩
      · exact not_lt_zero_of_signClear _ rfl
      · show ¬ blt 0 (fin false 0 0) = true
        decide
    | nan =>
      refine ⟨fun _ => ?_, fun _ => ?_⟩
      · show ¬ blt nan 0 = true
        simp [blt]
      · show ¬ blt 0 nan = true
        rw [zero_eq]
        simp [blt]
  | inf s1 =>
    cases y with
    | fin s2 m2 e2 =>
      simp only [signClear] at hy
      subst hy
      cases s1 with
      | false =>
        refine ⟨fun _ => ?_, fun h => ?_⟩
        · exact not_lt_zero_of_signClear _ rfl
        · exact absurd h (not_lt_zero_of_signClear _ rfl)
      | true =>
        refine ⟨fun h => ?_, fun _ => ?_⟩
        · exact absurd h (by decide)
        · show ¬ blt 0 (inf true) = true
          decide
    | inf s2 =>
      refine ⟨fun _ => ?_, fun _ => ?_⟩
      · show ¬ blt nan 0 = true
        simp [blt]
      · show ¬ blt 0 nan = true
        rw [zero_eq]
        simp [blt]
    | nan =>
      refine ⟨fun _ => ?_, fun _ => ?_⟩
      · show ¬ blt nan 0 = true
        simp [blt]
      · show ¬ blt 0 nan = true
        rw [zero_eq]
        simp [blt]
  | nan =>
    refine ⟨fun h => absurd h (by decide), fun h => ?_⟩
    exact absurd h (by
      show ¬ blt nan 0 = true
      simp [blt])

theorem sameSide_zero (x : Dbl) : sameSide x 0 :=
  ⟨fun _ => by decide, fun _ => by decide⟩

end Dbl

/-- No component of `normalize(v)` is on the other side of zero from the
component of `v`. -/
theorem IEEE.Vector3D.normalize_sameSide (v : IEEE.Vector3D) :
    Dbl.sameSide v.x v.normalize.x ∧ Dbl.sameSide v.y v.normalize.y ∧
    Dbl.sameSide v.z v.normalize.z := by
  unfold IEEE.Vector3D.normalize
  by_cases h : Dbl.beq v.length 0 = true
  · simp only [h, if_true]
    exact ⟨Dbl.sameSide_zero _, Dbl.sameSide_zero _, Dbl.sameSide_zero _⟩
  · simp only [h]
    have hl : Dbl.signClear v.length := Dbl.signClear_sqrt _
    exact ⟨Dbl.sameSide_div _ _ hl, Dbl.sameSide_div _ _ hl, Dbl.sameSide_div _ _ hl⟩

namespace Dbl

/-- The sum of a finite double and its negation is zero. -/
theorem add_neg_finite (x : Dbl) (h : x.isFinite = true) : x + -x = 0.0 := by
  cases x with
  | fin s m e => exact add_neg_fin_self s m e
  | inf s => simp [isFinite] at h
  | nan => simp [isFinite] at h

/-- The difference of a finite double and itself is zero. -/
theorem sub_finite_self (x : Dbl) (h : x.isFinite = true) : x - x = 0.0 := by
  cases x with
  | fin s m e => exact add_neg_fin_self s m e
  | inf s => simp [isFinite] at h
  | nan => simp [isFinite] at h

/-- The product of doubles does not depend on the order of the factors. -/
theorem mul_swap (x y : Dbl) : x * y = y * x := mul_flip x y

/-- The negation of a value above zero is not above zero. -/
theorem not_zero_lt_neg (d : Dbl) (h : (0 : Dbl) < d) : ¬ (0 : Dbl) < -d := by
  have h' : blt 0 d = true := h
  show ¬ blt 0 (neg d) = true
  rw [zero_eq] at h' ⊢
  rw [blt_zero_neg, blt_asymm_zero d h']
  simp

/-- The negation of a value below zero is above zero. -/
theorem zero_lt_neg (d : Dbl) (h : d < 0) : (0 : Dbl) < -d := by
  have h' : blt d 0 = true := h
  show blt 0 (neg d) = true
  rw [zero_eq] at h' ⊢
  rw [blt_zero_neg]
  exact h'

/-- A value below zero is not above zero. -/
theorem not_zero_lt_of_lt_zero (d : Dbl) (h : d < 0) : ¬ (0 : Dbl) < d := by
  intro h0
  have h' : blt d 0 = true := h
  have h0' : blt 0 d = true := h0
  rw [zero_eq] at h' h0'
  rw [blt_asymm_zero d h0'] at h'
  exact absurd h' (by simp)

theorem neg_zero : -(0 : Dbl) = 0 := by decide

end Dbl

namespace IEEE.Vector3D

/-- The dot product with the negated vector is the negated dot product. -/
theorem dot_of_neg (n a : IEEE.Vector3D) : n.neg.dot a = -(n.dot a) := by
  show Dbl.add (Dbl.add (Dbl.mul (Dbl.neg n.x) a.x) (Dbl.mul (Dbl.neg n.y) a.y))
    (Dbl.mul (Dbl.neg n.z) a.z) =
    Dbl.neg (Dbl.add (Dbl.add (Dbl.mul n.x a.x) (Dbl.mul n.y a.y)) (Dbl.mul n.z a.z))
  rw [Dbl.mul_neg_left, Dbl.mul_neg_left, Dbl.mul_neg_left, Dbl.add_neg_neg, Dbl.add_neg_neg]

/-- The cross product changes sign when its arguments are exchanged. -/
theorem cross_exchange (a b : IEEE.Vector3D) : b.cross a = (a.cross b).neg := by
  show IEEE.Vector3D.mk (Dbl.sub (Dbl.mul b.y a.z) (Dbl.mul b.z a.y))
      (Dbl.sub (Dbl.mul b.z a.x) (Dbl.mul b.x a.z))
      (Dbl.sub (Dbl.mul b.x a.y) (Dbl.mul b.y a.x)) =
    IEEE.Vector3D.mk (Dbl.neg (Dbl.sub (Dbl.mul a.y b.z) (Dbl.mul a.z b.y)))
      (Dbl.neg (Dbl.sub (Dbl.mul a.z b.x) (Dbl.mul a.x b.z)))
      (Dbl.neg (Dbl.sub (Dbl.mul a.x b.y) (Dbl.mul a.y b.x)))
  rw [← Dbl.sub_swap, ← Dbl.sub_swap, ← Dbl.sub_swap, Dbl.mul_flip b.y a.z,
    Dbl.mul_flip b.z a.y, Dbl.mul_flip b.z a.x, Dbl.mul_flip b.x a.z,
    Dbl.mul_flip b.x a.y, Dbl.mul_flip b.y a.x]

/-- The negated vector has the same computed length. -/
theorem length_neg (a : IEEE.Vector3D) : a.neg.length = a.length := by
  show Dbl.sqrt (Dbl.add (Dbl.add (Dbl.mul (Dbl.neg a.x) (Dbl.neg a.x))
      (Dbl.mul (Dbl.neg a.y) (Dbl.neg a.y))) (Dbl.mul (Dbl.neg a.z) (Dbl.neg a.z))) =
    Dbl.sqrt (Dbl.add (Dbl.add (Dbl.mul a.x a.x) (Dbl.mul a.y a.y)) (Dbl.mul a.z a.z))
  rw [Dbl.mul_neg_neg, Dbl.mul_neg_neg, Dbl.mul_neg_neg]

/-- Normalizing the negated vector gives the negated unit vector. -/
theorem normalize_of_neg (a : IEEE.Vector3D) : a.neg.normalize = a.normalize.neg := by
  unfold IEEE.Vector3D.normalize
  rw [length_neg]
  by_cases h : Dbl.beq a.length 0 = true
  · simp only [h, if_true]
    show IEEE.Vector3D.mk 0 0 0 = IEEE.Vector3D.mk (-0) (-0) (-0)
    rw [Dbl.neg_zero]
  · simp only [h]
    show IEEE.Vector3D.mk (Dbl.div (Dbl.neg a.x) a.length) (Dbl.div (Dbl.neg a.y) a.length)
        (Dbl.div (Dbl.neg a.z) a.length) =
      IEEE.Vector3D.mk (Dbl.neg (Dbl.div a.x a.length)) (Dbl.neg (Dbl.div a.y a.length))
        (Dbl.neg (Dbl.div a.z a.length))
    rw [Dbl.div_neg_left, Dbl.div_neg_left, Dbl.div_neg_left]

/-- Negating the result of `normalize` twice gives it back. -/
theorem neg_neg_normalize (a : IEEE.Vector3D) : a.normalize.neg.neg = a.normalize := by
  unfold IEEE.Vector3D.normalize
  by_cases h : Dbl.beq a.length 0 = true
  · simp only [h, if_true]
    show IEEE.Vector3D.mk (-(-0)) (-(-0)) (-(-0)) = IEEE.Vector3D.mk 0 0 0
    rw [Dbl.neg_zero, Dbl.neg_zero]
  · simp only [h]
    show IEEE.Vector3D.mk (Dbl.neg (Dbl.neg (Dbl.div a.x a.length)))
        (Dbl.neg (Dbl.neg (Dbl.div a.y a.length)))
        (Dbl.neg (Dbl.neg (Dbl.div a.z a.length))) =
      IEEE.Vector3D.mk (Dbl.div a.x a.length) (Dbl.div a.y a.length) (Dbl.div a.z a.length)
    rw [Dbl.neg_neg_of_signNormal _ (Dbl.signNormal_div _ _), Dbl.neg_neg_of_signNormal _ (Dbl.signNormal_div _ _),
      Dbl.neg_neg_of_signNormal _ (Dbl.signNormal_div _ _)]

end IEEE.Vector3D

/-- The dot product of the result of `Triangle::getNormal` with the vertex
`A` does not compare above zero. -/
theorem IEEE.Triangle.getNormal_dot_not_pos (tr : IEEE.Triangle) :
    ¬ (0 : Dbl) < tr.getNormal.dot tr.A := by
  unfold IEEE.Triangle.getNormal
  by_cases h : (((tr.B.sub tr.A).cross (tr.C.sub tr.A)).normalize).dot tr.A > 0
  · simp only [h, if_true]
    rw [IEEE.Vector3D.dot_of_neg]
    exact Dbl.not_zero_lt_neg _ h
  · simp only [h]
    exact h

namespace IEEE

/-- A light whose radius is not above `0` makes no draw: the sample body
leaves the position in the random stream and does not read the stream. -/
theorem lightSample_no_draw (m : Libm) (rnd : Nat → Dbl) (sc : Scene) (light : Light)
    (point normal view : Vector3D) (specular : Dbl) (h : ¬ light.radius > 0)
    (c : Color) (j : Nat) :
    lightSample m rnd sc light point normal view specular (c, j) =
      (sampleOnce m sc light point normal view specular c, j) := by
  simp only [sampleOnce, lightSample, h, if_false]
  split_ifs <;> rfl

theorem foldl_lightSample_no_draw (m : Libm) (rnd : Nat → Dbl) (sc : Scene) (light : Light)
    (point normal view : Vector3D) (specular : Dbl) (h : ¬ light.radius > 0)
    (l : List Nat) (c : Color) (j : Nat) :
    l.foldl (fun acc _ => lightSample m rnd sc light point normal view specular acc) (c, j) =
      ((sampleOnce m sc light point normal view specular)^[l.length] c, j) := by
  induction l generalizing c with
  | nil => rfl
  | cons a l ih =>
    rw [List.foldl_cons, lightSample_no_draw m rnd sc light point normal view specular h, ih]
    rfl

/-- The body of the loop over the lights, for a light that makes no draw. -/
theorem lightStep_no_draw (m : Libm) (rnd : Nat → Dbl) (sc : Scene) (light : Light)
    (point normal view : Vector3D) (specular : Dbl)
    (h : light.type ≠ LightType.AMBIENT → ¬ light.radius > 0) (acc : Color) (j : Nat) :
    lightStep m rnd sc point normal view specular (acc, j) light =
      (acc.add (contributionOf m sc point normal view specular light), j) := by
  unfold lightStep contributionOf
  by_cases ha : light.type = LightType.AMBIENT
  · simp only [ha, if_true]
  · simp only [ha, if_false]
    rw [foldl_lightSample_no_draw m rnd sc light point normal view specular (h ha),
      List.length_range]

theorem foldl_lightStep_no_draw (m : Libm) (rnd : Nat → Dbl) (sc : Scene)
    (point normal view : Vector3D) (specular : Dbl) (lights : List Light)
    (h : ∀ light ∈ lights, light.type ≠ LightType.AMBIENT → ¬ light.radius > 0)
    (acc : Color) (j : Nat) :
    lights.foldl (lightStep m rnd sc point normal view specular) (acc, j) =
      (lights.foldl (fun a light =>
        a.add (contributionOf m sc point normal view specular light)) acc, j) := by
  induction lights generalizing acc with
  | nil => rfl
  | cons light lights ih =>
    rw [List.foldl_cons, List.foldl_cons,
      lightStep_no_draw m rnd sc light point normal view specular
        (h light (List.mem_cons_self _ _)),
      ih (fun l hl => h l (List.mem_cons_of_mem _ hl))]

end IEEE

namespace Dbl

end Dbl

namespace IEEE

end IEEE

/-! ### The control flow of the two `intersect` methods on doubles -/

namespace Dbl

theorem size_div_pow (n j : Nat) (h : 2 ^ j ≤ n) : (n / 2 ^ j).size + j = n.size := by
  have hn : n ≠ 0 := by
    intro h0
    subst h0
    have := Nat.two_pow_pos j
    omega
  have hj : j < n.size := Nat.lt_size.mpr h
  apply le_antisymm
  · have : (n / 2 ^ j).size ≤ n.size - j := by
      rw [Nat.size_le]
      rw [Nat.div_lt_iff_lt_mul (Nat.two_pow_pos _)]
      rw [← pow_add]
      have : n.size - j + j = n.size := by omega
      rw [this]
      exact Nat.lt_size_self n
    omega
  · have : n.size - j - 1 < (n / 2 ^ j).size := by
      rw [Nat.lt_size]
      rw [Nat.le_div_iff_mul_le (Nat.two_pow_pos _)]
      rw [← pow_add]
      have e : n.size - j - 1 + j = n.size - 1 := by omega
      rw [e]
      exact Nat.lt_size.mp (by omega)
    omega

theorem bitsAux_eq (k : Nat) : ∀ (n acc : Nat), n < 2 ^ (2 ^ k) →
    bitsAux k n acc = acc + n.size := by
  induction k with
  | zero =>
    intro n acc h
    simp only [pow_zero, pow_one] at h
    simp only [bitsAux]
    interval_cases n
    · simp
    · simp
  | succ k ih =>
    intro n acc h
    simp only [bitsAux, Nat.shiftLeft_eq, one_mul, Nat.shiftRight_eq_div_pow]
    by_cases hge : n ≥ 2 ^ (2 ^ k)
    · rw [if_pos hge]
      have hlt : n / 2 ^ (2 ^ k) < 2 ^ (2 ^ k) := by
        rw [Nat.div_lt_iff_lt_mul (Nat.two_pow_pos _)]
        rw [← pow_add]
        have : 2 ^ k + 2 ^ k = 2 ^ (k + 1) := by ring
        rw [this]
        exact h
      rw [ih _ _ hlt]
      have := size_div_pow n (2 ^ k) hge
      omega
    · rw [if_neg hge]
      exact ih _ _ (by omega)

/-- The number `bits n` is the number of binary digits of `n`. -/
theorem bits_eq_size (n : Nat) (h : n < 2 ^ 8192) : bits n = n.size := by
  unfold bits
  rw [bitsAux_eq 13 n 0 (by norm_num at h ⊢; exact h)]
  simp

theorem tzAux_dvd (k : Nat) : ∀ (n acc : Nat), ∃ t, tzAux k n acc = acc + t ∧ 2 ^ t ∣ n := by
  induction k with
  | zero =>
    intro n acc
    exact ⟨0, by simp [tzAux], by simp⟩
  | succ k ih =>
    intro n acc
    simp only [tzAux, Nat.shiftLeft_eq, one_mul, Nat.shiftRight_eq_div_pow]
    by_cases hd : n % 2 ^ (2 ^ k) = 0
    · rw [if_pos hd]
      obtain ⟨t, ht, hdvd⟩ := ih (n / 2 ^ (2 ^ k)) (acc + 2 ^ k)
      refine ⟨2 ^ k + t, by rw [ht]; ring, ?_⟩
      have h1 : 2 ^ (2 ^ k) ∣ n := Nat.dvd_of_mod_eq_zero hd
      obtain ⟨c, hc⟩ := hdvd
      rw [pow_add]
      refine ⟨c, ?_⟩
      have := Nat.div_mul_cancel h1
      rw [hc] at this
      rw [← this]
      ring
    · rw [if_neg hd]
      exact ih n acc

/-- The trailing zero bits of `m` can be shifted out. -/
theorem trailingZeros_dvd (m : Nat) : 2 ^ trailingZeros m ∣ m := by
  unfold trailingZeros
  by_cases h : m = 0
  · simp [h]
  · rw [if_neg h]
    obtain ⟨t, ht, hdvd⟩ := tzAux_dvd 13 m 0
    rw [ht]
    simpa using hdvd

theorem roundAt_spec (n k : Nat) (hk : 0 < k) :
    roundAt n k * 2 ^ k ≤ n + 2 ^ (k - 1) ∧ n ≤ roundAt n k * 2 ^ k + 2 ^ (k - 1) ∧
    n / 2 ^ k ≤ roundAt n k ∧ roundAt n k ≤ n / 2 ^ k + 1 := by
  have hk0 : k ≠ 0 := by omega
  have hP : 2 ^ k = 2 * 2 ^ (k - 1) := by
    have : k = (k - 1) + 1 := by omega
    conv_lhs => rw [this]
    rw [pow_succ]
    ring
  have hdm := Nat.div_add_mod n (2 ^ k)
  have hlt := Nat.mod_lt n (Nat.two_pow_pos k)
  simp only [roundAt, if_neg hk0, Nat.shiftRight_eq_div_pow, Nat.shiftLeft_eq, one_mul]
  generalize hX : n / 2 ^ k = hi at *
  generalize hL : n % 2 ^ k = lo at *
  generalize hH : 2 ^ (k - 1) = H at *
  generalize hPk : 2 ^ k = P at *
  by_cases hc : lo > H ∨ (lo = H ∧ hi % 2 = 1)
  · rw [if_pos hc]
    have e1 : (hi + 1) * P = P * hi + P := by ring
    rw [e1]
    refine ⟨?_, ?_, ?_, ?_⟩ <;> rcases hc with h | ⟨h, _⟩ <;> omega
  · rw [if_neg hc]
    have e1 : hi * P = P * hi := by ring
    rw [e1]
    have hle : lo ≤ H := by
      by_contra hgt
      exact hc (Or.inl (by omega))
    refine ⟨?_, ?_, ?_, ?_⟩ <;> omega

theorem two_zpow_pos (e : Int) : (0 : ℚ) < (2 : ℚ) ^ e := zpow_pos (by norm_num) e

/-- The canonical form keeps the magnitude and, of a non-zero number, the
sign. -/
theorem canon_spec (s : Bool) (m : Nat) (e : Int) (hm : m ≠ 0) :
    ∃ m' e', canon s m e = fin s m' e' ∧ m' ≠ 0 ∧ m' ≤ m ∧ e ≤ e' ∧
      (m' : ℚ) * (2 : ℚ) ^ e' = (m : ℚ) * (2 : ℚ) ^ e := by
  obtain ⟨c, hc⟩ := trailingZeros_dvd m
  have hpos : 0 < 2 ^ trailingZeros m := Nat.two_pow_pos _
  have hc0 : c ≠ 0 := by
    intro h0
    rw [h0, mul_zero] at hc
    exact hm hc
  have hdiv : m >>> trailingZeros m = c := by
    rw [Nat.shiftRight_eq_div_pow]
    exact Nat.div_eq_of_eq_mul_right hpos hc
  refine ⟨c, e + (trailingZeros m : Nat), ?_, hc0, ?_, ?_, ?_⟩
  · simp only [canon, hdiv, hc0, ne_eq, not_false_eq_true, decide_True, Bool.and_true,
      if_false]
  · calc c = 1 * c := by ring
      _ ≤ 2 ^ trailingZeros m * c := Nat.mul_le_mul_right c hpos
      _ = m := hc.symm
  · omega
  · rw [zpow_add₀ (by norm_num : (2 : ℚ) ≠ 0), zpow_natCast]
    have : (m : ℚ) = (2 : ℚ) ^ trailingZeros m * c := by
      conv_lhs => rw [hc]
      push_cast
      ring
    rw [this]
    ring

/-- One rounding of a number in the normal range: the result is finite, of
the same sign, and off by at most the fraction `2^-53` of the number. -/
theorem round_spec (s : Bool) (n : Nat) (e : Int) (hn : n ≠ 0) (hbig : n < 2 ^ 8000)
    (hlo : (2 : ℚ) ^ (-1022 : ℤ) ≤ (n : ℚ) * (2 : ℚ) ^ e)
    (hhi : (n : ℚ) * (2 : ℚ) ^ e < (2 : ℚ) ^ (1023 : ℤ)) :
    ∃ m' e', round s n e = fin s m' e' ∧ m' ≠ 0 ∧ m' ≤ 2 ^ 53 ∧ -1074 ≤ e' ∧
      |(m' : ℚ) * (2 : ℚ) ^ e' - (n : ℚ) * (2 : ℚ) ^ e| ≤
        (n : ℚ) * (2 : ℚ) ^ e * (2 : ℚ) ^ (-53 : ℤ) := by
  have h2 : (1 : ℚ) < 2 := by norm_num
  have h20 : (2 : ℚ) ≠ 0 := by norm_num
  have hbits : bits n = n.size := bits_eq_size n (lt_trans hbig (by norm_num))
  have hb0 : 0 < n.size := Nat.size_pos.mpr (Nat.pos_of_ne_zero hn)
  have hb1 : 2 ^ (n.size - 1) ≤ n := Nat.lt_size.mp (by omega)
  have hb2 : n < 2 ^ n.size := Nat.lt_size_self n
  have hb1q : (2 : ℚ) ^ ((n.size : ℤ) - 1) ≤ (n : ℚ) := by
    have : ((n.size : ℤ) - 1) = ((n.size - 1 : ℕ) : ℤ) := by omega
    rw [this, zpow_natCast]
    exact_mod_cast hb1
  have hb2q : (n : ℚ) < (2 : ℚ) ^ (n.size : ℤ) := by
    rw [zpow_natCast]
    exact_mod_cast hb2
  obtain ⟨top, htop⟩ : ∃ top : ℤ, top = e + (n.size : ℕ) - 1 := ⟨_, rfl⟩
  have hpe := two_zpow_pos e
  have hv1 : (2 : ℚ) ^ top ≤ (n : ℚ) * (2 : ℚ) ^ e := by
    have : top = ((n.size : ℤ) - 1) + e := by omega
    rw [this, zpow_add₀ h20]
    exact mul_le_mul_of_nonneg_right hb1q hpe.le
  have hv2 : (n : ℚ) * (2 : ℚ) ^ e < (2 : ℚ) ^ (top + 1) := by
    have : top + 1 = (n.size : ℤ) + e := by omega
    rw [this, zpow_add₀ h20]
    exact mul_lt_mul_of_pos_right hb2q hpe
  have htop_lo : -1022 ≤ top := by
    have := lt_of_le_of_lt hlo hv2
    rw [zpow_lt_zpow_iff_right₀ h2] at this
    omega
  have htop_hi : top ≤ 1022 := by
    have := lt_of_le_of_lt hv1 hhi
    rw [zpow_lt_zpow_iff_right₀ h2] at this
    omega
  have hq : max (e + (n.size : ℕ) - 1 - 52) (-1074) = top - 52 := by
    rw [← htop]
    exact max_eq_left (by omega)
  unfold round
  rw [if_neg hn]
  simp only [hbits, hq]
  by_cases hge : e ≥ top - 52
  · -- the number fits: no bit is dropped
    rw [if_pos hge]
    obtain ⟨k, hk⟩ : ∃ k : ℕ, (k : ℤ) = e - (top - 52) := ⟨(e - (top - 52)).toNat, by omega⟩
    have hk' : (e - (top - 52)).toNat = k := by omega
    rw [hk', Nat.shiftLeft_eq]
    have hks : k + n.size = 53 := by omega
    have hm53 : n * 2 ^ k < 2 ^ 53 := by
      calc n * 2 ^ k < 2 ^ n.size * 2 ^ k := Nat.mul_lt_mul_of_pos_right hb2 (Nat.two_pow_pos k)
        _ = 2 ^ 53 := by rw [← pow_add, Nat.add_comm, hks]
    have hm0 : n * 2 ^ k ≠ 0 := Nat.mul_ne_zero hn (Nat.two_pow_pos k).ne'
    have hbm : bits (n * 2 ^ k) = (n * 2 ^ k).size :=
      bits_eq_size _ (lt_trans hm53 (by norm_num))
    have hsz : (n * 2 ^ k).size ≤ 53 := Nat.size_le.mpr hm53
    have hno : ¬ (top - 52 + ((bits (n * 2 ^ k) : ℕ) : ℤ) > 1024) := by
      rw [hbm]
      omega
    rw [if_neg hno]
    obtain ⟨m', e', hc, hm'0, hm'le, hee, hval⟩ := canon_spec s (n * 2 ^ k) (top - 52) hm0
    refine ⟨m', e', hc, hm'0, le_trans hm'le hm53.le, by omega, ?_⟩
    have hexact : (m' : ℚ) * (2 : ℚ) ^ e' = (n : ℚ) * (2 : ℚ) ^ e := by
      rw [hval]
      push_cast
      have : e = (k : ℤ) + (top - 52) := by omega
      conv_rhs => rw [this, zpow_add₀ h20, zpow_natCast]
      ring
    rw [hexact, sub_self, abs_zero]
    exact mul_nonneg (mul_nonneg (Nat.cast_nonneg n) hpe.le) (two_zpow_pos _).le
  · -- the low bits are rounded off
    rw [if_neg hge]
    obtain ⟨k, hk⟩ : ∃ k : ℕ, (k : ℤ) = top - 52 - e := ⟨(top - 52 - e).toNat, by omega⟩
    have hk' : (top - 52 - e).toNat = k := by omega
    have hkpos : 0 < k := by omega
    rw [hk']
    have hks : n.size = 53 + k := by omega
    obtain ⟨hr1, hr2, hr3, hr4⟩ := roundAt_spec n k hkpos
    have hdivlt : n / 2 ^ k < 2 ^ 53 := by
      rw [Nat.div_lt_iff_lt_mul (Nat.two_pow_pos k), ← pow_add]
      rw [hks] at hb2
      exact hb2
    have hdivge : 2 ^ 52 ≤ n / 2 ^ k := by
      rw [Nat.le_div_iff_mul_le (Nat.two_pow_pos k), ← pow_add]
      have : n.size - 1 = 52 + k := by omega
      rw [this] at hb1
      exact hb1
    have hm53 : roundAt n k ≤ 2 ^ 53 := by omega
    have hm0 : roundAt n k ≠ 0 := by
      have : 0 < 2 ^ 52 := Nat.two_pow_pos 52
      omega
    have hbm : bits (roundAt n k) = (roundAt n k).size :=
      bits_eq_size _ (lt_of_le_of_lt hm53 (by norm_num))
    have hsz : (roundAt n k).size ≤ 54 :=
      Nat.size_le.mpr (lt_of_le_of_lt hm53 (by norm_num))
    have hno : ¬ (top - 52 + ((bits (roundAt n k) : ℕ) : ℤ) > 1024) := by
      rw [hbm]
      omega
    rw [if_neg hno]
    obtain ⟨m', e', hc, hm'0, hm'le, hee, hval⟩ := canon_spec s (roundAt n k) (top - 52) hm0
    refine ⟨m', e', hc, hm'0, le_trans hm'le hm53, by omega, ?_⟩
    rw [hval]
    have hq2 : (2 : ℚ) ^ (top - 52) = (2 : ℚ) ^ k * (2 : ℚ) ^ e := by
      have : top - 52 = (k : ℤ) + e := by omega
      rw [this, zpow_add₀ h20, zpow_natCast]
    rw [hq2]
    have hfac : ((roundAt n k : ℕ) : ℚ) * ((2 : ℚ) ^ k * (2 : ℚ) ^ e) - (n : ℚ) * (2 : ℚ) ^ e =
        (((roundAt n k : ℕ) : ℚ) * (2 : ℚ) ^ k - (n : ℚ)) * (2 : ℚ) ^ e := by ring
    rw [hfac, abs_mul, abs_of_pos hpe]
    have herr : |((roundAt n k : ℕ) : ℚ) * (2 : ℚ) ^ k - (n : ℚ)| ≤ (2 : ℚ) ^ (k - 1) := by
      rw [abs_le]
      have h1 : ((roundAt n k * 2 ^ k : ℕ) : ℚ) ≤ ((n + 2 ^ (k - 1) : ℕ) : ℚ) := by
        exact_mod_cast hr1
      have h2' : ((n : ℕ) : ℚ) ≤ ((roundAt n k * 2 ^ k + 2 ^ (k - 1) : ℕ) : ℚ) := by
        exact_mod_cast hr2
      push_cast at h1 h2'
      constructor <;> linarith
    have hhalf : (2 : ℚ) ^ (k - 1) * (2 : ℚ) ^ e ≤ (n : ℚ) * (2 : ℚ) ^ e * (2 : ℚ) ^ (-53 : ℤ) := by
      have e1 : (2 : ℚ) ^ (k - 1) * (2 : ℚ) ^ e = (2 : ℚ) ^ top * (2 : ℚ) ^ (-53 : ℤ) := by
        rw [← zpow_natCast, ← zpow_add₀ h20, ← zpow_add₀ h20]
        congr 1
        omega
      rw [e1]
      exact mul_le_mul_of_nonneg_right hv1 (two_zpow_pos _).le
    calc |((roundAt n k : ℕ) : ℚ) * (2 : ℚ) ^ k - (n : ℚ)| * (2 : ℚ) ^ e
        ≤ (2 : ℚ) ^ (k - 1) * (2 : ℚ) ^ e := mul_le_mul_of_nonneg_right herr hpe.le
      _ ≤ (n : ℚ) * (2 : ℚ) ^ e * (2 : ℚ) ^ (-53 : ℤ) := hhalf

theorem one_sub_eta_pos : 0 < 1 - eta := by
  unfold eta
  norm_num

theorem one_sub_eta_le_one : 1 - eta ≤ 1 := by
  unfold eta
  norm_num

theorem one_le_one_add_eta : 1 ≤ 1 + eta := by
  unfold eta
  norm_num

theorem near_nonneg {k : Nat} {c a : ℚ} (h : Near k c a) (ha : 0 ≤ a) : 0 ≤ c :=
  le_trans (mul_nonneg ha (pow_nonneg one_sub_eta_pos.le k)) h.1

theorem near_pos {k : Nat} {c a : ℚ} (h : Near k c a) (ha : 0 < a) : 0 < c :=
  lt_of_lt_of_le (mul_pos ha (pow_pos one_sub_eta_pos k)) h.1

theorem near_mono {k j : Nat} {c a : ℚ} (h : Near k c a) (hkj : k ≤ j) (ha : 0 ≤ a) :
    Near j c a := by
  constructor
  · refine le_trans ?_ h.1
    exact mul_le_mul_of_nonneg_left
      (pow_le_pow_of_le_one one_sub_eta_pos.le one_sub_eta_le_one hkj) ha
  · refine le_trans h.2 ?_
    exact mul_le_mul_of_nonneg_left (pow_le_pow_right₀ one_le_one_add_eta hkj) ha

theorem near_trans {k j : Nat} {c b a : ℚ} (h1 : Near k c b) (h2 : Near j b a) (ha : 0 ≤ a) :
    Near (k + j) c a := by
  have hb : 0 ≤ b := near_nonneg h2 ha
  constructor
  · calc a * (1 - eta) ^ (k + j) = a * (1 - eta) ^ j * (1 - eta) ^ k := by ring
      _ ≤ b * (1 - eta) ^ k :=
        mul_le_mul_of_nonneg_right h2.1 (pow_nonneg one_sub_eta_pos.le k)
      _ ≤ c := h1.1
  · calc c ≤ b * (1 + eta) ^ k := h1.2
      _ ≤ a * (1 + eta) ^ j * (1 + eta) ^ k :=
        mul_le_mul_of_nonneg_right h2.2
          (pow_nonneg (le_trans zero_le_one one_le_one_add_eta) k)
      _ = a * (1 + eta) ^ (k + j) := by ring

theorem near_add {k : Nat} {c1 c2 a1 a2 : ℚ} (h1 : Near k c1 a1) (h2 : Near k c2 a2) :
    Near k (c1 + c2) (a1 + a2) := by
  constructor
  · have := add_le_add h1.1 h2.1
    linarith
  · have := add_le_add h1.2 h2.2
    linarith

theorem near_mul {k j : Nat} {c1 c2 a1 a2 : ℚ} (h1 : Near k c1 a1) (h2 : Near j c2 a2)
    (ha1 : 0 ≤ a1) (ha2 : 0 ≤ a2) : Near (k + j) (c1 * c2) (a1 * a2) := by
  have hc1 : 0 ≤ c1 := near_nonneg h1 ha1
  have hp1 : 0 ≤ a1 * (1 - eta) ^ k := mul_nonneg ha1 (pow_nonneg one_sub_eta_pos.le k)
  have hp2 : 0 ≤ a2 * (1 - eta) ^ j := mul_nonneg ha2 (pow_nonneg one_sub_eta_pos.le j)
  constructor
  · calc a1 * a2 * (1 - eta) ^ (k + j) = (a1 * (1 - eta) ^ k) * (a2 * (1 - eta) ^ j) := by ring
      _ ≤ c1 * c2 := mul_le_mul h1.1 h2.1 hp2 hc1
  · calc c1 * c2 ≤ (a1 * (1 + eta) ^ k) * (a2 * (1 + eta) ^ j) :=
        mul_le_mul h1.2 h2.2 (near_nonneg h2 ha2)
          (mul_nonneg ha1 (pow_nonneg (le_trans zero_le_one one_le_one_add_eta) k))
      _ = a1 * a2 * (1 + eta) ^ (k + j) := by ring

theorem inv_one_add_eta : 1 - eta ≤ (1 + eta)⁻¹ := by
  unfold eta
  norm_num

theorem inv_one_sub_eta : (1 - eta)⁻¹ ≤ (1 + eta) ^ 2 := by
  unfold eta
  norm_num

/-- The reciprocal of a number known up to `j` relative errors is known up to
`2 j` of them. -/
theorem near_inv {j : Nat} {d b : ℚ} (h : Near j d b) (hb : 0 < b) : Near (2 * j) d⁻¹ b⁻¹ := by
  have hd : 0 < d := near_pos h hb
  have hlo : 0 < b * (1 - eta) ^ j := mul_pos hb (pow_pos one_sub_eta_pos j)
  have hpp : 0 < 1 + eta := lt_of_lt_of_le zero_lt_one one_le_one_add_eta
  constructor
  · -- d ≤ b (1+eta)^j, so 1/d ≥ 1/(b (1+eta)^j) ≥ (1/b) (1-eta)^j ≥ (1/b) (1-eta)^(2j)
    have h1 : (b * (1 + eta) ^ j)⁻¹ ≤ d⁻¹ := inv_anti₀ hd h.2
    have h2 : b⁻¹ * (1 - eta) ^ j ≤ (b * (1 + eta) ^ j)⁻¹ := by
      rw [mul_inv, ← inv_pow]
      exact mul_le_mul_of_nonneg_left
        (pow_le_pow_left₀ one_sub_eta_pos.le inv_one_add_eta j) (inv_nonneg.mpr hb.le)
    have h3 : b⁻¹ * (1 - eta) ^ (2 * j) ≤ b⁻¹ * (1 - eta) ^ j :=
      mul_le_mul_of_nonneg_left
        (pow_le_pow_of_le_one one_sub_eta_pos.le one_sub_eta_le_one (by omega))
        (inv_nonneg.mpr hb.le)
    linarith
  · have h1 : d⁻¹ ≤ (b * (1 - eta) ^ j)⁻¹ := inv_anti₀ hlo h.1
    have h2 : (b * (1 - eta) ^ j)⁻¹ ≤ b⁻¹ * (1 + eta) ^ (2 * j) := by
      rw [mul_inv, ← inv_pow, pow_mul]
      exact mul_le_mul_of_nonneg_left
        (pow_le_pow_left₀ (inv_nonneg.mpr one_sub_eta_pos.le) inv_one_sub_eta j)
        (inv_nonneg.mpr hb.le)
    linarith

/-- One rounding error of relative size `2^-53` is within `eta`. -/
theorem near_of_abs {c v : ℚ} (hv : 0 ≤ v) (h : |c - v| ≤ v * (2 : ℚ) ^ (-53 : ℤ)) :
    Near 1 c v := by
  have hu : (2 : ℚ) ^ (-53 : ℤ) ≤ eta := by
    unfold eta
    norm_num
  have := mul_le_mul_of_nonneg_left hu hv
  rw [abs_le] at h
  constructor
  · rw [pow_one]
    linarith [h.1]
  · rw [pow_one]
    linarith [h.2]

theorem mag_fin (s : Bool) (m : Nat) (e : Int) : mag (fin s m e) = (m : ℚ) * (2 : ℚ) ^ e := rfl

theorem mag_nonneg (x : Dbl) : 0 ≤ mag x := by
  cases x with
  | fin s m e => exact mul_nonneg (Nat.cast_nonneg m) (two_zpow_pos e).le
  | inf s => exact le_refl _
  | nan => exact le_refl _

theorem shifted_sum_le (K m1 m2 k1 k2 : Nat) (hm1 : m1 ≤ 2 ^ 53) (hm2 : m2 ≤ 2 ^ 53)
    (h1 : 53 + k1 ≤ K) (h2 : 53 + k2 ≤ K) : m1 * 2 ^ k1 + m2 * 2 ^ k2 ≤ 2 ^ (K + 1) := by
  have b1 : m1 * 2 ^ k1 ≤ 2 ^ K :=
    le_trans (Nat.mul_le_mul_right _ hm1)
      (by rw [← pow_add]; exact pow_le_pow_right₀ (show 1 ≤ 2 by omega) h1)
  have b2 : m2 * 2 ^ k2 ≤ 2 ^ K :=
    le_trans (Nat.mul_le_mul_right _ hm2)
      (by rw [← pow_add]; exact pow_le_pow_right₀ (show 1 ≤ 2 by omega) h2)
  rw [pow_succ']
  omega

theorem lt_two_pow_of_le (K B n : Nat) (h : n ≤ 2 ^ K) (hK : K < B) : n < 2 ^ B :=
  lt_of_le_of_lt h (Nat.pow_lt_pow_right (show 1 < 2 by omega) hK)

/-- One rounding of a number between `2^-1000` and `2^1000`. -/
theorem round_near (s : Bool) (n : Nat) (e : Int) (hn : n ≠ 0) (hbig : n < 2 ^ 8000)
    (hlo : (2 : ℚ) ^ (-1000 : ℤ) ≤ (n : ℚ) * (2 : ℚ) ^ e)
    (hhi : (n : ℚ) * (2 : ℚ) ^ e ≤ (2 : ℚ) ^ (1000 : ℤ)) :
    ∃ m' e', round s n e = fin s m' e' ∧ m' ≠ 0 ∧ Fits false (fin s m' e') ∧
      Near 1 ((m' : ℚ) * (2 : ℚ) ^ e') ((n : ℚ) * (2 : ℚ) ^ e) := by
  have h2 : (1 : ℚ) < 2 := by norm_num
  have hv0 : (0 : ℚ) ≤ (n : ℚ) * (2 : ℚ) ^ e :=
    mul_nonneg (Nat.cast_nonneg n) (two_zpow_pos e).le
  obtain ⟨m', e', hr, hm0, hm, he, herr⟩ := round_spec s n e hn hbig
    (le_trans (zpow_le_zpow_right₀ h2.le (by norm_num)) hlo)
    (lt_of_le_of_lt hhi (zpow_lt_zpow_right₀ h2 (by norm_num)))
  have hnear := near_of_abs hv0 herr
  refine ⟨m', e', hr, hm0, ⟨hm, by omega, ?_, by simp⟩, hnear⟩
  -- the exponent is at most that of the value
  have hup : (m' : ℚ) * (2 : ℚ) ^ e' ≤ (2 : ℚ) ^ (1001 : ℤ) := by
    have h1 := hnear.2
    rw [pow_one] at h1
    have h3 : (n : ℚ) * (2 : ℚ) ^ e * (1 + eta) ≤ (2 : ℚ) ^ (1000 : ℤ) * 2 := by
      apply mul_le_mul hhi _ (le_trans zero_le_one one_le_one_add_eta) (two_zpow_pos _).le
      unfold eta
      norm_num
    have h4 : (2 : ℚ) ^ (1000 : ℤ) * 2 = (2 : ℚ) ^ (1001 : ℤ) := by
      rw [show (1001 : ℤ) = 1000 + 1 by norm_num, zpow_add₀ (by norm_num : (2 : ℚ) ≠ 0)]
      norm_num
    linarith
  have hm1 : (1 : ℚ) ≤ (m' : ℚ) := by
    exact_mod_cast Nat.one_le_iff_ne_zero.mpr hm0
  have h5 : (2 : ℚ) ^ e' ≤ (2 : ℚ) ^ (1001 : ℤ) := by
    calc (2 : ℚ) ^ e' = 1 * (2 : ℚ) ^ e' := by ring
      _ ≤ (m' : ℚ) * (2 : ℚ) ^ e' := mul_le_mul_of_nonneg_right hm1 (two_zpow_pos e').le
      _ ≤ _ := hup
  rw [zpow_le_zpow_iff_right₀ h2] at h5
  omega

/-- The square of a double, as computed. -/
theorem mul_self_near (x : Dbl) (hx : Fits false x)
    (hr : mag x = 0 ∨ ((2 : ℚ) ^ (-1000 : ℤ) ≤ mag x * mag x ∧
      mag x * mag x ≤ (2 : ℚ) ^ (1000 : ℤ))) :
    Fits true (x * x) ∧ Near 1 (mag (x * x)) (mag x * mag x) ∧
      (mag x = 0 → mag (x * x) = 0) := by
  cases x with
  | fin s m e =>
    obtain ⟨hm, hel, heh, _⟩ := hx
    have hxx : fin s m e * fin s m e = round false (m * m) (e + e) := by
      show mul (fin s m e) (fin s m e) = _
      simp only [mul, bne_self_eq_false]
    rw [hxx]
    simp only [mag_fin]
    by_cases hm0 : m = 0
    · subst hm0
      rw [Nat.zero_mul, round_zero]
      simp [Fits, mag_fin, Near]
    · have hmm : m * m ≠ 0 := Nat.mul_ne_zero hm0 hm0
      have hval : ((m * m : ℕ) : ℚ) * (2 : ℚ) ^ (e + e) =
          (m : ℚ) * (2 : ℚ) ^ e * ((m : ℚ) * (2 : ℚ) ^ e) := by
        rw [zpow_add₀ (by norm_num : (2 : ℚ) ≠ 0)]
        push_cast
        ring
      have hpos : (m : ℚ) * (2 : ℚ) ^ e ≠ 0 :=
        mul_ne_zero (Nat.cast_ne_zero.mpr hm0) (two_zpow_pos e).ne'
      rcases hr with h0 | ⟨hlo, hhi⟩
      · exact absurd h0 hpos
      · have hbig : m * m < 2 ^ 8000 := by
          calc m * m ≤ 2 ^ 53 * 2 ^ 53 := Nat.mul_le_mul hm hm
            _ < 2 ^ 8000 := by norm_num
        obtain ⟨m', e', hround, hm'0, hfit, hnear⟩ :=
          round_near false (m * m) (e + e) hmm hbig (by rw [hval]; exact hlo)
            (by rw [hval]; exact hhi)
        rw [hround, mag_fin]
        rw [hval] at hnear
        refine ⟨⟨hfit.1, hfit.2.1, hfit.2.2.1, fun _ => rfl⟩, hnear, fun h0 => absurd h0 hpos⟩
  | inf s => exact absurd hx (by simp [Fits])
  | nan => exact absurd hx (by simp [Fits])

/-- The sum of two doubles with the sign bit clear, as computed. -/
theorem add_near (x y : Dbl) (hx : Fits true x) (hy : Fits true y)
    (hr : mag x + mag y = 0 ∨ ((2 : ℚ) ^ (-1000 : ℤ) ≤ mag x + mag y ∧
      mag x + mag y ≤ (2 : ℚ) ^ (1000 : ℤ))) :
    Fits true (x + y) ∧ Near 1 (mag (x + y)) (mag x + mag y) := by
  cases x with
  | fin s1 m1 e1 =>
    cases y with
    | fin s2 m2 e2 =>
      obtain ⟨hm1, hel1, heh1, hs1⟩ := hx
      obtain ⟨hm2, hel2, heh2, hs2⟩ := hy
      have hs1' : s1 = false := hs1 rfl
      have hs2' : s2 = false := hs2 rfl
      subst hs1' hs2'
      obtain ⟨k1, hk1⟩ : ∃ k : ℕ, (k : ℤ) = e1 - min e1 e2 :=
        ⟨(e1 - min e1 e2).toNat, by omega⟩
      obtain ⟨k2, hk2⟩ : ∃ k : ℕ, (k : ℤ) = e2 - min e1 e2 :=
        ⟨(e2 - min e1 e2).toNat, by omega⟩
      have hk1' : (e1 - min e1 e2).toNat = k1 := by omega
      have hk2' : (e2 - min e1 e2).toNat = k2 := by omega
      have hsum : scaled false m1 e1 (min e1 e2) + scaled false m2 e2 (min e1 e2) =
          ((m1 * 2 ^ k1 + m2 * 2 ^ k2 : ℕ) : ℤ) := by
        simp only [scaled, Bool.false_eq_true, if_false, hk1', hk2', Nat.shiftLeft_eq]
        push_cast
        ring
      have hxy : fin false m1 e1 + fin false m2 e2 =
          round (decide (((m1 * 2 ^ k1 + m2 * 2 ^ k2 : ℕ) : ℤ) < 0))
            (((m1 * 2 ^ k1 + m2 * 2 ^ k2 : ℕ) : ℤ)).natAbs (min e1 e2) := by
        show add (fin false m1 e1) (fin false m2 e2) = _
        simp only [add, hsum]
      rw [hxy]
      simp only [mag_fin]
      have hnn : ¬ (((m1 * 2 ^ k1 + m2 * 2 ^ k2 : ℕ) : ℤ) < 0) := by
        have := Int.ofNat_nonneg (m1 * 2 ^ k1 + m2 * 2 ^ k2)
        omega
      simp only [hnn, decide_False, Int.natAbs_ofNat]
      have h20 : (2 : ℚ) ≠ 0 := by norm_num
      have hval : ((m1 * 2 ^ k1 + m2 * 2 ^ k2 : ℕ) : ℚ) * (2 : ℚ) ^ (min e1 e2) =
          (m1 : ℚ) * (2 : ℚ) ^ e1 + (m2 : ℚ) * (2 : ℚ) ^ e2 := by
        have p1 : (2 : ℚ) ^ e1 = (2 : ℚ) ^ k1 * (2 : ℚ) ^ (min e1 e2) := by
          rw [← zpow_natCast, ← zpow_add₀ h20]
          congr 1
          omega
        have p2 : (2 : ℚ) ^ e2 = (2 : ℚ) ^ k2 * (2 : ℚ) ^ (min e1 e2) := by
          rw [← zpow_natCast, ← zpow_add₀ h20]
          congr 1
          omega
        rw [p1, p2]
        push_cast
        ring
      by_cases hn0 : m1 * 2 ^ k1 + m2 * 2 ^ k2 = 0
      · rw [hn0, round_zero]
        have hz : (m1 : ℚ) * (2 : ℚ) ^ e1 + (m2 : ℚ) * (2 : ℚ) ^ e2 = 0 := by
          rw [← hval, hn0]
          simp
        rw [hz]
        simp [Fits, mag_fin, Near]
      · have hne : (m1 : ℚ) * (2 : ℚ) ^ e1 + (m2 : ℚ) * (2 : ℚ) ^ e2 ≠ 0 := by
          rw [← hval]
          exact mul_ne_zero (Nat.cast_ne_zero.mpr hn0) (two_zpow_pos _).ne'
        rcases hr with h0 | ⟨hlo, hhi⟩
        · exact absurd h0 hne
        · have hbig : m1 * 2 ^ k1 + m2 * 2 ^ k2 < 2 ^ 8000 :=
            lt_two_pow_of_le _ _ _
              (shifted_sum_le 2453 m1 m2 k1 k2 hm1 hm2 (by omega) (by omega)) (by omega)
          obtain ⟨m', e', hround, hm'0, hfit, hnear⟩ :=
            round_near false _ (min e1 e2) hn0 hbig (by rw [hval]; exact hlo)
              (by rw [hval]; exact hhi)
          rw [hround, mag_fin]
          rw [hval] at hnear
          exact ⟨⟨hfit.1, hfit.2.1, hfit.2.2.1, fun _ => rfl⟩, hnear⟩
    | inf s => exact absurd hy (by simp [Fits])
    | nan => exact absurd hy (by simp [Fits])
  | inf s => exact absurd hx (by simp [Fits])
  | nan => exact absurd hx (by simp [Fits])

theorem isqrtAux_spec (k : Nat) : ∀ (n r : Nat), r * r ≤ n → n < (r + 2 ^ k) * (r + 2 ^ k) →
    isqrtAux k n r * isqrtAux k n r ≤ n ∧
      n < (isqrtAux k n r + 1) * (isqrtAux k n r + 1) := by
  induction k with
  | zero =>
    intro n r h1 h2
    simp only [isqrtAux]
    simpa using ⟨h1, h2⟩
  | succ k ih =>
    intro n r h1 h2
    simp only [isqrtAux, Nat.shiftLeft_eq, one_mul]
    by_cases hc : (r + 2 ^ k) * (r + 2 ^ k) ≤ n
    · rw [if_pos hc]
      apply ih n (r + 2 ^ k) hc
      have : r + 2 ^ k + 2 ^ k = r + 2 ^ (k + 1) := by
        rw [pow_succ]
        ring
      rw [this]
      exact h2
    · rw [if_neg hc]
      exact ih n r h1 (by omega)

/-- The integer square root: `isqrt n` is the largest `r` with `r * r <= n`. -/
theorem isqrt_spec (n : Nat) (hn : n < 2 ^ 8192) :
    isqrt n * isqrt n ≤ n ∧ n < (isqrt n + 1) * (isqrt n + 1) := by
  unfold isqrt
  apply isqrtAux_spec
  · simp
  · rw [bits_eq_size n hn, Nat.zero_add, ← pow_add]
    refine lt_of_lt_of_le (Nat.lt_size_self n) ?_
    exact Nat.pow_le_pow_right (by norm_num) (by omega)

/-- The square of the root with its sticky bit against four times the
radicand. -/
theorem sticky_sq_bound (r n N : Nat) (hr1 : r * r ≤ n) (hr2 : n < (r + 1) * (r + 1))
    (hN : N = 2 * r + (if r * r = n then 0 else 1)) :
    (N * N : ℤ) - 4 * n ≤ 4 * r ∧ (4 * n : ℤ) - N * N ≤ 4 * r := by
  have h1 : ((r : ℤ) * r) ≤ (n : ℤ) := by exact_mod_cast hr1
  have h2 : (n : ℤ) < ((r : ℤ) + 1) * ((r : ℤ) + 1) := by exact_mod_cast hr2
  have e2 : ((r : ℤ) + 1) * ((r : ℤ) + 1) = (r : ℤ) * r + 2 * r + 1 := by ring
  rw [e2] at h2
  by_cases heq : r * r = n
  · rw [if_pos heq, Nat.add_zero] at hN
    have hq : ((r : ℤ) * r) = (n : ℤ) := by exact_mod_cast heq
    have e1 : ((N : ℤ) * N) = 4 * ((r : ℤ) * r) := by
      rw [hN]
      push_cast
      ring
    rw [e1]
    have hr0 : (0 : ℤ) ≤ r := Int.ofNat_nonneg r
    constructor <;> linarith
  · rw [if_neg heq] at hN
    have hq : ((r : ℤ) * r) ≠ (n : ℤ) := by exact_mod_cast heq
    have hlt : ((r : ℤ) * r) < (n : ℤ) := lt_of_le_of_ne h1 hq
    have e1 : ((N : ℤ) * N) = 4 * ((r : ℤ) * r) + 4 * r + 1 := by
      rw [hN]
      push_cast
      ring
    rw [e1]
    have hr0 : (0 : ℤ) ≤ r := Int.ofNat_nonneg r
    constructor <;> linarith

theorem sq_le_sq_of_nonneg {a b : ℚ} (_ha : 0 ≤ a) (hb : 0 ≤ b) (h : a * a ≤ b * b) : a ≤ b := by
  by_contra hlt
  push_neg at hlt
  have : b * b < a * a := mul_lt_mul'' hlt hlt hb hb
  linarith

/-- The square root of a double with the sign bit clear, as computed: its
square is the radicand up to three relative errors. -/
theorem sqrt_near (x : Dbl) (hx : Fits true x)
    (hlo : (2 : ℚ) ^ (-1000 : ℤ) ≤ mag x) (hhi : mag x ≤ (2 : ℚ) ^ (1000 : ℤ)) :
    Fits true (sqrt x) ∧ Near 3 (mag (sqrt x) * mag (sqrt x)) (mag x) := by
  cases x with
  | fin s m e =>
    obtain ⟨hm, hel, heh, hs⟩ := hx
    have hs' : s = false := hs rfl
    subst hs'
    have h20 : (2 : ℚ) ≠ 0 := by norm_num
    have h2 : (1 : ℚ) < 2 := by norm_num
    rw [mag_fin] at hlo hhi
    have hm0 : m ≠ 0 := by
      intro h0
      rw [h0] at hlo
      have := two_zpow_pos (-1000)
      simp at hlo
      linarith
    obtain ⟨p, hp⟩ : ∃ p : ℕ, p = if e % 2 = 0 then 0 else 1 := ⟨_, rfl⟩
    have hp01 : p ≤ 1 := by
      rw [hp]
      split_ifs <;> omega
    have hpar : (e - (p : ℤ)) % 2 = 0 := by
      rw [hp]
      split_ifs <;> omega
    obtain ⟨j, hj⟩ : ∃ j : ℤ, e - (p : ℤ) - 128 = 2 * j := ⟨(e - (p : ℤ) - 128) / 2, by omega⟩
    have hE : (e - (p : ℤ) - 128) / 2 - 1 = j - 1 := by omega
    have hsq : sqrt (fin false m e) =
        round false (2 * isqrt (m * 2 ^ (128 + p)) +
          (if isqrt (m * 2 ^ (128 + p)) * isqrt (m * 2 ^ (128 + p)) = m * 2 ^ (128 + p)
            then 0 else 1)) (j - 1) := by
      simp only [sqrt, if_neg hm0, Bool.false_eq_true, if_false, ← hp, Nat.shiftLeft_eq, hE]
    rw [hsq]
    obtain ⟨n, hn⟩ : ∃ n : ℕ, n = m * 2 ^ (128 + p) := ⟨_, rfl⟩
    rw [← hn]
    have hnbig : n < 2 ^ 8192 := by
      rw [hn]
      refine lt_two_pow_of_le 183 _ _ ?_ (by omega)
      calc m * 2 ^ (128 + p) ≤ 2 ^ 53 * 2 ^ 129 :=
          Nat.mul_le_mul hm (Nat.pow_le_pow_right (by norm_num) (by omega))
        _ ≤ 2 ^ 183 := by norm_num
    obtain ⟨hr1, hr2⟩ := isqrt_spec n hnbig
    obtain ⟨r, hr⟩ : ∃ r : ℕ, r = isqrt n := ⟨_, rfl⟩
    rw [← hr] at hr1 hr2 ⊢
    have hn128 : 2 ^ 128 ≤ n := by
      rw [hn]
      calc 2 ^ 128 = 1 * 2 ^ 128 := by ring
        _ ≤ m * 2 ^ (128 + p) :=
          Nat.mul_le_mul (Nat.one_le_iff_ne_zero.mpr hm0)
            (Nat.pow_le_pow_right (by norm_num) (by omega))
    have hr64 : 2 ^ 64 ≤ r := by
      by_contra hlt
      push_neg at hlt
      have h1 : r + 1 ≤ 2 ^ 64 := hlt
      have : (r + 1) * (r + 1) ≤ 2 ^ 64 * 2 ^ 64 := Nat.mul_le_mul h1 h1
      have e64 : (2 : ℕ) ^ 64 * 2 ^ 64 = 2 ^ 128 := by norm_num
      omega
    have hrn : r ≤ n := le_trans (Nat.le_mul_self r) hr1
    obtain ⟨N, hN⟩ : ∃ N : ℕ, N = 2 * r + (if r * r = n then 0 else 1) := ⟨_, rfl⟩
    rw [← hN]
    -- the square of `N` against `4 n`
    have hNsq := sticky_sq_bound r n N hr1 hr2 hN
    have hN0 : N ≠ 0 := by
      rw [hN]
      have : 0 < 2 ^ 64 := Nat.two_pow_pos 64
      omega
    have hNbig : N < 2 ^ 8000 := by
      have : N ≤ 2 * n + 1 := by
        rw [hN]
        split_ifs <;> omega
      have h3 : n ≤ 2 ^ 183 := by
        rw [hn]
        calc m * 2 ^ (128 + p) ≤ 2 ^ 53 * 2 ^ 129 :=
            Nat.mul_le_mul hm (Nat.pow_le_pow_right (by norm_num) (by omega))
          _ ≤ 2 ^ 183 := by norm_num
      refine lt_two_pow_of_le 185 _ _ ?_ (by omega)
      have : (2 : ℕ) ^ 185 = 4 * 2 ^ 183 := by norm_num
      omega
    -- the value before rounding, squared, against the radicand
    have hnq : (n : ℚ) * (2 : ℚ) ^ (2 * j) = (m : ℚ) * (2 : ℚ) ^ e := by
      rw [hn]
      push_cast
      have : e = ((128 + p : ℕ) : ℤ) + 2 * j := by
        push_cast
        omega
      conv_rhs => rw [this, zpow_add₀ h20, zpow_natCast]
      ring
    have hvsq : ((N : ℚ) * (2 : ℚ) ^ (j - 1)) * ((N : ℚ) * (2 : ℚ) ^ (j - 1)) =
        ((N : ℚ) * N / 4) * (2 : ℚ) ^ (2 * j) := by
      have : (2 : ℚ) ^ (2 * j) = (2 : ℚ) ^ (j - 1) * (2 : ℚ) ^ (j - 1) * 4 := by
        rw [← zpow_add₀ h20]
        have e4 : (4 : ℚ) = (2 : ℚ) ^ (2 : ℤ) := by norm_num
        rw [e4, ← zpow_add₀ h20]
        congr 1
        omega
      rw [this]
      ring
    have hp2j := two_zpow_pos (2 * j)
    have hrq : (2 : ℚ) ^ 64 ≤ (r : ℚ) := by exact_mod_cast hr64
    have hnr : (r : ℚ) * r ≤ (n : ℚ) := by exact_mod_cast hr1
    have hNq1 : (N : ℚ) * N - 4 * n ≤ 4 * r := by exact_mod_cast hNsq.1
    have hNq2 : (4 : ℚ) * n - N * N ≤ 4 * r := by exact_mod_cast hNsq.2
    have hrel : (r : ℚ) ≤ (n : ℚ) * eta := by
      -- r ≤ r * r / 2^64 ≤ n * 2^-64
      have hr0 : (0 : ℚ) ≤ r := Nat.cast_nonneg r
      have h1 : (r : ℚ) * (2 : ℚ) ^ 64 ≤ (n : ℚ) :=
        le_trans (mul_le_mul_of_nonneg_left hrq hr0) hnr
      unfold eta
      have h4 : (r : ℚ) * (2 : ℚ) ^ 64 = r * 18446744073709551616 := by norm_num
      rw [h4] at h1
      linarith
    have hnear1 : Near 1 (((N : ℚ) * (2 : ℚ) ^ (j - 1)) * ((N : ℚ) * (2 : ℚ) ^ (j - 1)))
        ((m : ℚ) * (2 : ℚ) ^ e) := by
      rw [hvsq, ← hnq]
      constructor
      · rw [pow_one]
        have : (n : ℚ) * (1 - eta) ≤ (N : ℚ) * N / 4 := by linarith
        calc (n : ℚ) * (2 : ℚ) ^ (2 * j) * (1 - eta) = (n : ℚ) * (1 - eta) * (2 : ℚ) ^ (2 * j) := by
              ring
          _ ≤ _ := mul_le_mul_of_nonneg_right this hp2j.le
      · rw [pow_one]
        have : (N : ℚ) * N / 4 ≤ (n : ℚ) * (1 + eta) := by linarith
        calc (N : ℚ) * N / 4 * (2 : ℚ) ^ (2 * j) ≤ (n : ℚ) * (1 + eta) * (2 : ℚ) ^ (2 * j) :=
              mul_le_mul_of_nonneg_right this hp2j.le
          _ = _ := by ring
    have ha0 : (0 : ℚ) ≤ (m : ℚ) * (2 : ℚ) ^ e := le_trans (two_zpow_pos _).le hlo
    have hv0 : (0 : ℚ) ≤ (N : ℚ) * (2 : ℚ) ^ (j - 1) :=
      mul_nonneg (Nat.cast_nonneg N) (two_zpow_pos _).le
    -- the value before rounding is in the range of `round_near`
    have hvlo : (2 : ℚ) ^ (-1000 : ℤ) ≤ (N : ℚ) * (2 : ℚ) ^ (j - 1) := by
      apply sq_le_sq_of_nonneg (two_zpow_pos _).le hv0
      have h1 := hnear1.1
      rw [pow_one] at h1
      have h3 : (2 : ℚ) ^ (-1000 : ℤ) * (2 : ℚ) ^ (-1000 : ℤ) ≤ (2 : ℚ) ^ (-1000 : ℤ) * (1 - eta) := by
        apply mul_le_mul_of_nonneg_left _ (two_zpow_pos _).le
        have : (2 : ℚ) ^ (-1000 : ℤ) ≤ (2 : ℚ) ^ (-1 : ℤ) := zpow_le_zpow_right₀ h2.le (by norm_num)
        have e1 : (2 : ℚ) ^ (-1 : ℤ) = 1 / 2 := by norm_num
        unfold eta
        rw [e1] at this
        linarith
      have h4 : (2 : ℚ) ^ (-1000 : ℤ) * (1 - eta) ≤ (m : ℚ) * (2 : ℚ) ^ e * (1 - eta) :=
        mul_le_mul_of_nonneg_right hlo one_sub_eta_pos.le
      linarith
    have hvhi : (N : ℚ) * (2 : ℚ) ^ (j - 1) ≤ (2 : ℚ) ^ (1000 : ℤ) := by
      apply sq_le_sq_of_nonneg hv0 (two_zpow_pos _).le
      have h1 := hnear1.2
      rw [pow_one] at h1
      have h3 : (2 : ℚ) ^ (1000 : ℤ) * (1 + eta) ≤ (2 : ℚ) ^ (1000 : ℤ) * (2 : ℚ) ^ (1000 : ℤ) := by
        apply mul_le_mul_of_nonneg_left _ (two_zpow_pos _).le
        have : (2 : ℚ) ^ (1 : ℤ) ≤ (2 : ℚ) ^ (1000 : ℤ) := zpow_le_zpow_right₀ h2.le (by norm_num)
        have e1 : (2 : ℚ) ^ (1 : ℤ) = 2 := by norm_num
        unfold eta
        rw [e1] at this
        linarith
      have h4 : (m : ℚ) * (2 : ℚ) ^ e * (1 + eta) ≤ (2 : ℚ) ^ (1000 : ℤ) * (1 + eta) :=
        mul_le_mul_of_nonneg_right hhi (le_trans zero_le_one one_le_one_add_eta)
      linarith
    obtain ⟨m', e', hround, hm'0, hfit, hnear⟩ := round_near false N (j - 1) hN0 hNbig hvlo hvhi
    rw [hround, mag_fin]
    refine ⟨⟨hfit.1, hfit.2.1, hfit.2.2.1, fun _ => rfl⟩, ?_⟩
    have hsqn := near_mul hnear hnear hv0 hv0
    exact near_trans hsqn hnear1 ha0
  | inf s => exact absurd hx (by simp [Fits])
  | nan => exact absurd hx (by simp [Fits])

theorem pow_one_sub_eta_ge (k : Nat) (hk : k ≤ 40) : (1 : ℚ) / 2 ≤ (1 - eta) ^ k := by
  have h1 : (1 - eta) ^ 40 ≤ (1 - eta) ^ k :=
    pow_le_pow_of_le_one one_sub_eta_pos.le one_sub_eta_le_one hk
  have h2 : (1 : ℚ) / 2 ≤ (1 - eta) ^ 40 := by
    have hb : (1 : ℚ) - 40 * eta ≤ (1 - eta) ^ 40 := by
      have := one_add_mul_le_pow (a := -eta) (by unfold eta; norm_num) 40
      simpa [sub_eq_add_neg] using this
    unfold eta at hb ⊢
    linarith
  linarith

theorem pow_one_add_eta_le (k : Nat) (hk : k ≤ 40) : (1 + eta) ^ k ≤ 1 + 1 / 1000000000000 := by
  have h1 : (1 + eta) ^ k ≤ (1 + eta) ^ 40 := pow_le_pow_right₀ one_le_one_add_eta hk
  have h2 : (1 + eta) ^ 40 ≤ 1 + 1 / 1000000000000 := by
    -- (1 + eta)^40 * (1 - eta)^40 ≤ 1 and (1 - eta)^40 ≥ 1 - 40 eta
    have hb : (1 : ℚ) - 40 * eta ≤ (1 - eta) ^ 40 := by
      have := one_add_mul_le_pow (a := -eta) (by unfold eta; norm_num) 40
      simpa [sub_eq_add_neg] using this
    have hprod : (1 + eta) ^ 40 * (1 - eta) ^ 40 ≤ 1 := by
      rw [← mul_pow]
      apply pow_le_one₀
      · unfold eta
        norm_num
      · unfold eta
        norm_num
    have hpos : (0 : ℚ) < 1 - 40 * eta := by
      unfold eta
      norm_num
    have hP : (0 : ℚ) ≤ (1 + eta) ^ 40 := pow_nonneg (le_trans zero_le_one one_le_one_add_eta) 40
    have h3 : (1 + eta) ^ 40 * (1 - 40 * eta) ≤ 1 :=
      le_trans (mul_le_mul_of_nonneg_left hb hP) hprod
    have h4 : (1 + eta) ^ 40 ≤ 1 / (1 - 40 * eta) := by
      rw [le_div_iff₀ hpos]
      exact h3
    refine le_trans h4 ?_
    unfold eta
    norm_num
  linarith

/-- A number known up to at most `40` relative errors lies within a factor
`2` of the bounds of the exact number. -/
theorem range_of_near {k : Nat} (hk : k ≤ 40) {v w : ℚ} (h : Near k v w) (a b : ℤ)
    (hlo : (2 : ℚ) ^ a ≤ w) (hhi : w ≤ (2 : ℚ) ^ b) :
    (2 : ℚ) ^ (a - 1) ≤ v ∧ v ≤ (2 : ℚ) ^ (b + 1) := by
  have h20 : (2 : ℚ) ≠ 0 := by norm_num
  have hw0 : 0 ≤ w := le_trans (two_zpow_pos a).le hlo
  constructor
  · have e1 : (2 : ℚ) ^ (a - 1) = (2 : ℚ) ^ a * (1 / 2) := by
      rw [zpow_sub₀ h20]
      norm_num
      ring
    rw [e1]
    calc (2 : ℚ) ^ a * (1 / 2) ≤ w * (1 / 2) := mul_le_mul_of_nonneg_right hlo (by norm_num)
      _ ≤ w * (1 - eta) ^ k := mul_le_mul_of_nonneg_left (pow_one_sub_eta_ge k hk) hw0
      _ ≤ v := h.1
  · have e1 : (2 : ℚ) ^ (b + 1) = (2 : ℚ) ^ b * 2 := by
      rw [zpow_add₀ h20]
      norm_num
    rw [e1]
    have h3 : (1 + eta) ^ k ≤ 2 := le_trans (pow_one_add_eta_le k hk) (by norm_num)
    calc v ≤ w * (1 + eta) ^ k := h.2
      _ ≤ w * 2 := mul_le_mul_of_nonneg_left h3 hw0
      _ ≤ (2 : ℚ) ^ b * 2 := mul_le_mul_of_nonneg_right hhi (by norm_num)

/-- The quotient with its sticky bit: `N = 2 (A / m) + sticky` is `2 A / m` up
to one relative error when `A >= 2^64 m`. -/
theorem sticky_quot_near (A m N : Nat) (hm : 0 < m) (hA : 2 ^ 64 * m ≤ A)
    (hN : N = 2 * (A / m) + (if A % m = 0 then 0 else 1)) :
    Near 1 ((N : ℚ) * m) (2 * A) := by
  have hdm := Nat.div_add_mod A m
  have hmod := Nat.mod_lt A hm
  have hmq : (0 : ℚ) < (m : ℚ) := by exact_mod_cast hm
  have hAq : (A : ℚ) = (m : ℚ) * ((A / m : ℕ) : ℚ) + ((A % m : ℕ) : ℚ) := by
    exact_mod_cast hdm.symm
  have hmodq : ((A % m : ℕ) : ℚ) < (m : ℚ) := by exact_mod_cast hmod
  have hmodq0 : (0 : ℚ) ≤ ((A % m : ℕ) : ℚ) := Nat.cast_nonneg _
  have hA64 : (18446744073709551616 : ℚ) * m ≤ (A : ℚ) := by
    have : ((2 ^ 64 * m : ℕ) : ℚ) ≤ (A : ℚ) := by exact_mod_cast hA
    push_cast at this
    exact this
  have h5 : (m : ℚ) ≤ 2 * A * eta := by
    unfold eta
    linarith
  have hN1 : (N : ℚ) * m ≤ 2 * A + m ∧ 2 * (A : ℚ) - m ≤ (N : ℚ) * m := by
    by_cases hz : A % m = 0
    · rw [if_pos hz, Nat.add_zero] at hN
      rw [hz] at hAq
      rw [hN]
      push_cast at hAq ⊢
      constructor <;> linarith
    · rw [if_neg hz] at hN
      rw [hN]
      push_cast
      constructor <;> linarith
  constructor
  · rw [pow_one]
    linarith [hN1.2]
  · rw [pow_one]
    linarith [hN1.1]

theorem near_scale {k : Nat} {c a : ℚ} (h : Near k c a) (t : ℚ) (ht : 0 ≤ t) :
    Near k (c * t) (a * t) := by
  constructor
  · calc a * t * (1 - eta) ^ k = a * (1 - eta) ^ k * t := by ring
      _ ≤ c * t := mul_le_mul_of_nonneg_right h.1 ht
  · calc c * t ≤ a * (1 + eta) ^ k * t := mul_le_mul_of_nonneg_right h.2 ht
      _ = a * t * (1 + eta) ^ k := by ring

/-- The quotient computed by `roundRat`. -/
theorem roundRat_near (s : Bool) (m1 m2 : Nat) (e : Int) (hm1 : m1 ≤ 2 ^ 53) (hm10 : m1 ≠ 0)
    (hm2 : m2 ≤ 2 ^ 53) (hm20 : m2 ≠ 0)
    (hlo : (2 : ℚ) ^ (-999 : ℤ) ≤ (m1 : ℚ) / m2 * (2 : ℚ) ^ e)
    (hhi : (m1 : ℚ) / m2 * (2 : ℚ) ^ e ≤ (2 : ℚ) ^ (999 : ℤ)) :
    ∃ m' e', roundRat s m1 m2 e = fin s m' e' ∧ m' ≠ 0 ∧ Fits false (fin s m' e') ∧
      Near 2 ((m' : ℚ) * (2 : ℚ) ^ e') ((m1 : ℚ) / m2 * (2 : ℚ) ^ e) := by
  have h20 : (2 : ℚ) ≠ 0 := by norm_num
  have hb2 : bits m2 = m2.size := bits_eq_size m2 (lt_two_pow_of_le 53 _ _ hm2 (by omega))
  obtain ⟨k, hk⟩ : ∃ k : ℕ, k = 64 + m2.size := ⟨_, rfl⟩
  obtain ⟨A, hA⟩ : ∃ A : ℕ, A = m1 * 2 ^ k := ⟨_, rfl⟩
  obtain ⟨N, hN⟩ : ∃ N : ℕ, N = 2 * (A / m2) + (if A % m2 = 0 then 0 else 1) := ⟨_, rfl⟩
  obtain ⟨E, hE⟩ : ∃ E : ℤ, E = e - (k : ℕ) - 1 := ⟨_, rfl⟩
  have hrr : roundRat s m1 m2 e = round s N E := by
    simp only [roundRat, if_neg hm10, hb2, ← hk, Nat.shiftLeft_eq, ← hA, ← hN, ← hE]
  rw [hrr]
  have hm2pos : 0 < m2 := Nat.pos_of_ne_zero hm20
  have hm2q : (0 : ℚ) < (m2 : ℚ) := by exact_mod_cast hm2pos
  have h3 : 2 ^ 64 * m2 ≤ A := by
    have h1 : m2 < 2 ^ m2.size := Nat.lt_size_self m2
    rw [hA, hk, pow_add]
    calc 2 ^ 64 * m2 ≤ 2 ^ 64 * 2 ^ m2.size := Nat.mul_le_mul_left _ h1.le
      _ = 1 * (2 ^ 64 * 2 ^ m2.size) := by ring
      _ ≤ m1 * (2 ^ 64 * 2 ^ m2.size) :=
        Nat.mul_le_mul_right _ (Nat.one_le_iff_ne_zero.mpr hm10)
  have hNnear := sticky_quot_near A m2 N hm2pos h3 hN
  have hpE := two_zpow_pos E
  -- the value before rounding against the exact quotient
  have hval : 2 * (A : ℚ) * ((2 : ℚ) ^ E / m2) = (m1 : ℚ) / m2 * (2 : ℚ) ^ e := by
    rw [hA]
    push_cast
    have e3 : (2 : ℚ) ^ e = (2 : ℚ) ^ ((k : ℕ) : ℤ) * (2 : ℚ) ^ (1 : ℤ) * (2 : ℚ) ^ E := by
      rw [← zpow_add₀ h20, ← zpow_add₀ h20]
      congr 1
      omega
    rw [e3, zpow_natCast, zpow_one]
    field_simp
    ring
  have hNE : Near 1 ((N : ℚ) * (2 : ℚ) ^ E) ((m1 : ℚ) / m2 * (2 : ℚ) ^ e) := by
    have := near_scale hNnear ((2 : ℚ) ^ E / m2) (div_nonneg hpE.le hm2q.le)
    rw [hval] at this
    have e4 : (N : ℚ) * m2 * ((2 : ℚ) ^ E / m2) = (N : ℚ) * (2 : ℚ) ^ E := by
      field_simp
      ring
    rw [e4] at this
    exact this
  obtain ⟨hvlo, hvhi⟩ := range_of_near (by omega) hNE (-999) 999 hlo hhi
  have hN0 : N ≠ 0 := by
    intro h0
    rw [h0] at hvlo
    have := two_zpow_pos (-999 - 1)
    simp at hvlo
    linarith
  have hNbig : N < 2 ^ 8000 := by
    have h1 : N ≤ 2 * A + 1 := by
      rw [hN]
      have := Nat.div_le_self A m2
      split_ifs <;> omega
    have h4 : A ≤ 2 ^ 171 := by
      rw [hA]
      have hsz : m2.size ≤ 54 := Nat.size_le.mpr (lt_two_pow_of_le 53 _ _ hm2 (by omega))
      calc m1 * 2 ^ k ≤ 2 ^ 53 * 2 ^ 118 :=
          Nat.mul_le_mul hm1 (Nat.pow_le_pow_right (by norm_num) (by omega))
        _ = 2 ^ 171 := by norm_num
    refine lt_two_pow_of_le 173 _ _ ?_ (by omega)
    have e5 : (2 : ℕ) ^ 173 = 4 * 2 ^ 171 := by norm_num
    have : 0 < 2 ^ 171 := Nat.two_pow_pos 171
    omega
  have hq0 : (0 : ℚ) ≤ (m1 : ℚ) / m2 * (2 : ℚ) ^ e :=
    mul_nonneg (div_nonneg (Nat.cast_nonneg m1) (Nat.cast_nonneg m2)) (two_zpow_pos e).le
  obtain ⟨m', e', hround, hm'0, hfit, hnear⟩ := round_near s N E hN0 hNbig hvlo hvhi
  exact ⟨m', e', hround, hm'0, hfit, near_trans hnear hNE hq0⟩

/-- The quotient of a double by a positive double, as computed. -/
theorem div_near (x y : Dbl) (hx : Fits false x) (hy : Fits true y) (hy0 : mag y ≠ 0)
    (hr : mag x = 0 ∨ ((2 : ℚ) ^ (-999 : ℤ) ≤ mag x / mag y ∧
      mag x / mag y ≤ (2 : ℚ) ^ (999 : ℤ))) :
    Fits false (x / y) ∧ Near 2 (mag (x / y)) (mag x / mag y) ∧
      (mag x = 0 → mag (x / y) = 0) := by
  cases x with
  | fin s1 m1 e1 =>
    cases y with
    | fin s2 m2 e2 =>
      obtain ⟨hm1, hel1, heh1, _⟩ := hx
      obtain ⟨hm2, hel2, heh2, hs2⟩ := hy
      have hs2' : s2 = false := hs2 rfl
      subst hs2'
      have h20 : (2 : ℚ) ≠ 0 := by norm_num
      have hm20 : m2 ≠ 0 := by
        intro h0
        apply hy0
        rw [mag_fin, h0]
        simp
      have hxy : fin s1 m1 e1 / fin false m2 e2 = roundRat s1 m1 m2 (e1 - e2) := by
        show div (fin s1 m1 e1) (fin false m2 e2) = _
        simp only [div, if_neg hm20, Bool.bne_false]
      rw [hxy]
      simp only [mag_fin]
      by_cases hm10 : m1 = 0
      · subst hm10
        simp [roundRat, Fits, mag_fin, Near]
      · have ha0 : (m1 : ℚ) * (2 : ℚ) ^ e1 ≠ 0 :=
          mul_ne_zero (Nat.cast_ne_zero.mpr hm10) (two_zpow_pos e1).ne'
        have hquot : (m1 : ℚ) * (2 : ℚ) ^ e1 / ((m2 : ℚ) * (2 : ℚ) ^ e2) =
            (m1 : ℚ) / m2 * (2 : ℚ) ^ (e1 - e2) := by
          rw [zpow_sub₀ h20]
          have := (two_zpow_pos e2).ne'
          have hm2q : (m2 : ℚ) ≠ 0 := Nat.cast_ne_zero.mpr hm20
          field_simp
        rcases hr with h0 | ⟨hlo, hhi⟩
        · exact absurd h0 ha0
        · rw [mag_fin, mag_fin, hquot] at hlo hhi
          obtain ⟨m', e', hround, hm'0, hfit, hnear⟩ :=
            roundRat_near s1 m1 m2 (e1 - e2) hm1 hm10 hm2 hm20 hlo hhi
          rw [hround, mag_fin, hquot]
          exact ⟨hfit, hnear, fun h0 => absurd h0 ha0⟩
    | inf s => exact absurd hy (by simp [Fits])
    | nan => exact absurd hy (by simp [Fits])
  | inf s => exact absurd hx (by simp [Fits])
  | nan => exact absurd hx (by simp [Fits])

theorem zeroOrBetween_mono {lo hi lo' hi' : ℤ} {c : ℚ} (h : ZeroOrBetween lo hi c)
    (hl : lo' ≤ lo) (hh : hi ≤ hi') : ZeroOrBetween lo' hi' c := by
  have h2 : (1 : ℚ) ≤ 2 := by norm_num
  rcases h with h0 | ⟨h1, h3⟩
  · exact Or.inl h0
  · exact Or.inr ⟨le_trans (zpow_le_zpow_right₀ h2 hl) h1,
      le_trans h3 (zpow_le_zpow_right₀ h2 hh)⟩

theorem zeroOrBetween_add {lo hi : ℤ} {a b : ℚ} (ha : ZeroOrBetween lo hi a)
    (hb : ZeroOrBetween lo hi b) : ZeroOrBetween lo (hi + 1) (a + b) := by
  have h20 : (2 : ℚ) ≠ 0 := by norm_num
  have e1 : (2 : ℚ) ^ (hi + 1) = (2 : ℚ) ^ hi * 2 := by
    rw [zpow_add₀ h20]
    norm_num
  have hp := two_zpow_pos hi
  have hq := two_zpow_pos lo
  rcases ha with ha0 | ⟨ha1, ha2⟩ <;> rcases hb with hb0 | ⟨hb1, hb2⟩
  · exact Or.inl (by rw [ha0, hb0, add_zero])
  · exact Or.inr ⟨by rw [ha0, zero_add]; exact hb1, by rw [ha0, zero_add, e1]; linarith⟩
  · exact Or.inr ⟨by rw [hb0, add_zero]; exact ha1, by rw [hb0, add_zero, e1]; linarith⟩
  · exact Or.inr ⟨by linarith, by rw [e1]; linarith⟩

theorem zeroOrBetween_near {k : Nat} (hk : k ≤ 40) {lo hi : ℤ} {c a : ℚ} (h : Near k c a)
    (ha : ZeroOrBetween lo hi a) : ZeroOrBetween (lo - 1) (hi + 1) c := by
  rcases ha with ha0 | ⟨ha1, ha2⟩
  · left
    rw [ha0] at h
    have h1 := h.1
    have h2 := h.2
    rw [zero_mul] at h1 h2
    exact le_antisymm h2 h1
  · exact Or.inr (range_of_near hk h lo hi ha1 ha2)

theorem zeroOrBetween_sq {lo hi : ℤ} {a : ℚ} (ha : ZeroOrBetween lo hi a) :
    ZeroOrBetween (lo + lo) (hi + hi) (a * a) := by
  have h20 : (2 : ℚ) ≠ 0 := by norm_num
  rcases ha with ha0 | ⟨ha1, ha2⟩
  · exact Or.inl (by rw [ha0, mul_zero])
  · have hq := two_zpow_pos lo
    have ha0 : 0 ≤ a := le_trans hq.le ha1
    refine Or.inr ⟨?_, ?_⟩
    · rw [zpow_add₀ h20]
      exact mul_le_mul ha1 ha1 hq.le ha0
    · rw [zpow_add₀ h20]
      exact mul_le_mul ha2 ha2 ha0 (two_zpow_pos hi).le

theorem zeroOrBetween_pos {lo hi : ℤ} {c : ℚ} (h : ZeroOrBetween lo hi c) (hc : c ≠ 0) :
    (2 : ℚ) ^ lo ≤ c ∧ c ≤ (2 : ℚ) ^ hi := by
  rcases h with h0 | h1
  · exact absurd h0 hc
  · exact h1

end Dbl

namespace IEEE

/-- The computed length of a vector of doubles: its square is the sum of the
squares of the components up to six relative errors. -/
theorem Vector3D.length_near (w : Vector3D) (hx : Dbl.Fits false w.x) (hy : Dbl.Fits false w.y)
    (hz : Dbl.Fits false w.z) (rx : Dbl.ZeroOrBetween (-400) 400 (Dbl.mag w.x))
    (ry : Dbl.ZeroOrBetween (-400) 400 (Dbl.mag w.y))
    (rz : Dbl.ZeroOrBetween (-400) 400 (Dbl.mag w.z))
    (hne : 0 < Dbl.mag w.x * Dbl.mag w.x + Dbl.mag w.y * Dbl.mag w.y + Dbl.mag w.z * Dbl.mag w.z) :
    Dbl.Fits true w.length ∧
      Dbl.Near 6 (Dbl.mag w.length * Dbl.mag w.length)
        (Dbl.mag w.x * Dbl.mag w.x + Dbl.mag w.y * Dbl.mag w.y + Dbl.mag w.z * Dbl.mag w.z) := by
  have sqr : ∀ a : ℚ, Dbl.ZeroOrBetween (-400) 400 a →
      Dbl.ZeroOrBetween (-800) 800 (a * a) := by
    intro a ha
    have := Dbl.zeroOrBetween_sq ha
    norm_num at this
    exact this
  have toOp : ∀ {lo hi : ℤ} {c : ℚ}, Dbl.ZeroOrBetween lo hi c → -1000 ≤ lo →
      hi ≤ 1000 →
      c = 0 ∨ ((2 : ℚ) ^ (-1000 : ℤ) ≤ c ∧ c ≤ (2 : ℚ) ^ (1000 : ℤ)) :=
    fun h hl hh => Dbl.zeroOrBetween_mono h hl hh
  have opx : Dbl.mag w.x = 0 ∨ ((2 : ℚ) ^ (-1000 : ℤ) ≤ Dbl.mag w.x * Dbl.mag w.x ∧
      Dbl.mag w.x * Dbl.mag w.x ≤ (2 : ℚ) ^ (1000 : ℤ)) := by
    rcases rx with h0 | h1
    · exact Or.inl h0
    · exact Or.inr (Dbl.zeroOrBetween_pos (Dbl.zeroOrBetween_mono (sqr _ (Or.inr h1))
        (by norm_num : (-1000 : ℤ) ≤ -800) (by norm_num : (800 : ℤ) ≤ 1000))
        (by
          have := Dbl.two_zpow_pos (-400)
          have h3 : 0 < Dbl.mag w.x := lt_of_lt_of_le this h1.1
          exact (mul_pos h3 h3).ne'))
  have opy : Dbl.mag w.y = 0 ∨ ((2 : ℚ) ^ (-1000 : ℤ) ≤ Dbl.mag w.y * Dbl.mag w.y ∧
      Dbl.mag w.y * Dbl.mag w.y ≤ (2 : ℚ) ^ (1000 : ℤ)) := by
    rcases ry with h0 | h1
    · exact Or.inl h0
    · exact Or.inr (Dbl.zeroOrBetween_pos (Dbl.zeroOrBetween_mono (sqr _ (Or.inr h1))
        (by norm_num : (-1000 : ℤ) ≤ -800) (by norm_num : (800 : ℤ) ≤ 1000))
        (by
          have := Dbl.two_zpow_pos (-400)
          have h3 : 0 < Dbl.mag w.y := lt_of_lt_of_le this h1.1
          exact (mul_pos h3 h3).ne'))
  have opz : Dbl.mag w.z = 0 ∨ ((2 : ℚ) ^ (-1000 : ℤ) ≤ Dbl.mag w.z * Dbl.mag w.z ∧
      Dbl.mag w.z * Dbl.mag w.z ≤ (2 : ℚ) ^ (1000 : ℤ)) := by
    rcases rz with h0 | h1
    · exact Or.inl h0
    · exact Or.inr (Dbl.zeroOrBetween_pos (Dbl.zeroOrBetween_mono (sqr _ (Or.inr h1))
        (by norm_num : (-1000 : ℤ) ≤ -800) (by norm_num : (800 : ℤ) ≤ 1000))
        (by
          have := Dbl.two_zpow_pos (-400)
          have h3 : 0 < Dbl.mag w.z := lt_of_lt_of_le this h1.1
          exact (mul_pos h3 h3).ne'))
  obtain ⟨fx, nx, _⟩ := Dbl.mul_self_near w.x hx opx
  obtain ⟨fy, ny, _⟩ := Dbl.mul_self_near w.y hy opy
  obtain ⟨fz, nz, _⟩ := Dbl.mul_self_near w.z hz opz
  have ax0 : 0 ≤ Dbl.mag w.x * Dbl.mag w.x := mul_self_nonneg _
  have ay0 : 0 ≤ Dbl.mag w.y * Dbl.mag w.y := mul_self_nonneg _
  have az0 : 0 ≤ Dbl.mag w.z * Dbl.mag w.z := mul_self_nonneg _
  -- the ranges of the rounded squares
  have qx : Dbl.ZeroOrBetween (-801) 801 (Dbl.mag (w.x * w.x)) := by
    have := Dbl.zeroOrBetween_near (by omega) nx (sqr _ rx)
    norm_num at this
    exact this
  have qy : Dbl.ZeroOrBetween (-801) 801 (Dbl.mag (w.y * w.y)) := by
    have := Dbl.zeroOrBetween_near (by omega) ny (sqr _ ry)
    norm_num at this
    exact this
  have qz : Dbl.ZeroOrBetween (-801) 801 (Dbl.mag (w.z * w.z)) := by
    have := Dbl.zeroOrBetween_near (by omega) nz (sqr _ rz)
    norm_num at this
    exact this
  -- the first sum
  have r1 : Dbl.ZeroOrBetween (-801) 802 (Dbl.mag (w.x * w.x) + Dbl.mag (w.y * w.y)) := by
    have := Dbl.zeroOrBetween_add qx qy
    norm_num at this
    exact this
  obtain ⟨f1, n1⟩ := Dbl.add_near (w.x * w.x) (w.y * w.y) fx fy
    (toOp r1 (by norm_num) (by norm_num))
  have n1' : Dbl.Near 2 (Dbl.mag (w.x * w.x + w.y * w.y))
      (Dbl.mag w.x * Dbl.mag w.x + Dbl.mag w.y * Dbl.mag w.y) :=
    Dbl.near_trans n1 (Dbl.near_add nx ny) (add_nonneg ax0 ay0)
  have q1 : Dbl.ZeroOrBetween (-802) 803 (Dbl.mag (w.x * w.x + w.y * w.y)) := by
    have := Dbl.zeroOrBetween_near (by omega) n1 r1
    norm_num at this
    exact this
  -- the second sum
  have r2 : Dbl.ZeroOrBetween (-802) 804
      (Dbl.mag (w.x * w.x + w.y * w.y) + Dbl.mag (w.z * w.z)) := by
    have := Dbl.zeroOrBetween_add q1
      (Dbl.zeroOrBetween_mono qz (by norm_num : (-802 : ℤ) ≤ -801)
        (by norm_num : (801 : ℤ) ≤ 803))
    norm_num at this
    exact this
  obtain ⟨f2, n2⟩ := Dbl.add_near (w.x * w.x + w.y * w.y) (w.z * w.z) f1 fz
    (toOp r2 (by norm_num) (by norm_num))
  have n2' : Dbl.Near 3 (Dbl.mag (w.x * w.x + w.y * w.y + w.z * w.z))
      (Dbl.mag w.x * Dbl.mag w.x + Dbl.mag w.y * Dbl.mag w.y + Dbl.mag w.z * Dbl.mag w.z) :=
    Dbl.near_trans n2 (Dbl.near_add n1' (Dbl.near_mono nz (by omega) az0))
      (add_nonneg (add_nonneg ax0 ay0) az0)
  have q2 : Dbl.ZeroOrBetween (-803) 805 (Dbl.mag (w.x * w.x + w.y * w.y + w.z * w.z)) := by
    have := Dbl.zeroOrBetween_near (by omega) n2 r2
    norm_num at this
    exact this
  have hpos : 0 < Dbl.mag (w.x * w.x + w.y * w.y + w.z * w.z) := Dbl.near_pos n2' hne
  obtain ⟨hlo, hhi⟩ := Dbl.zeroOrBetween_pos
    (Dbl.zeroOrBetween_mono q2 (by norm_num : (-1000 : ℤ) ≤ -803)
      (by norm_num : (805 : ℤ) ≤ 1000))
    hpos.ne'
  obtain ⟨fs, ns⟩ := Dbl.sqrt_near (w.x * w.x + w.y * w.y + w.z * w.z) f2 hlo hhi
  exact ⟨fs, Dbl.near_trans ns n2' hne.le⟩

end IEEE

namespace Dbl

theorem fits_of_moderate {x : Dbl} (h : moderate x) : Fits false x := by
  cases x with
  | fin s m e =>
    obtain ⟨h1, h2, h3, _⟩ := h
    exact ⟨h1.le, by omega, by omega, by simp⟩
  | inf s => exact h.elim
  | nan => exact h.elim

theorem range_of_moderate {x : Dbl} (h : moderate x) : ZeroOrBetween (-100) 100 (mag x) := by
  cases x with
  | fin s m e => exact h.2.2.2
  | inf s => exact h.elim
  | nan => exact h.elim

theorem toRat_of_fits {x : Dbl} (h : Fits true x) : isFinite x = true ∧ toRat x = mag x := by
  cases x with
  | fin s m e =>
    have hs : s = false := h.2.2.2 rfl
    subst hs
    exact ⟨rfl, by simp [toRat, mag]⟩
  | inf s => exact h.elim
  | nan => exact h.elim

theorem fin_of_mag_zero {x : Dbl} (hx : Fits false x) (h : mag x = 0) :
    ∃ s e, x = fin s 0 e := by
  cases x with
  | fin s m e =>
    rw [mag_fin] at h
    rcases mul_eq_zero.mp h with h1 | h1
    · have : m = 0 := by exact_mod_cast h1
      subst this
      exact ⟨s, e, rfl⟩
    · exact absurd h1 (two_zpow_pos e).ne'
  | inf s => exact hx.elim
  | nan => exact hx.elim

theorem mul_zero_zero (s1 s2 : Bool) (e1 e2 : Int) :
    (fin s1 0 e1 : Dbl) * fin s2 0 e2 = fin false 0 0 := by
  show mul _ _ = _
  simp only [mul, Nat.mul_zero, round_zero]

theorem add_zero_zero : (fin false 0 0 : Dbl) + fin false 0 0 = fin false 0 0 := by decide

theorem sqrt_zero_zero : sqrt (fin false 0 0) = fin false 0 0 := by decide

theorem root_range {l : ℚ} (hl : 0 ≤ l) (a b : ℤ) (hlo : (2 : ℚ) ^ (a + a) ≤ l * l)
    (hhi : l * l ≤ (2 : ℚ) ^ (b + b)) : (2 : ℚ) ^ a ≤ l ∧ l ≤ (2 : ℚ) ^ b := by
  have h20 : (2 : ℚ) ≠ 0 := by norm_num
  rw [zpow_add₀ h20] at hlo hhi
  exact ⟨(mul_self_le_mul_self_iff (two_zpow_pos a).le hl).mpr hlo,
    (mul_self_le_mul_self_iff hl (two_zpow_pos b).le).mpr hhi⟩

theorem zeroOrBetween_div {lo hi lo2 hi2 : ℤ} {a l : ℚ} (ha : ZeroOrBetween lo hi a)
    (hl1 : (2 : ℚ) ^ lo2 ≤ l) (hl2 : l ≤ (2 : ℚ) ^ hi2) :
    ZeroOrBetween (lo - hi2) (hi - lo2) (a / l) := by
  have h20 : (2 : ℚ) ≠ 0 := by norm_num
  have hl0 : 0 < l := lt_of_lt_of_le (two_zpow_pos lo2) hl1
  rcases ha with h0 | ⟨h1, h2⟩
  · exact Or.inl (by rw [h0, zero_div])
  · have ha0 : 0 ≤ a := le_trans (two_zpow_pos lo).le h1
    refine Or.inr ⟨?_, ?_⟩
    · rw [zpow_sub₀ h20]
      exact div_le_div₀ ha0 h1 hl0 hl2
    · rw [zpow_sub₀ h20]
      exact div_le_div₀ (two_zpow_pos hi).le h2 (two_zpow_pos lo2) hl1

/-- One component of a normalized vector: the quotient of a moderate double by
a length between `2^-101` and `2^102`. -/
theorem div_component (x len : Dbl) (hx : moderate x) (fl : Fits true len)
    (hl1 : (2 : ℚ) ^ (-101 : ℤ) ≤ mag len) (hl2 : mag len ≤ (2 : ℚ) ^ (102 : ℤ)) :
    Fits false (x / len) ∧ Near 2 (mag (x / len)) (mag x / mag len) ∧
      ZeroOrBetween (-400) 400 (mag (x / len)) := by
  have hl0 : 0 < mag len := lt_of_lt_of_le (two_zpow_pos _) hl1
  have r := zeroOrBetween_div (range_of_moderate hx) hl1 hl2
  norm_num at r
  have hr : mag x = 0 ∨ ((2 : ℚ) ^ (-999 : ℤ) ≤ mag x / mag len ∧
      mag x / mag len ≤ (2 : ℚ) ^ (999 : ℤ)) := by
    rcases range_of_moderate hx with h0 | h1
    · exact Or.inl h0
    · have hpos : 0 < mag x := lt_of_lt_of_le (two_zpow_pos _) h1.1
      exact Or.inr (zeroOrBetween_pos
        (zeroOrBetween_mono r (by norm_num : (-999 : ℤ) ≤ -202)
          (by norm_num : (201 : ℤ) ≤ 999))
        (div_pos hpos hl0).ne')
  obtain ⟨f, n, _⟩ := div_near x len (fits_of_moderate hx) fl hl0.ne' hr
  refine ⟨f, n, ?_⟩
  have q := zeroOrBetween_near (by omega) n r
  norm_num at q
  exact zeroOrBetween_mono q (by norm_num) (by norm_num)

/-- A number within at most 40 relative errors of 1 is within `1e-12` of 1. -/
theorem near_one_abs {k : Nat} (hk : k ≤ 40) {c : ℚ} (h : Near k c 1) :
    |c - 1| ≤ 1 / 1000000000000 := by
  have hu := pow_one_add_eta_le k hk
  have h40 : (1 - eta) ^ 40 ≤ (1 - eta) ^ k :=
    pow_le_pow_of_le_one one_sub_eta_pos.le one_sub_eta_le_one hk
  have hb : (1 : ℚ) - 40 * eta ≤ (1 - eta) ^ 40 := by
    have := one_add_mul_le_pow (a := -eta) (by unfold eta; norm_num) 40
    simpa [sub_eq_add_neg] using this
  have hlo : (1 : ℚ) - 1 / 1000000000000 ≤ (1 - eta) ^ k := by
    unfold eta at hb h40 ⊢
    linarith
  have h1 := h.1
  have h2 := h.2
  rw [one_mul] at h1 h2
  rw [abs_le]
  constructor <;> linarith

/-- A non-negative number whose square is within `1e-12` of 1 is within
`1e-12` of 1. -/
theorem abs_sub_one_of_sq {L : ℚ} (hL : 0 ≤ L) (h : |L * L - 1| ≤ 1 / 1000000000000) :
    |L - 1| ≤ 1 / 1000000000000 := by
  rw [abs_le] at h ⊢
  obtain ⟨h1, h2⟩ := h
  constructor
  · by_contra hc
    push_neg at hc
    have : L * L < 1 - 1 / 1000000000000 := by nlinarith
    linarith
  · by_contra hc
    push_neg at hc
    have : 1 + 1 / 1000000000000 < L * L := by nlinarith
    linarith

theorem toRat_mul_self (x : Dbl) : toRat x * toRat x = mag x * mag x := by
  cases x with
  | fin s m e => cases s <;> simp [toRat, mag]
  | inf s => rfl
  | nan => rfl

end Dbl

namespace IEEE

/-- A vector whose components are all zero has computed length zero. -/
theorem Vector3D.length_of_zero (v : Vector3D) (fx : Dbl.Fits false v.x) (fy : Dbl.Fits false v.y)
    (fz : Dbl.Fits false v.z) (hx : Dbl.mag v.x = 0) (hy : Dbl.mag v.y = 0) (hz : Dbl.mag v.z = 0) :
    Dbl.beq v.length 0 = true := by
  obtain ⟨s1, e1, h1⟩ := Dbl.fin_of_mag_zero fx hx
  obtain ⟨s2, e2, h2⟩ := Dbl.fin_of_mag_zero fy hy
  obtain ⟨s3, e3, h3⟩ := Dbl.fin_of_mag_zero fz hz
  unfold Vector3D.length
  rw [h1, h2, h3, Dbl.mul_zero_zero, Dbl.mul_zero_zero, Dbl.mul_zero_zero, Dbl.add_zero_zero,
    Dbl.add_zero_zero,
    Dbl.sqrt_zero_zero]
  decide

/-- Method `normalize` on doubles: of a vector whose components are moderate
(zero, or of magnitude between `2^-100` and `2^100`) and whose computed length
is not zero, the squares of the components of the result, as the numbers they
are, add up to 1 within `1e-12`, and the computed length of the result is
finite and within `1e-12` of 1. -/
theorem Vector3D.normalize_length_near (v : Vector3D) (hx : Dbl.moderate v.x)
    (hy : Dbl.moderate v.y)
    (hz : Dbl.moderate v.z) (hlen : ¬ Dbl.beq v.length 0 = true) :
    |v.normalize.exact.dot v.normalize.exact - 1| ≤ 1 / 1000000000000 ∧
      Dbl.isFinite v.normalize.length = true ∧
      |Dbl.toRat v.normalize.length - 1| ≤ 1 / 1000000000000 := by
  have fx := Dbl.fits_of_moderate hx
  have fy := Dbl.fits_of_moderate hy
  have fz := Dbl.fits_of_moderate hz
  have rx := Dbl.range_of_moderate hx
  have ry := Dbl.range_of_moderate hy
  have rz := Dbl.range_of_moderate hz
  have ax0 : 0 ≤ Dbl.mag v.x * Dbl.mag v.x := mul_self_nonneg _
  have ay0 : 0 ≤ Dbl.mag v.y * Dbl.mag v.y := mul_self_nonneg _
  have az0 : 0 ≤ Dbl.mag v.z * Dbl.mag v.z := mul_self_nonneg _
  have hS : 0 <
      Dbl.mag v.x * Dbl.mag v.x + Dbl.mag v.y * Dbl.mag v.y + Dbl.mag v.z * Dbl.mag v.z := by
    by_contra hS
    have e1 : Dbl.mag v.x * Dbl.mag v.x = 0 := by linarith
    have e2 : Dbl.mag v.y * Dbl.mag v.y = 0 := by linarith
    have e3 : Dbl.mag v.z * Dbl.mag v.z = 0 := by linarith
    exact hlen (Vector3D.length_of_zero v fx fy fz (mul_self_eq_zero.mp e1)
      (mul_self_eq_zero.mp e2) (mul_self_eq_zero.mp e3))
  obtain ⟨fl, nl⟩ := Vector3D.length_near v fx fy fz
    (Dbl.zeroOrBetween_mono rx (by norm_num) (by norm_num))
    (Dbl.zeroOrBetween_mono ry (by norm_num) (by norm_num))
    (Dbl.zeroOrBetween_mono rz (by norm_num) (by norm_num)) hS
  -- the range of the sum of squares and of the computed length
  have rS : Dbl.ZeroOrBetween (-200) 202
      (Dbl.mag v.x * Dbl.mag v.x + Dbl.mag v.y * Dbl.mag v.y + Dbl.mag v.z * Dbl.mag v.z) := by
    have sx := Dbl.zeroOrBetween_sq rx
    have sy := Dbl.zeroOrBetween_sq ry
    have sz := Dbl.zeroOrBetween_sq rz
    norm_num at sx sy sz
    have s1 := Dbl.zeroOrBetween_add sx sy
    norm_num at s1
    have s2 := Dbl.zeroOrBetween_add s1
      (Dbl.zeroOrBetween_mono sz (le_refl _) (by norm_num : (200 : ℤ) ≤ 201))
    norm_num at s2
    exact s2
  obtain ⟨S1, S2⟩ := Dbl.zeroOrBetween_pos rS hS.ne'
  have rl2 := Dbl.range_of_near (by omega : 6 ≤ 40) nl (-200) 202 S1 S2
  have h2 : (1 : ℚ) ≤ 2 := by norm_num
  obtain ⟨hl1, hl2⟩ := Dbl.root_range (Dbl.mag_nonneg v.length) (-101) 102
    (le_trans (zpow_le_zpow_right₀ h2 (by norm_num : (-101 + -101 : ℤ) ≤ -200 - 1)) rl2.1)
    (le_trans rl2.2 (zpow_le_zpow_right₀ h2 (by norm_num : (202 + 1 : ℤ) ≤ 102 + 102)))
  have hl0 : 0 < Dbl.mag v.length := lt_of_lt_of_le (Dbl.two_zpow_pos _) hl1
  -- the components of the result
  obtain ⟨gx, nx, qx⟩ := Dbl.div_component v.x v.length hx fl hl1 hl2
  obtain ⟨gy, ny, qy⟩ := Dbl.div_component v.y v.length hy fl hl1 hl2
  obtain ⟨gz, nz, qz⟩ := Dbl.div_component v.z v.length hz fl hl1 hl2
  have hn : v.normalize = ⟨v.x / v.length, v.y / v.length, v.z / v.length⟩ := by
    unfold Vector3D.normalize
    simp only [if_neg hlen]
  have dx0 : 0 ≤ Dbl.mag v.x / Dbl.mag v.length := div_nonneg (Dbl.mag_nonneg _) hl0.le
  have dy0 : 0 ≤ Dbl.mag v.y / Dbl.mag v.length := div_nonneg (Dbl.mag_nonneg _) hl0.le
  have dz0 : 0 ≤ Dbl.mag v.z / Dbl.mag v.length := div_nonneg (Dbl.mag_nonneg _) hl0.le
  have N4 : Dbl.Near 4
      (Dbl.mag (v.x / v.length) * Dbl.mag (v.x / v.length)
        + Dbl.mag (v.y / v.length) * Dbl.mag (v.y / v.length)
        + Dbl.mag (v.z / v.length) * Dbl.mag (v.z / v.length))
      (Dbl.mag v.x / Dbl.mag v.length * (Dbl.mag v.x / Dbl.mag v.length)
        + Dbl.mag v.y / Dbl.mag v.length * (Dbl.mag v.y / Dbl.mag v.length)
        + Dbl.mag v.z / Dbl.mag v.length * (Dbl.mag v.z / Dbl.mag v.length)) :=
    Dbl.near_add (Dbl.near_add (Dbl.near_mul nx nx dx0 dx0) (Dbl.near_mul ny ny dy0 dy0))
      (Dbl.near_mul nz nz dz0 dz0)
  have eS : Dbl.mag v.x / Dbl.mag v.length * (Dbl.mag v.x / Dbl.mag v.length)
        + Dbl.mag v.y / Dbl.mag v.length * (Dbl.mag v.y / Dbl.mag v.length)
        + Dbl.mag v.z / Dbl.mag v.length * (Dbl.mag v.z / Dbl.mag v.length)
      = (Dbl.mag v.length * Dbl.mag v.length)⁻¹ *
        (Dbl.mag v.x * Dbl.mag v.x + Dbl.mag v.y * Dbl.mag v.y + Dbl.mag v.z * Dbl.mag v.z) := by
    field_simp
  have N12 : Dbl.Near 12 ((Dbl.mag v.length * Dbl.mag v.length)⁻¹ *
      (Dbl.mag v.x * Dbl.mag v.x + Dbl.mag v.y * Dbl.mag v.y + Dbl.mag v.z * Dbl.mag v.z)) 1 := by
    have := Dbl.near_scale (Dbl.near_inv nl hS) _ hS.le
    rwa [inv_mul_cancel₀ hS.ne'] at this
  rw [eS] at N4
  have N16 := Dbl.near_trans N4 N12 zero_le_one
  have hpos := Dbl.near_pos N16 zero_lt_one
  obtain ⟨fL, nL⟩ := Vector3D.length_near ⟨v.x / v.length, v.y / v.length, v.z / v.length⟩
    gx gy gz qx qy qz hpos
  have N22 := Dbl.near_trans nL N16 zero_le_one
  rw [hn]
  obtain ⟨t1, t2⟩ := Dbl.toRat_of_fits fL
  refine ⟨?_, t1, ?_⟩
  · show |Dbl.toRat (v.x / v.length) * Dbl.toRat (v.x / v.length)
        + Dbl.toRat (v.y / v.length) * Dbl.toRat (v.y / v.length)
        + Dbl.toRat (v.z / v.length) * Dbl.toRat (v.z / v.length) - 1| ≤ 1 / 1000000000000
    rw [Dbl.toRat_mul_self, Dbl.toRat_mul_self, Dbl.toRat_mul_self]
    exact Dbl.near_one_abs (by omega) N16
  · rw [t2]
    exact Dbl.abs_sub_one_of_sq (Dbl.mag_nonneg _) (Dbl.near_one_abs (by omega) N22)

end IEEE

namespace Dbl

theorem mag_neg (x : Dbl) : mag (-x) = mag x := by
  cases x <;> rfl

theorem moderate_zero : moderate 0 := by
  show moderate (fin false 0 0)
  simp [moderate, ZeroOrBetween]

end Dbl

namespace IEEE

theorem Vector3D.exact_dot_self_neg (a : Vector3D) :
    a.neg.exact.dot a.neg.exact = a.exact.dot a.exact := by
  show Dbl.toRat (-a.x) * Dbl.toRat (-a.x) + Dbl.toRat (-a.y) * Dbl.toRat (-a.y)
      + Dbl.toRat (-a.z) * Dbl.toRat (-a.z)
    = Dbl.toRat a.x * Dbl.toRat a.x + Dbl.toRat a.y * Dbl.toRat a.y + Dbl.toRat a.z * Dbl.toRat a.z
  simp only [Dbl.toRat_mul_self, Dbl.mag_neg]

/-- Method `getNormal` on doubles: when the computed cross product of the
edges has moderate components and a computed length that is not zero, the
squares of the components of the result, as the numbers they are, add up to 1
within `1e-12`, and its computed length is finite and within `1e-12` of 1. -/
theorem Triangle.getNormal_length_near (tr : Triangle)
    (hx : Dbl.moderate ((tr.B.sub tr.A).cross (tr.C.sub tr.A)).x)
    (hy : Dbl.moderate ((tr.B.sub tr.A).cross (tr.C.sub tr.A)).y)
    (hz : Dbl.moderate ((tr.B.sub tr.A).cross (tr.C.sub tr.A)).z)
    (hlen : ¬ Dbl.beq ((tr.B.sub tr.A).cross (tr.C.sub tr.A)).length 0 = true) :
    |tr.getNormal.exact.dot tr.getNormal.exact - 1| ≤ 1 / 1000000000000 ∧
      Dbl.isFinite tr.getNormal.length = true ∧
      |Dbl.toRat tr.getNormal.length - 1| ≤ 1 / 1000000000000 := by
  have h := Vector3D.normalize_length_near _ hx hy hz hlen
  unfold Triangle.getNormal
  by_cases hf : ((tr.B.sub tr.A).cross (tr.C.sub tr.A)).normalize.dot tr.A > 0
  · simp only [hf, if_true]
    rw [Vector3D.exact_dot_self_neg, Vector3D.length_neg]
    exact h
  · simp only [hf, if_false]
    exact h

end IEEE

/-! ## The properties -/

section Properties

variable {F : Type} [LinearOrderedField F]

/-- C1: `TraceRay` called with `depth <= 0` returns the black colour
`(0, 0, 0)` whatever the scene, ray and window, and leaves the position in
the random stream unchanged (no draw is consumed). -/
theorem traceRay_depth_nonpos (m : CMath F) (rnd : Nat → F) (sc : Scene F) (ray : Ray F)
    (t_min : F) (t_max : Dist F) (depth : Int) (i : Nat) (h : depth ≤ 0) :
    TraceRay m rnd sc ray t_min t_max depth i = (⟨0, 0, 0⟩, i) := by
  rw [TraceRay, dif_pos h]

/-- Witness of C1: the scene of `setupScene`, the camera ray, depth `0`. -/
theorem traceRay_depth_nonpos_witness :
    (0 : Int) ≤ 0 ∧
    TraceRay (⟨Real.sqrt, Real.cos, Real.sin, Real.exp, fun x y => x ^ y, Real.pi⟩ : CMath ℝ) (fun _ => 1 / 2) (setupScene (⟨Real.sqrt, Real.cos, Real.sin, Real.exp, fun x y => x ^ y, Real.pi⟩ : CMath ℝ)) cameraRay 1 Dist.inf 0 0
      = (⟨0, 0, 0⟩, 0) :=
  ⟨le_refl 0, traceRay_depth_nonpos _ _ _ _ _ _ 0 0 (le_refl 0)⟩

/-- C2: for `depth >= 1`, when no sphere and no triangle of the scene reports a
distance `t` with `t_min < t < t_max`, `TraceRay` returns the background
colour of the scene as it is (not clamped, no lighting evaluated), and
consumes no random draw. -/
theorem traceRay_no_hit (m : CMath F) (rnd : Nat → F) (sc : Scene F) (ray : Ray F)
    (t_min : F) (t_max : Dist F) (depth : Int) (i : Nat) (hd : 1 ≤ depth)
    (hS : ∀ s ∈ sc.spheres, ∀ t : Quo F, s.intersect m ray = some t →
      ¬ (t.gt t_min ∧ t.below t_max))
    (hT : ∀ tr ∈ sc.triangles, ∀ t : F, tr.intersect ray = some t →
      ¬ (t_min < t ∧ Dist.below t t_max)) :
    TraceRay m rnd sc ray t_min t_max depth i = (sc.backgroundColor, i) :=
  traceRay_background m rnd sc ray t_min t_max depth i hd hS hT

/-- Witness of C2: the unit sphere and the example triangle report the
distances `4` and `5` on `zRay`, both outside the window `(1, 3)`. -/
theorem traceRay_no_hit_witness :
    (1 : Int) ≤ 2 ∧
    (∀ s ∈ (windowScene : Scene ℝ).spheres, ∀ t : Quo ℝ,
      s.intersect (⟨Real.sqrt, Real.cos, Real.sin, Real.exp, fun x y => x ^ y, Real.pi⟩ : CMath ℝ) zRay = some t → ¬ (t.gt 1 ∧ t.below (Dist.fin 3))) ∧
    (∀ tr ∈ (windowScene : Scene ℝ).triangles, ∀ t : ℝ,
      tr.intersect zRay = some t → ¬ (1 < t ∧ Dist.below t (Dist.fin 3))) ∧
    TraceRay (⟨Real.sqrt, Real.cos, Real.sin, Real.exp, fun x y => x ^ y, Real.pi⟩ : CMath ℝ) (fun _ => 1 / 2) windowScene zRay 1 (Dist.fin 3) 2 0
      = ((windowScene : Scene ℝ).backgroundColor, 0) :=
  ⟨by norm_num, windowScene_spheres _ real_sqrtSpec, windowScene_triangles,
    traceRay_no_hit _ _ _ _ _ _ 2 0 (by norm_num)
      (windowScene_spheres _ real_sqrtSpec) windowScene_triangles⟩

/-- C3 as stated fails: in an empty scene whose background colour is `(2, 0, 0)`
the colour returned at depth `1` is not within `[0, 1]`. -/
theorem traceRay_in_unit_counterexample :
    ¬ Color.inUnit
      (TraceRay (⟨Real.sqrt, Real.cos, Real.sin, Real.exp, fun x y => x ^ y, Real.pi⟩ : CMath ℝ) (fun _ => 1 / 2) (brightScene : Scene ℝ) cameraRay 1 Dist.inf 1 0).1 := by
  rw [brightScene_trace]
  simp only [Color.inUnit]
  norm_num

/-- C3, amended: for every scene whose background colour has its three channels
in `[0, 1]`, and every ray, window, depth and random stream, each channel of
the colour returned by `TraceRay` is in `[0, 1]`. -/
theorem traceRay_in_unit (m : CMath F) (rnd : Nat → F) (sc : Scene F) (ray : Ray F)
    (t_min : F) (t_max : Dist F) (depth : Int) (i : Nat)
    (hbg : sc.backgroundColor.inUnit) :
    (TraceRay m rnd sc ray t_min t_max depth i).1.inUnit := by
  rw [TraceRay]
  by_cases hd : depth ≤ 0
  · rw [dif_pos hd]
    simp [Color.inUnit]
  · rw [dif_neg hd]
    rcases traceBody_cases m rnd sc
        (fun r lo hi j => TraceRay m rnd sc r lo hi (depth - 1) j) ray t_min t_max depth i
      with h | ⟨c, h⟩
    · rw [h]; exact hbg
    · rw [h]; exact Color.clamp_inUnit c

/-- Witness of C3 amended: the scene of `setupScene`, whose background colour is
`(0.2, 0.3, 0.5)`, the camera ray, the window and depth used by `main`. -/
theorem traceRay_in_unit_witness :
    Color.inUnit (setupScene (⟨Real.sqrt, Real.cos, Real.sin, Real.exp, fun x y => x ^ y, Real.pi⟩ : CMath ℝ)).backgroundColor ∧
    Color.inUnit
      (TraceRay (⟨Real.sqrt, Real.cos, Real.sin, Real.exp, fun x y => x ^ y, Real.pi⟩ : CMath ℝ) (fun _ => 1 / 2) (setupScene (⟨Real.sqrt, Real.cos, Real.sin, Real.exp, fun x y => x ^ y, Real.pi⟩ : CMath ℝ)) cameraRay 1 Dist.inf 2 0).1 :=
  ⟨by simp only [setupScene, Color.inUnit]; norm_num,
    traceRay_in_unit _ _ _ _ _ _ 2 0 (by simp only [setupScene, Color.inUnit]; norm_num)⟩

/-- C10: for the triangle `A = (0,0,0)`, `B = (1,0,0)`, `C = (0,1,0)` and the ray
with origin `(0.25, 0.25, -1)` and direction `(0, 0, 1)`, `Triangle::intersect`
returns true with `t = 1`, the barycentric coordinates being `u = v = 0.25`;
this holds whatever the material of the triangle. -/
theorem triangle_intersect_example (col : Color F) (sp rf sr sk : F) :
    Triangle.intersect (⟨⟨0, 0, 0⟩, ⟨1, 0, 0⟩, ⟨0, 1, 0⟩, col, sp, rf, sr, sk⟩ : Triangle F)
        ⟨⟨0.25, 0.25, -1⟩, ⟨0, 0, 1⟩⟩ = some 1 ∧
      Triangle.u (⟨⟨0, 0, 0⟩, ⟨1, 0, 0⟩, ⟨0, 1, 0⟩, col, sp, rf, sr, sk⟩ : Triangle F)
        ⟨⟨0.25, 0.25, -1⟩, ⟨0, 0, 1⟩⟩ = 0.25 ∧
      Triangle.v (⟨⟨0, 0, 0⟩, ⟨1, 0, 0⟩, ⟨0, 1, 0⟩, col, sp, rf, sr, sk⟩ : Triangle F)
        ⟨⟨0.25, 0.25, -1⟩, ⟨0, 0, 1⟩⟩ = 0.25 :=
  Triangle.corner_example col sp rf sr sk

/-- C12: for a ray whose direction is the zero vector, every sphere and every
triangle reports no hit, so the nearest-hit search of `TraceRay` records
nothing (`TraceRay` returns the background colour at `depth >= 1`) and the
shadow test is false; and `Ray(origin, d)` has the zero vector as direction
whenever `d` has length zero. -/
theorem zero_direction_no_hit (m : CMath F) (hs : m.SqrtSpec) (ray : Ray F)
    (hz : ray.direction = Vector3D.zero) :
    (∀ s : Sphere F, s.intersect m ray = none) ∧
    (∀ tr : Triangle F, tr.intersect ray = none) ∧
    (∀ (sc : Scene F) (t_min : F) (t_max : Dist F),
      hitSurface m sc ray t_min t_max = none) ∧
    (∀ (rnd : Nat → F) (sc : Scene F) (t_min : F) (t_max : Dist F) (depth : Int) (i : Nat),
      1 ≤ depth → TraceRay m rnd sc ray t_min t_max depth i = (sc.backgroundColor, i)) ∧
    (∀ (sc : Scene F) (t_max : Dist F), inShadow m sc ray t_max = false) ∧
    (∀ O d : Vector3D F, d.length m = 0 → (Ray.new m O d).direction = Vector3D.zero) := by
  refine ⟨fun s => Sphere.zero_direction_nan m hs s ray hz,
    fun tr => Triangle.zero_direction_parallel tr ray hz, ?_, ?_, ?_, ?_⟩
  · intro sc t_min t_max
    unfold hitSurface
    rw [nearestHit_zero_direction m hs sc ray hz]
    rfl
  · intro rnd sc t_min t_max depth i hd
    exact traceRay_zero_direction m hs rnd sc ray hz t_min t_max depth i hd
  · intro sc t_max
    exact inShadow_zero_direction m hs sc ray hz t_max
  · intro O d hd
    exact Vector3D.normalize_of_length_zero m d hd

/-- Witness of C12: a ray from the camera position with direction `(0,0,0)`. -/
theorem zero_direction_no_hit_witness :
    CMath.SqrtSpec (⟨Real.sqrt, Real.cos, Real.sin, Real.exp, fun x y => x ^ y, Real.pi⟩ : CMath ℝ) ∧
    (zeroRay : Ray ℝ).direction = Vector3D.zero ∧
    ((∀ s : Sphere ℝ, s.intersect (⟨Real.sqrt, Real.cos, Real.sin, Real.exp, fun x y => x ^ y, Real.pi⟩ : CMath ℝ) zeroRay = none) ∧
    (∀ tr : Triangle ℝ, tr.intersect zeroRay = none) ∧
    (∀ (sc : Scene ℝ) (t_min : ℝ) (t_max : Dist ℝ),
      hitSurface (⟨Real.sqrt, Real.cos, Real.sin, Real.exp, fun x y => x ^ y, Real.pi⟩ : CMath ℝ) sc zeroRay t_min t_max = none) ∧
    (∀ (rnd : Nat → ℝ) (sc : Scene ℝ) (t_min : ℝ) (t_max : Dist ℝ) (depth : Int) (i : Nat),
      1 ≤ depth →
        TraceRay (⟨Real.sqrt, Real.cos, Real.sin, Real.exp, fun x y => x ^ y, Real.pi⟩ : CMath ℝ) rnd sc zeroRay t_min t_max depth i = (sc.backgroundColor, i)) ∧
    (∀ (sc : Scene ℝ) (t_max : Dist ℝ), inShadow (⟨Real.sqrt, Real.cos, Real.sin, Real.exp, fun x y => x ^ y, Real.pi⟩ : CMath ℝ) sc zeroRay t_max = false) ∧
    (∀ O d : Vector3D ℝ, d.length (⟨Real.sqrt, Real.cos, Real.sin, Real.exp, fun x y => x ^ y, Real.pi⟩ : CMath ℝ) = 0 →
      (Ray.new (⟨Real.sqrt, Real.cos, Real.sin, Real.exp, fun x y => x ^ y, Real.pi⟩ : CMath ℝ) O d).direction = Vector3D.zero)) :=
  ⟨real_sqrtSpec, rfl, zero_direction_no_hit _ real_sqrtSpec zeroRay rfl⟩

/-- C15: `Color::clamp` leaves every channel in `[0,1]`, is idempotent, leaves
unchanged every channel that is already in `[0,1]`, and clamps each channel
independently: a channel of the result is a function of that channel alone. -/
theorem clamp_properties (c : Color F) :
    c.clamp.inUnit ∧ c.clamp.clamp = c.clamp ∧
    (0 ≤ c.r → c.r ≤ 1 → c.clamp.r = c.r) ∧
    (0 ≤ c.g → c.g ≤ 1 → c.clamp.g = c.g) ∧
    (0 ≤ c.b → c.b ≤ 1 → c.clamp.b = c.b) ∧
    (∀ c' : Color F, (c'.r = c.r → c'.clamp.r = c.clamp.r) ∧
      (c'.g = c.g → c'.clamp.g = c.clamp.g) ∧ (c'.b = c.b → c'.clamp.b = c.clamp.b)) := by
  refine ⟨Color.clamp_inUnit c, ?_, ?_, ?_, ?_, ?_⟩
  · rw [Color.clamp_eq c.clamp, Color.clamp_eq c]
    simp only [(Color.clamp_channel c.r).2.1, (Color.clamp_channel c.g).2.1,
      (Color.clamp_channel c.b).2.1]
  · rw [Color.clamp_eq c]
    exact (Color.clamp_channel c.r).2.2
  · rw [Color.clamp_eq c]
    exact (Color.clamp_channel c.g).2.2
  · rw [Color.clamp_eq c]
    exact (Color.clamp_channel c.b).2.2
  · intro c'
    rw [Color.clamp_eq c, Color.clamp_eq c']
    refine ⟨?_, ?_, ?_⟩ <;> intro h <;> simp only [h]

/-- C16: for `depth >= 1`, when the object hit has reflectivity `0`, the
reflection stage of `TraceRay` calls nothing and gives `(0,0,0)` without a
draw, and `TraceRay` returns `clamp(localColor + indirectColor)`, where
`indirectColor` is the result of the indirect stage started right after the
local lighting and `localColor` the colour left by the subsurface block. -/
theorem traceRay_reflectivity_zero (m : CMath F) (rnd : Nat → F) (sc : Scene F)
    (ray : Ray F) (t_min : F) (t_max : Dist F) (depth : Int) (i : Nat) (sf : Surface F)
    (hd : 1 ≤ depth) (hhit : hitSurface m sc ray t_min t_max = some sf)
    (hr : sf.reflective = 0) :
    (∀ (recurse : Ray F → F → Dist F → Nat → Color F × Nat) (j : Nat),
      reflectionPart m recurse ray (hitPoint m sc ray t_min t_max) sf t_max j
        = (⟨0, 0, 0⟩, j)) ∧
    (let P := hitPoint m sc ray t_min t_max
     let lit := computeLighting m rnd sc P sf.normal ray.direction.neg sf.specular i
     let ind := indirectPart m rnd (fun r lo hi j => TraceRay m rnd sc r lo hi (depth - 1) j)
       P sf t_max depth lit.2
     let sss := sssBlock m rnd sc P sf (sf.objectColor.mul lit.1) ind.2
     TraceRay m rnd sc ray t_min t_max depth i = ((sss.1.add ind.1).clamp, sss.2)) := by
  have hr' : sf.reflective ≤ 0 := le_of_eq hr
  refine ⟨fun recurse j => reflectionPart_of_nonpos m recurse ray _ sf t_max j hr', ?_⟩
  intro P lit ind sss
  have hd' : ¬ depth ≤ 0 := by omega
  rw [TraceRay, dif_neg hd', traceBody_hit m rnd sc _ ray t_min t_max depth i sf hhit]
  simp only [reflectionPart_of_nonpos m _ ray _ sf t_max _ hr', Color.add_black]

/-- Witness of C16: the matte sphere, of reflectivity `0`, hit by `zRay` at
depth `2`. -/
theorem traceRay_reflectivity_zero_witness :
    (1 : Int) ≤ 2 ∧
    hitSurface (⟨Real.sqrt, Real.cos, Real.sin, Real.exp, fun x y => x ^ y, Real.pi⟩ : CMath ℝ) (matteScene : Scene ℝ) zRay 1 Dist.inf
      = some ⟨⟨0, 0, -1⟩, ⟨1, 0.5, 0.5⟩, 500, 0, 0, 0⟩ ∧
    (⟨⟨0, 0, -1⟩, ⟨1, 0.5, 0.5⟩, 500, 0, 0, 0⟩ : Surface ℝ).reflective = 0 ∧
    ((∀ (recurse : Ray ℝ → ℝ → Dist ℝ → Nat → Color ℝ × Nat) (j : Nat),
      reflectionPart (⟨Real.sqrt, Real.cos, Real.sin, Real.exp, fun x y => x ^ y, Real.pi⟩ : CMath ℝ) recurse zRay (hitPoint (⟨Real.sqrt, Real.cos, Real.sin, Real.exp, fun x y => x ^ y, Real.pi⟩ : CMath ℝ) (matteScene : Scene ℝ) zRay 1 Dist.inf)
        ⟨⟨0, 0, -1⟩, ⟨1, 0.5, 0.5⟩, 500, 0, 0, 0⟩ Dist.inf j = (⟨0, 0, 0⟩, j)) ∧
    (let P := hitPoint (⟨Real.sqrt, Real.cos, Real.sin, Real.exp, fun x y => x ^ y, Real.pi⟩ : CMath ℝ) (matteScene : Scene ℝ) zRay 1 Dist.inf
     let lit := computeLighting (⟨Real.sqrt, Real.cos, Real.sin, Real.exp, fun x y => x ^ y, Real.pi⟩ : CMath ℝ) (fun _ => 1 / 2) matteScene P
       (⟨⟨0, 0, -1⟩, ⟨1, 0.5, 0.5⟩, 500, 0, 0, 0⟩ : Surface ℝ).normal
       (zRay : Ray ℝ).direction.neg
       (⟨⟨0, 0, -1⟩, ⟨1, 0.5, 0.5⟩, 500, 0, 0, 0⟩ : Surface ℝ).specular 0
     let ind := indirectPart (⟨Real.sqrt, Real.cos, Real.sin, Real.exp, fun x y => x ^ y, Real.pi⟩ : CMath ℝ) (fun _ => 1 / 2)
       (fun r lo hi j => TraceRay (⟨Real.sqrt, Real.cos, Real.sin, Real.exp, fun x y => x ^ y, Real.pi⟩ : CMath ℝ) (fun _ => 1 / 2) matteScene r lo hi (2 - 1) j)
       P ⟨⟨0, 0, -1⟩, ⟨1, 0.5, 0.5⟩, 500, 0, 0, 0⟩ Dist.inf 2 lit.2
     let sss := sssBlock (⟨Real.sqrt, Real.cos, Real.sin, Real.exp, fun x y => x ^ y, Real.pi⟩ : CMath ℝ) (fun _ => 1 / 2) matteScene P
       ⟨⟨0, 0, -1⟩, ⟨1, 0.5, 0.5⟩, 500, 0, 0, 0⟩
       ((⟨⟨0, 0, -1⟩, ⟨1, 0.5, 0.5⟩, 500, 0, 0, 0⟩ : Surface ℝ).objectColor.mul lit.1) ind.2
     TraceRay (⟨Real.sqrt, Real.cos, Real.sin, Real.exp, fun x y => x ^ y, Real.pi⟩ : CMath ℝ) (fun _ => 1 / 2) matteScene zRay 1 Dist.inf 2 0
       = ((sss.1.add ind.1).clamp, sss.2))) :=
  ⟨by norm_num, matteScene_hit _ real_sqrtSpec, rfl,
    traceRay_reflectivity_zero _ _ _ _ _ _ 2 0 _ (by norm_num)
      (matteScene_hit _ real_sqrtSpec) rfl⟩

/-- C17: when the object hit has subsurface radius `0` or scattering
coefficient `0`, the subsurface block returns the colour it was given and
the position in the random stream it was given (no draw, no probe lighting),
and for `depth >= 1` `TraceRay` returns
`clamp(objectColor * computeLighting(point, normal, -direction, specular)
+ reflectionColor + indirectColor)` with the position left by the indirect
stage. -/
theorem traceRay_sss_skipped (m : CMath F) (rnd : Nat → F) (sc : Scene F)
    (ray : Ray F) (t_min : F) (t_max : Dist F) (depth : Int) (i : Nat) (sf : Surface F)
    (hd : 1 ≤ depth) (hhit : hitSurface m sc ray t_min t_max = some sf)
    (hz : sf.sssRadius = 0 ∨ sf.sssScatter = 0) :
    (∀ (P : Vector3D F) (localColor : Color F) (j : Nat),
      sssBlock m rnd sc P sf localColor j = (localColor, j)) ∧
    (let P := hitPoint m sc ray t_min t_max
     let lit := computeLighting m rnd sc P sf.normal ray.direction.neg sf.specular i
     let refl := reflectionPart m (fun r lo hi j => TraceRay m rnd sc r lo hi (depth - 1) j)
       ray P sf t_max lit.2
     let ind := indirectPart m rnd (fun r lo hi j => TraceRay m rnd sc r lo hi (depth - 1) j)
       P sf t_max depth refl.2
     TraceRay m rnd sc ray t_min t_max depth i =
       ((((sf.objectColor.mul lit.1).add refl.1).add ind.1).clamp, ind.2)) := by
  refine ⟨fun P localColor j => sssBlock_skipped m rnd sc P sf localColor j hz, ?_⟩
  intro P lit refl ind
  have hd' : ¬ depth ≤ 0 := by omega
  rw [TraceRay, dif_neg hd', traceBody_hit m rnd sc _ ray t_min t_max depth i sf hhit]
  simp only [sssBlock_skipped m rnd sc _ sf _ _ hz]

/-- Witness of C17: the matte sphere, of subsurface radius `0`, hit by `zRay`
at depth `2`. -/
theorem traceRay_sss_skipped_witness :
    (1 : Int) ≤ 2 ∧
    hitSurface (⟨Real.sqrt, Real.cos, Real.sin, Real.exp, fun x y => x ^ y, Real.pi⟩ : CMath ℝ) (matteScene : Scene ℝ) zRay 1 Dist.inf
      = some ⟨⟨0, 0, -1⟩, ⟨1, 0.5, 0.5⟩, 500, 0, 0, 0⟩ ∧
    ((⟨⟨0, 0, -1⟩, ⟨1, 0.5, 0.5⟩, 500, 0, 0, 0⟩ : Surface ℝ).sssRadius = 0 ∨
      (⟨⟨0, 0, -1⟩, ⟨1, 0.5, 0.5⟩, 500, 0, 0, 0⟩ : Surface ℝ).sssScatter = 0) ∧
    ((∀ (P : Vector3D ℝ) (localColor : Color ℝ) (j : Nat),
      sssBlock (⟨Real.sqrt, Real.cos, Real.sin, Real.exp, fun x y => x ^ y, Real.pi⟩ : CMath ℝ) (fun _ => 1 / 2) matteScene P
        ⟨⟨0, 0, -1⟩, ⟨1, 0.5, 0.5⟩, 500, 0, 0, 0⟩ localColor j = (localColor, j)) ∧
    (let P := hitPoint (⟨Real.sqrt, Real.cos, Real.sin, Real.exp, fun x y => x ^ y, Real.pi⟩ : CMath ℝ) (matteScene : Scene ℝ) zRay 1 Dist.inf
     let lit := computeLighting (⟨Real.sqrt, Real.cos, Real.sin, Real.exp, fun x y => x ^ y, Real.pi⟩ : CMath ℝ) (fun _ => 1 / 2) matteScene P
       (⟨⟨0, 0, -1⟩, ⟨1, 0.5, 0.5⟩, 500, 0, 0, 0⟩ : Surface ℝ).normal
       (zRay : Ray ℝ).direction.neg
       (⟨⟨0, 0, -1⟩, ⟨1, 0.5, 0.5⟩, 500, 0, 0, 0⟩ : Surface ℝ).specular 0
     let refl := reflectionPart (⟨Real.sqrt, Real.cos, Real.sin, Real.exp, fun x y => x ^ y, Real.pi⟩ : CMath ℝ)
       (fun r lo hi j => TraceRay (⟨Real.sqrt, Real.cos, Real.sin, Real.exp, fun x y => x ^ y, Real.pi⟩ : CMath ℝ) (fun _ => 1 / 2) matteScene r lo hi (2 - 1) j)
       zRay P ⟨⟨0, 0, -1⟩, ⟨1, 0.5, 0.5⟩, 500, 0, 0, 0⟩ Dist.inf lit.2
     let ind := indirectPart (⟨Real.sqrt, Real.cos, Real.sin, Real.exp, fun x y => x ^ y, Real.pi⟩ : CMath ℝ) (fun _ => 1 / 2)
       (fun r lo hi j => TraceRay (⟨Real.sqrt, Real.cos, Real.sin, Real.exp, fun x y => x ^ y, Real.pi⟩ : CMath ℝ) (fun _ => 1 / 2) matteScene r lo hi (2 - 1) j)
       P ⟨⟨0, 0, -1⟩, ⟨1, 0.5, 0.5⟩, 500, 0, 0, 0⟩ Dist.inf 2 refl.2
     TraceRay (⟨Real.sqrt, Real.cos, Real.sin, Real.exp, fun x y => x ^ y, Real.pi⟩ : CMath ℝ) (fun _ => 1 / 2) matteScene zRay 1 Dist.inf 2 0 =
       (((((⟨⟨0, 0, -1⟩, ⟨1, 0.5, 0.5⟩, 500, 0, 0, 0⟩ : Surface ℝ).objectColor.mul
         lit.1).add refl.1).add ind.1).clamp, ind.2))) :=
  ⟨by norm_num, matteScene_hit _ real_sqrtSpec, Or.inl rfl,
    traceRay_sss_skipped _ _ _ _ _ _ 2 0 _ (by norm_num)
      (matteScene_hit _ real_sqrtSpec) (Or.inl rfl)⟩

/-- C19 fails on the code: `computeLighting` takes the light direction of every
sample from `light.position`, also for a directional light, whose position is
`(0,0,0)`, and never reads `light.direction`. For the directional light of
direction `(0,1,0)` and intensity `0.5` the direction used is `(0,0,1)` at the
point `(0,0,-1)` and `(1,0,0)` at the point `(-1,0,0)`; one sample at
`(0,0,-1)` with normal `(0,0,1)` adds `0.4` to every channel, where the
stored direction `(0,1,0)` gives the diffuse term `0`; and replacing the
`direction` field of a light by any vector changes no sample. -/
theorem directional_light_uses_position :
    (Light.directional (⟨Real.sqrt, Real.cos, Real.sin, Real.exp, fun x y => x ^ y, Real.pi⟩ : CMath ℝ) ⟨0, 1, 0⟩ 0.5).direction = ⟨0, 1, 0⟩ ∧
    sampleDir (⟨Real.sqrt, Real.cos, Real.sin, Real.exp, fun x y => x ^ y, Real.pi⟩ : CMath ℝ) ⟨0, 0, -1⟩
      (samplePoint (⟨Real.sqrt, Real.cos, Real.sin, Real.exp, fun x y => x ^ y, Real.pi⟩ : CMath ℝ) (fun _ => 1 / 2) (Light.directional (⟨Real.sqrt, Real.cos, Real.sin, Real.exp, fun x y => x ^ y, Real.pi⟩ : CMath ℝ) ⟨0, 1, 0⟩ 0.5) 0).1
      = ⟨0, 0, 1⟩ ∧
    sampleDir (⟨Real.sqrt, Real.cos, Real.sin, Real.exp, fun x y => x ^ y, Real.pi⟩ : CMath ℝ) ⟨-1, 0, 0⟩
      (samplePoint (⟨Real.sqrt, Real.cos, Real.sin, Real.exp, fun x y => x ^ y, Real.pi⟩ : CMath ℝ) (fun _ => 1 / 2) (Light.directional (⟨Real.sqrt, Real.cos, Real.sin, Real.exp, fun x y => x ^ y, Real.pi⟩ : CMath ℝ) ⟨0, 1, 0⟩ 0.5) 0).1
      = ⟨1, 0, 0⟩ ∧
    lightSample (⟨Real.sqrt, Real.cos, Real.sin, Real.exp, fun x y => x ^ y, Real.pi⟩ : CMath ℝ) (fun _ => 1 / 2) (emptyScene : Scene ℝ)
      (Light.directional (⟨Real.sqrt, Real.cos, Real.sin, Real.exp, fun x y => x ^ y, Real.pi⟩ : CMath ℝ) ⟨0, 1, 0⟩ 0.5)
      ⟨0, 0, -1⟩ ⟨0, 0, 1⟩ ⟨0, 0, 1⟩ (-1) (⟨0, 0, 0⟩, 0) = (⟨0.4, 0.4, 0.4⟩, 0) ∧
    (Light.directional (⟨Real.sqrt, Real.cos, Real.sin, Real.exp, fun x y => x ^ y, Real.pi⟩ : CMath ℝ) ⟨0, 1, 0⟩ 0.5).diffuseTerm ⟨0, 0, 1⟩
      (Light.directional (⟨Real.sqrt, Real.cos, Real.sin, Real.exp, fun x y => x ^ y, Real.pi⟩ : CMath ℝ) ⟨0, 1, 0⟩ 0.5).direction = 0 ∧
    (∀ (sc : Scene ℝ) (light : Light ℝ) (d point normal view : Vector3D ℝ) (s : ℝ)
        (st : Color ℝ × Nat),
      lightSample (⟨Real.sqrt, Real.cos, Real.sin, Real.exp, fun x y => x ^ y, Real.pi⟩ : CMath ℝ) (fun _ => 1 / 2) sc { light with direction := d }
          point normal view s st
        = lightSample (⟨Real.sqrt, Real.cos, Real.sin, Real.exp, fun x y => x ^ y, Real.pi⟩ : CMath ℝ) (fun _ => 1 / 2) sc light point normal view s st) := by
  obtain ⟨h1, h2, h3, h4, h5⟩ :=
    directional_example _ real_sqrtSpec (fun _ => (1 / 2 : ℝ))
  exact ⟨h1, h2, h3, h4, h5, fun sc light d point normal view s st =>
    lightSample_direction_unused _ _ sc light d point normal view s st⟩

/-- C28: the indirect stage of `TraceRay` (`indirectPart`, run with the
recursive call `TraceRay(..., depth - 1)` after the reflection stage). When
`depth > 1` and the roulette draw is strictly greater than `0.2` the
indirect colour is `0.1` times the colour of
`TraceRay(indirectRay, 0.001, t_max, depth - 1)`; when `depth > 1` and the
draw is at most `0.2` it is `(0,0,0)` and the one draw is consumed; when
`depth <= 1` it is `(0,0,0)`, whatever the random stream, and the position in
the stream is unchanged (no roulette number is drawn). For a hit at
`depth >= 1` the result of `TraceRay` is the clamped sum of the subsurface,
reflection and this indirect colour. -/
theorem indirect_bounce (m : CMath F) (rnd : Nat → F) (sc : Scene F) (sf : Surface F)
    (t_max : Dist F) (depth : Int) :
    (∀ (P : Vector3D F) (j : Nat), depth > 1 → rnd j > 0.2 →
      indirectPart m rnd (fun r lo hi k => TraceRay m rnd sc r lo hi (depth - 1) k)
          P sf t_max depth j =
        ((TraceRay m rnd sc (indirectRayOf m rnd P sf j) 0.001 t_max (depth - 1)
            (j + 3)).1.scale 0.1,
          (TraceRay m rnd sc (indirectRayOf m rnd P sf j) 0.001 t_max (depth - 1)
            (j + 3)).2)) ∧
    (∀ (P : Vector3D F) (j : Nat), depth > 1 → ¬ rnd j > 0.2 →
      indirectPart m rnd (fun r lo hi k => TraceRay m rnd sc r lo hi (depth - 1) k)
          P sf t_max depth j = (⟨0, 0, 0⟩, j + 1)) ∧
    (∀ (P : Vector3D F) (j : Nat) (rnd' : Nat → F)
        (recurse : Ray F → F → Dist F → Nat → Color F × Nat), depth ≤ 1 →
      indirectPart m rnd' recurse P sf t_max depth j = (⟨0, 0, 0⟩, j)) ∧
    (∀ (ray : Ray F) (t_min : F) (i : Nat), 1 ≤ depth →
      hitSurface m sc ray t_min t_max = some sf →
      (let P := hitPoint m sc ray t_min t_max
       let lit := computeLighting m rnd sc P sf.normal ray.direction.neg sf.specular i
       let refl := reflectionPart m
         (fun r lo hi j => TraceRay m rnd sc r lo hi (depth - 1) j) ray P sf t_max lit.2
       let ind := indirectPart m rnd
         (fun r lo hi j => TraceRay m rnd sc r lo hi (depth - 1) j) P sf t_max depth refl.2
       let sss := sssBlock m rnd sc P sf (sf.objectColor.mul lit.1) ind.2
       TraceRay m rnd sc ray t_min t_max depth i =
         (((sss.1.add refl.1).add ind.1).clamp, sss.2))) := by
  refine ⟨?_, ?_, ?_, ?_⟩
  · intro P j hd hr
    rw [indirectPart_eq, if_pos hd, if_pos hr]
  · intro P j hd hr
    rw [indirectPart_eq, if_pos hd, if_neg hr]
  · intro P j rnd' recurse hd
    rw [indirectPart_eq, if_neg (not_lt.mpr hd)]
  · intro ray t_min i hd hhit
    exact traceRay_of_hit m rnd sc ray t_min t_max depth i sf hd hhit

/-- C21: when some primitive of the scene reports a distance inside the
window `(t_min, t_max)`, the nearest-hit search of `TraceRay` ends with
`closest_t = t` and exactly one of the two pointers set, to a primitive `p`
that reports `t`, where `t` lies inside the window and is at most every
distance inside the window that a sphere or triangle of the scene reports,
and every primitive scanned before `p` (spheres in list order, then
triangles in list order) reports only distances outside the window or
strictly greater than `t`. A primitive that reports exactly `t_min` or
exactly `t_max` leaves the three locals unchanged. -/
theorem nearestHit_minimum (m : CMath F) (sc : Scene F) (ray : Ray F) (t_min : F)
    (t_max : Dist F) (p0 : Sphere F ⊕ Triangle F) (t0 : F)
    (hp : p0 ∈ sc.scanOrder) (hr : Reports m ray p0 t0) (hw : InWindow t_min t_max t0) :
    (∃ (t : F) (p : Sphere F ⊕ Triangle F) (before after : List (Sphere F ⊕ Triangle F)),
      sc.scanOrder = before ++ p :: after ∧
      nearestHit m sc ray t_min t_max = Closest.selecting t p ∧
      Reports m ray p t ∧ InWindow t_min t_max t ∧
      (∀ q ∈ sc.scanOrder, ∀ u : F, Reports m ray q u → InWindow t_min t_max u → t ≤ u) ∧
      (∀ q ∈ before, ∀ u : F, Reports m ray q u → InWindow t_min t_max u → t < u)) ∧
    ((nearestHit m sc ray t_min t_max).closest_sphere.isSome ≠
      (nearestHit m sc ray t_min t_max).closest_triangle.isSome) ∧
    (∀ (st : Closest F) (t : F), t = t_min ∨ t_max = Dist.fin t →
      (∀ s : Sphere F, s.intersect m ray = some (Quo.fin t) →
        sphereStep m ray t_min t_max st s = st) ∧
      (∀ tr : Triangle F, tr.intersect ray = some t →
        triangleStep ray t_min t_max st tr = st)) := by
  rcases nearestHit_scanned m sc ray t_min t_max with
    ⟨_, hnone⟩ | ⟨t, p, l1, l2, hpre, hrp, hwp, h1, h2, hsel⟩
  · exact absurd hw (hnone p0 hp t0 hr)
  · refine ⟨⟨t, p, l1, l2, hpre, hsel, hrp, hwp, ?_, h1⟩, ?_,
      fun st t hb => step_boundary m ray t_min t_max st t hb⟩
    · intro q hq u hru hwu
      rw [hpre] at hq
      rcases List.mem_append.mp hq with hq1 | hq2
      · exact le_of_lt (h1 q hq1 u hru hwu)
      · rcases List.mem_cons.mp hq2 with hqp | hq3
        · rw [hqp] at hru
          exact le_of_eq (reports_unique m ray p t u hrp hru)
        · exact h2 q hq3 u hru hwu
    · rw [hsel]
      cases p <;> simp [Closest.selecting]

/-- Witness of C21: the scene with the unit sphere and the example triangle,
the ray `zRay` and the window `(1, infinity)`; the sphere reports `4`. -/
theorem nearestHit_minimum_witness :
    (Sum.inl unitSphere : Sphere ℝ ⊕ Triangle ℝ) ∈ (windowScene : Scene ℝ).scanOrder ∧
    Reports (⟨Real.sqrt, Real.cos, Real.sin, Real.exp, fun x y => x ^ y, Real.pi⟩ : CMath ℝ) zRay (Sum.inl unitSphere : Sphere ℝ ⊕ Triangle ℝ) 4 ∧
    InWindow (1 : ℝ) Dist.inf 4 ∧
    ((∃ (t : ℝ) (p : Sphere ℝ ⊕ Triangle ℝ) (before after : List (Sphere ℝ ⊕ Triangle ℝ)),
      (windowScene : Scene ℝ).scanOrder = before ++ p :: after ∧
      nearestHit (⟨Real.sqrt, Real.cos, Real.sin, Real.exp, fun x y => x ^ y, Real.pi⟩ : CMath ℝ) windowScene zRay 1 Dist.inf = Closest.selecting t p ∧
      Reports (⟨Real.sqrt, Real.cos, Real.sin, Real.exp, fun x y => x ^ y, Real.pi⟩ : CMath ℝ) zRay p t ∧ InWindow (1 : ℝ) Dist.inf t ∧
      (∀ q ∈ (windowScene : Scene ℝ).scanOrder, ∀ u : ℝ, Reports (⟨Real.sqrt, Real.cos, Real.sin, Real.exp, fun x y => x ^ y, Real.pi⟩ : CMath ℝ) zRay q u →
        InWindow (1 : ℝ) Dist.inf u → t ≤ u) ∧
      (∀ q ∈ before, ∀ u : ℝ, Reports (⟨Real.sqrt, Real.cos, Real.sin, Real.exp, fun x y => x ^ y, Real.pi⟩ : CMath ℝ) zRay q u →
        InWindow (1 : ℝ) Dist.inf u → t < u)) ∧
    ((nearestHit (⟨Real.sqrt, Real.cos, Real.sin, Real.exp, fun x y => x ^ y, Real.pi⟩ : CMath ℝ) (windowScene : Scene ℝ) zRay 1 Dist.inf).closest_sphere.isSome ≠
      (nearestHit (⟨Real.sqrt, Real.cos, Real.sin, Real.exp, fun x y => x ^ y, Real.pi⟩ : CMath ℝ) (windowScene : Scene ℝ) zRay 1 Dist.inf).closest_triangle.isSome) ∧
    (∀ (st : Closest ℝ) (t : ℝ), t = 1 ∨ (Dist.inf : Dist ℝ) = Dist.fin t →
      (∀ s : Sphere ℝ, s.intersect (⟨Real.sqrt, Real.cos, Real.sin, Real.exp, fun x y => x ^ y, Real.pi⟩ : CMath ℝ) zRay = some (Quo.fin t) →
        sphereStep (⟨Real.sqrt, Real.cos, Real.sin, Real.exp, fun x y => x ^ y, Real.pi⟩ : CMath ℝ) zRay 1 Dist.inf st s = st) ∧
      (∀ tr : Triangle ℝ, tr.intersect zRay = some t →
        triangleStep zRay 1 Dist.inf st tr = st))) :=
  ⟨by simp [Scene.scanOrder, windowScene], unitSphere_zRay _ real_sqrtSpec,
    ⟨by norm_num, trivial⟩,
    nearestHit_minimum _ windowScene zRay 1 Dist.inf (Sum.inl unitSphere) 4
      (by simp [Scene.scanOrder, windowScene]) (unitSphere_zRay _ real_sqrtSpec)
      ⟨by norm_num, trivial⟩⟩

/-- C25: the shadow test of `computeLighting` is positive exactly when some
sphere or some triangle of the scene reports a distance `t` on the shadow
ray with `0 < t < bound`; `bound` is `1.0` for a point light and infinity
for a directional light; a sample whose test is positive leaves the sample
colour unchanged, one whose test is negative adds the diffuse and specular
terms. For a point light the test is negative when every distance reported
on the shadow ray is not below `1`, whatever the distance to the light: for
the point `(0,0,-5)` and the light `lamp`, at distance `7`, the unit sphere
between them reports `3.99999` and the sample is not occluded. It is
assumed that `std::sqrt` is the non-negative square root (for the
example). -/
theorem shadow_test (m : CMath F) (hs : m.SqrtSpec) (rnd : Nat → F) (sc : Scene F)
    (light : Light F) (point normal view : Vector3D F) (s : F) (st : Color F × Nat) :
    (∀ (ray : Ray F) (b : Dist F), inShadow m sc ray b = true ↔
      (∃ sp ∈ sc.spheres, ∃ t : Quo F, sp.intersect m ray = some t ∧ t.gt 0 ∧ t.below b) ∨
      (∃ tr ∈ sc.triangles, ∃ t : F, tr.intersect ray = some t ∧ 0 < t ∧ Dist.below t b)) ∧
    (light.type = LightType.POINT → shadowBound light = Dist.fin 1.0) ∧
    (light.type = LightType.DIRECTIONAL → shadowBound light = Dist.inf) ∧
    (let shadowRay := shadowRayOf m point normal
        (sampleDir m point (samplePoint m rnd light st.2).1)
     (inShadow m sc shadowRay (shadowBound light) = true →
       (lightSample m rnd sc light point normal view s st).1 = st.1) ∧
     (inShadow m sc shadowRay (shadowBound light) = false →
       (lightSample m rnd sc light point normal view s st).1 =
         shade m light normal view s (sampleDir m point (samplePoint m rnd light st.2).1)
           st.1) ∧
     (light.type = LightType.POINT →
       (∀ sp ∈ sc.spheres, ∀ t : Quo F, sp.intersect m shadowRay = some t →
         ¬ Quo.lt t (Quo.fin 1)) →
       (∀ tr ∈ sc.triangles, ∀ t : F, tr.intersect shadowRay = some t → 1 ≤ t) →
       inShadow m sc shadowRay (shadowBound light) = false)) ∧
    (shadowRayOf m ⟨0, 0, -5⟩ ⟨0, 0, -1⟩
        (sampleDir m ⟨0, 0, -5⟩ (samplePoint m rnd (lamp : Light F) st.2).1)
      = ⟨⟨0, 0, -4.99999⟩, ⟨0, 0, 1⟩⟩ ∧
     Sphere.intersect m (matteSphere : Sphere F) ⟨⟨0, 0, -4.99999⟩, ⟨0, 0, 1⟩⟩
      = some (Quo.fin 3.99999) ∧
     (Vector3D.sub (lamp : Light F).position ⟨0, 0, -5⟩).length m = 7 ∧
     inShadow m (lampScene : Scene F) ⟨⟨0, 0, -4.99999⟩, ⟨0, 0, 1⟩⟩
      (shadowBound (lamp : Light F)) = false) := by
  refine ⟨fun ray b => inShadow_iff m sc ray b, ?_, ?_, ⟨?_, ?_, ?_⟩,
    lamp_occluder m hs rnd st.2⟩
  · intro h
    unfold shadowBound
    rw [if_pos h]
  · intro h
    unfold shadowBound
    rw [if_neg]
    rw [h]
    decide
  · intro h
    rw [lightSample_eq, if_pos h]
  · intro h
    exact lightSample_unoccluded m rnd sc light point normal view s st h
  · intro hpt hS hT
    have hb : shadowBound light = Dist.fin 1.0 := by
      unfold shadowBound
      rw [if_pos hpt]
    rw [hb]
    by_contra hne
    have htrue := (Bool.not_eq_false _).mp hne
    rcases (inShadow_iff m sc _ _).mp htrue with ⟨sp, hsp, t, hi, _, hlt⟩ | ⟨tr, htr, t, hi, _, hlt⟩
    · apply hS sp hsp t hi
      have e : (1.0 : F) = 1 := by norm_num
      simp only [Quo.below, e] at hlt
      exact hlt
    · have h1 := hT tr htr t hi
      have e : (1.0 : F) = 1 := by norm_num
      simp only [Dist.below, e] at hlt
      exact absurd hlt (not_lt.mpr h1)

/-- Witness of C25: the scene with the matte sphere and the point light
`lamp`, shaded at `(0,0,-5)` with normal `(0,0,-1)`. -/
theorem shadow_test_witness :
    CMath.SqrtSpec (⟨Real.sqrt, Real.cos, Real.sin, Real.exp, fun x y => x ^ y, Real.pi⟩ : CMath ℝ) ∧
    (shadowRayOf (⟨Real.sqrt, Real.cos, Real.sin, Real.exp, fun x y => x ^ y, Real.pi⟩ : CMath ℝ) ⟨0, 0, -5⟩ ⟨0, 0, -1⟩
        (sampleDir (⟨Real.sqrt, Real.cos, Real.sin, Real.exp, fun x y => x ^ y, Real.pi⟩ : CMath ℝ) ⟨0, 0, -5⟩ (samplePoint (⟨Real.sqrt, Real.cos, Real.sin, Real.exp, fun x y => x ^ y, Real.pi⟩ : CMath ℝ) (fun _ => 1 / 2) (lamp : Light ℝ) 0).1)
      = ⟨⟨0, 0, -4.99999⟩, ⟨0, 0, 1⟩⟩ ∧
     Sphere.intersect (⟨Real.sqrt, Real.cos, Real.sin, Real.exp, fun x y => x ^ y, Real.pi⟩ : CMath ℝ) (matteSphere : Sphere ℝ) ⟨⟨0, 0, -4.99999⟩, ⟨0, 0, 1⟩⟩
      = some (Quo.fin 3.99999) ∧
     (Vector3D.sub (lamp : Light ℝ).position ⟨0, 0, -5⟩).length (⟨Real.sqrt, Real.cos, Real.sin, Real.exp, fun x y => x ^ y, Real.pi⟩ : CMath ℝ) = 7 ∧
     inShadow (⟨Real.sqrt, Real.cos, Real.sin, Real.exp, fun x y => x ^ y, Real.pi⟩ : CMath ℝ) (lampScene : Scene ℝ) ⟨⟨0, 0, -4.99999⟩, ⟨0, 0, 1⟩⟩
      (shadowBound (lamp : Light ℝ)) = false) :=
  ⟨real_sqrtSpec,
    (shadow_test (⟨Real.sqrt, Real.cos, Real.sin, Real.exp, fun x y => x ^ y, Real.pi⟩ : CMath ℝ) real_sqrtSpec (fun _ => 1 / 2) lampScene lamp
      ⟨0, 0, -5⟩ ⟨0, 0, -1⟩ ⟨0, 0, 1⟩ 500 (⟨0, 0, 0⟩, 0)).2.2.2.2⟩

/-- C29: `TraceRay` is a total function (the recursion is on `depth`, every
recursive call being made with `depth - 1`): with `depth <= 0` it returns at
once, as the only invocation; with `depth > 0` it is its body run with the
recursive call `TraceRay(..., depth - 1)`, and the body calls it at most
twice (its result is determined by the values of the recursive call at two
argument lists); a call with `depth = d >= 0` causes at most
`2^(d+1) - 1` invocations, itself included. -/
theorem traceRay_invocations (m : CMath F) (rnd : Nat → F) (sc : Scene F) (ray : Ray F)
    (t_min : F) (t_max : Dist F) (depth : Int) (i : Nat) :
    (∃ c : Color F × Nat, TraceRay m rnd sc ray t_min t_max depth i = c) ∧
    (depth ≤ 0 → TraceRay m rnd sc ray t_min t_max depth i = (⟨0, 0, 0⟩, i) ∧
      invocations m rnd sc ray t_min t_max depth i = 1) ∧
    (0 < depth → TraceRay m rnd sc ray t_min t_max depth i =
      traceBody m rnd sc (fun r lo hi j => TraceRay m rnd sc r lo hi (depth - 1) j)
        ray t_min t_max depth i) ∧
    (∀ recurse : Ray F → F → Dist F → Nat → Color F × Nat,
      ∃ (r1 r2 : Ray F) (j1 j2 : Nat),
        ∀ recurse' : Ray F → F → Dist F → Nat → Color F × Nat,
          recurse' r1 0.001 t_max j1 = recurse r1 0.001 t_max j1 →
          recurse' r2 0.001 t_max j2 = recurse r2 0.001 t_max j2 →
          traceBody m rnd sc recurse' ray t_min t_max depth i =
            traceBody m rnd sc recurse ray t_min t_max depth i) ∧
    (0 < depth → invocations m rnd sc ray t_min t_max depth i = 1 ∨
      ∃ (r1 r2 : Ray F) (j1 j2 : Nat),
        invocations m rnd sc ray t_min t_max depth i ≤
          1 + invocations m rnd sc r1 0.001 t_max (depth - 1) j1 +
            invocations m rnd sc r2 0.001 t_max (depth - 1) j2) ∧
    (∀ d : Nat, depth = (d : Int) →
      invocations m rnd sc ray t_min t_max depth i ≤ 2 ^ (d + 1) - 1) := by
  refine ⟨⟨_, rfl⟩, ?_, ?_, ?_, ?_, ?_⟩
  · intro hd
    exact ⟨traceRay_of_nonpos m rnd sc ray t_min t_max depth i hd,
      invocations_of_nonpos m rnd sc ray t_min t_max depth i hd⟩
  · intro hd
    rw [TraceRay, dif_neg (not_le.mpr hd)]
  · intro recurse
    exact traceBody_two_calls m rnd sc recurse ray t_min t_max depth i
  · intro hd
    exact invocations_le_calls m rnd sc ray t_min t_max depth i hd
  · intro d hd
    have hb := invocations_bound m rnd sc d depth ray t_min t_max i (le_of_eq hd)
    omega

/-- C13, counterexample: The vectors `(1e200, 0, 0)` and `(0, 1, 1)` of
doubles are not zero; `Vector3D::normalize` returns the zero vector for the
first, its computed length being `inf`, and for the second a vector whose
computed length is `0.9999999999999999` and whose components, as the
numbers they are, have squares that do not add up to `1`. -/
theorem normalize_not_unit :
    (IEEE.Vector3D.mk 1e200 0 0).exact ≠ Vector3D.zero ∧
    (IEEE.Vector3D.mk 1e200 0 0).length = Dbl.inf false ∧
    (IEEE.Vector3D.mk 1e200 0 0).normalize = ⟨0, 0, 0⟩ ∧
    (IEEE.Vector3D.mk 0 1 1).normalize.length = 0.9999999999999999 ∧
    (IEEE.Vector3D.mk 0 1 1).normalize.exact.dot (IEEE.Vector3D.mk 0 1 1).normalize.exact
      ≠ 1 := by
  refine ⟨?_, by decide, by decide, by decide, ?_⟩
  · have h : (1e200 : Dbl) = Dbl.fin false 2941796710330669 613 := by decide
    simp only [IEEE.Vector3D.exact, h, Dbl.toRat_fin, Vector3D.zero, ne_eq, Vector3D.mk.injEq]
    norm_num
  · have h : (IEEE.Vector3D.mk 0 1 1).normalize =
        ⟨Dbl.fin false 0 0, Dbl.fin false 1592262918131443 (-51),
          Dbl.fin false 1592262918131443 (-51)⟩ := by decide
    rw [h]
    simp only [IEEE.Vector3D.exact, Dbl.toRat_fin, Vector3D.dot]
    norm_num

/-- C13, amended: The method `Vector3D::normalize` returns the zero
vector, without dividing, when the computed length compares equal to `0`,
as it does for the zero vector; otherwise it returns the three quotients of
the components by the computed length, a divisor that does not compare
equal to `0`, and no component of the result is on the other side of zero
from the component of `v`. The computed length of the result is `1` for
`(3, 0, 4)`, whose result is `(0.6, 0, 0.8)`, and `1.005987706951011` for
`(3e-162, 4e-162, 0)`, where the squares underflow. When the components of
`v` are moderate (zero, or of magnitude between `2^-100` and `2^100`) and its
computed length does not compare equal to `0`, the squares of the components
of the result, as the numbers they are, add up to `1` within `1e-12`, and the
computed length of the result is finite and within `1e-12` of `1`. -/
theorem normalize_computed (v : IEEE.Vector3D) :
    (Dbl.beq v.length 0 = true → v.normalize = ⟨0, 0, 0⟩ ∧ v.normalizeTraced.2 = []) ∧
    (¬ Dbl.beq v.length 0 = true →
      v.normalize = ⟨v.x / v.length, v.y / v.length, v.z / v.length⟩ ∧
      v.normalizeTraced.2 = [v.length, v.length, v.length]) ∧
    v.normalizeTraced.1 = v.normalize ∧
    (∀ d ∈ v.normalizeTraced.2, ¬ Dbl.beq d 0 = true) ∧
    Dbl.sameSide v.x v.normalize.x ∧ Dbl.sameSide v.y v.normalize.y ∧
    Dbl.sameSide v.z v.normalize.z ∧
    (Dbl.moderate v.x → Dbl.moderate v.y → Dbl.moderate v.z →
      ¬ Dbl.beq v.length 0 = true →
      |v.normalize.exact.dot v.normalize.exact - 1| ≤ 1 / 1000000000000 ∧
      Dbl.isFinite v.normalize.length = true ∧
      |Dbl.toRat v.normalize.length - 1| ≤ 1 / 1000000000000) ∧
    (IEEE.Vector3D.mk 0 0 0).normalize = ⟨0, 0, 0⟩ ∧
    (IEEE.Vector3D.mk 3 0 4).normalize = ⟨0.6, 0, 0.8⟩ ∧
    (IEEE.Vector3D.mk 3 0 4).normalize.length = 1 ∧
    (IEEE.Vector3D.mk 3e-162 4e-162 0).normalize.length = 1.005987706951011 := by
  refine ⟨?_, ?_, ?_, ?_, ?_, ?_, ?_, IEEE.Vector3D.normalize_length_near v, by decide,
    by decide, by decide, by decide⟩
  · intro h
    simp [IEEE.Vector3D.normalize, IEEE.Vector3D.normalizeTraced, h]
  · intro h
    simp [IEEE.Vector3D.normalize, IEEE.Vector3D.normalizeTraced, h]
  · by_cases h : Dbl.beq v.length 0 = true <;>
      simp [IEEE.Vector3D.normalize, IEEE.Vector3D.normalizeTraced, h]
  · by_cases h : Dbl.beq v.length 0 = true
    · simp [IEEE.Vector3D.normalizeTraced, h]
    · simp [IEEE.Vector3D.normalizeTraced, h]
  · exact IEEE.Vector3D.normalize_sameSide v |>.1
  · exact IEEE.Vector3D.normalize_sameSide v |>.2.1
  · exact IEEE.Vector3D.normalize_sameSide v |>.2.2

/-- Witness of C13 amended: The vector `(0, 1, 1)`: its components are
moderate and its computed length does not compare equal to `0`; the computed
length of the result is `0.9999999999999999`, within `1e-12` of `1`, and the
squares of the components of the result add up to `1` within `1e-12`. -/
theorem normalize_computed_witness :
    Dbl.moderate 0 ∧ Dbl.moderate 1 ∧
    ¬ Dbl.beq (IEEE.Vector3D.mk 0 1 1).length 0 = true ∧
    (IEEE.Vector3D.mk 0 1 1).normalize.length = 0.9999999999999999 ∧
    |(IEEE.Vector3D.mk 0 1 1).normalize.exact.dot (IEEE.Vector3D.mk 0 1 1).normalize.exact - 1|
      ≤ 1 / 1000000000000 ∧
    Dbl.isFinite (IEEE.Vector3D.mk 0 1 1).normalize.length = true ∧
    |Dbl.toRat (IEEE.Vector3D.mk 0 1 1).normalize.length - 1| ≤ 1 / 1000000000000 := by
  have m0 : Dbl.moderate 0 := Dbl.moderate_zero
  have m1 : Dbl.moderate 1 := by
    show Dbl.moderate (Dbl.fin false 1 0)
    simp only [Dbl.moderate, Dbl.ZeroOrBetween]
    norm_num
  exact ⟨m0, m1, by decide, by decide,
    (normalize_computed ⟨0, 1, 1⟩).2.2.2.2.2.2.2.1 m0 m1 m1 (by decide)⟩

/-- C14, counterexample: For `v = (0, 1e200, 1e200)` the products
`y * z` and `z * y` overflow to `inf`, so `v.cross(v)` is `(NaN, 0, 0)`, which
does not compare equal to `Vector3D()` under `operator==`. -/
theorem cross_self_nan :
    (IEEE.Vector3D.mk 0 1e200 1e200).cross (IEEE.Vector3D.mk 0 1e200 1e200) =
      ⟨Dbl.nan, 0, 0⟩ ∧
    ((IEEE.Vector3D.mk 0 1e200 1e200).cross (IEEE.Vector3D.mk 0 1e200 1e200)).eq
      IEEE.Vector3D.zero = false := by
  refine ⟨by decide, by decide⟩

/-- C14, amended: For every vector `v` whose components are finite,
`v + (-v)` is the zero vector and compares equal to `Vector3D()` under
`operator==`; when the products `y * z`, `z * x` and `x * y` of its
components are finite as well, so is `v.cross(v)`. -/
theorem add_neg_cross_finite (v : IEEE.Vector3D)
    (hx : v.x.isFinite = true) (hy : v.y.isFinite = true) (hz : v.z.isFinite = true) :
    v.add v.neg = IEEE.Vector3D.zero ∧ (v.add v.neg).eq IEEE.Vector3D.zero = true ∧
    ((v.y * v.z).isFinite = true → (v.z * v.x).isFinite = true →
      (v.x * v.y).isFinite = true →
      v.cross v = IEEE.Vector3D.zero ∧ (v.cross v).eq IEEE.Vector3D.zero = true) := by
  have hadd : v.add v.neg = IEEE.Vector3D.zero := by
    simp only [IEEE.Vector3D.add, IEEE.Vector3D.neg, IEEE.Vector3D.zero]
    rw [Dbl.add_neg_finite _ hx, Dbl.add_neg_finite _ hy, Dbl.add_neg_finite _ hz]
  refine ⟨hadd, ?_, ?_⟩
  · rw [hadd]
    decide
  · intro h1 h2 h3
    have hcross : v.cross v = IEEE.Vector3D.zero := by
      simp only [IEEE.Vector3D.cross, IEEE.Vector3D.zero]
      rw [Dbl.mul_swap v.z v.y, Dbl.mul_swap v.x v.z, Dbl.mul_swap v.y v.x,
        Dbl.sub_finite_self _ h1, Dbl.sub_finite_self _ h2, Dbl.sub_finite_self _ h3]
    rw [hcross]
    exact ⟨rfl, by decide⟩

/-- Witness of C14 amended: the vector `(1, 2, 3)`: its components and their products are finite. -/
theorem add_neg_cross_finite_witness :
    ((1 : Dbl).isFinite = true ∧ (2 : Dbl).isFinite = true ∧ (3 : Dbl).isFinite = true) ∧
    (IEEE.Vector3D.mk 1 2 3).add (IEEE.Vector3D.mk 1 2 3).neg = IEEE.Vector3D.zero ∧
    ((IEEE.Vector3D.mk 1 2 3).add (IEEE.Vector3D.mk 1 2 3).neg).eq IEEE.Vector3D.zero = true ∧
    (IEEE.Vector3D.mk 1 2 3).cross (IEEE.Vector3D.mk 1 2 3) = IEEE.Vector3D.zero ∧
    ((IEEE.Vector3D.mk 1 2 3).cross (IEEE.Vector3D.mk 1 2 3)).eq IEEE.Vector3D.zero = true :=
  ⟨⟨by decide, by decide, by decide⟩,
    (add_neg_cross_finite ⟨1, 2, 3⟩ (by decide) (by decide) (by decide)).1,
    (add_neg_cross_finite ⟨1, 2, 3⟩ (by decide) (by decide) (by decide)).2.1,
    (add_neg_cross_finite ⟨1, 2, 3⟩ (by decide) (by decide) (by decide)).2.2
      (by decide) (by decide) (by decide)⟩

/-- C23, counterexample: The triangle `A = (0,0,1e100)`,
`B = (1e100,0,1e100)`, `C = (0,1e100,1e100)`: its vertices are not collinear
(the cross product of the edges of the stored doubles is not zero), and
`Triangle::getNormal` returns the zero vector, whose length is `0`. -/
theorem getNormal_not_unit :
    (IEEE.hugeTriangle.exact.B.sub IEEE.hugeTriangle.exact.A).cross
      (IEEE.hugeTriangle.exact.C.sub IEEE.hugeTriangle.exact.A) ≠ Vector3D.zero ∧
    IEEE.hugeTriangle.getNormal = ⟨0, 0, 0⟩ ∧
    IEEE.hugeTriangle.getNormal.length = 0 := by
  refine ⟨?_, by decide, by decide⟩
  have h0 : (0 : Dbl) = Dbl.fin false 0 0 := by decide
  have h1 : (1e100 : Dbl) = Dbl.fin false 5147557589468029 280 := by decide
  simp only [IEEE.hugeTriangle, IEEE.Triangle.exact, IEEE.Vector3D.exact, h0, h1,
    Dbl.toRat_fin, Vector3D.sub, Vector3D.cross, Vector3D.zero, ne_eq, Vector3D.mk.injEq]
  norm_num

/-- C23, amended: With `n0 = normalize((B - A) x (C - A))` as computed,
`Triangle::getNormal` returns `-n0` when `n0 . A` compares above `0` and `n0`
otherwise, so its result is `n0` or `-n0` and its dot product with `A` never
compares above `0`. For the triangle of `setupScene` the result is
`(0, 0, -1)`: its length is `1`, its dot products with `B - A` and `C - A`
are `0`, and its dot product with `A` is `-2`. When the components of the
computed cross product `(B - A) x (C - A)` are moderate (zero, or of magnitude
between `2^-100` and `2^100`) and its computed length does not compare equal
to `0`, the squares of the components of the result, as the numbers they are,
add up to `1` within `1e-12`, and the computed length of the result is finite
and within `1e-12` of `1`. -/
theorem getNormal_computed (tr : IEEE.Triangle) :
    (tr.getNormal = ((tr.B.sub tr.A).cross (tr.C.sub tr.A)).normalize ∨
      tr.getNormal = ((tr.B.sub tr.A).cross (tr.C.sub tr.A)).normalize.neg) ∧
    (((tr.B.sub tr.A).cross (tr.C.sub tr.A)).normalize.dot tr.A > 0 →
      tr.getNormal = ((tr.B.sub tr.A).cross (tr.C.sub tr.A)).normalize.neg) ∧
    (¬ ((tr.B.sub tr.A).cross (tr.C.sub tr.A)).normalize.dot tr.A > 0 →
      tr.getNormal = ((tr.B.sub tr.A).cross (tr.C.sub tr.A)).normalize) ∧
    ¬ tr.getNormal.dot tr.A > 0 ∧
    (Dbl.moderate ((tr.B.sub tr.A).cross (tr.C.sub tr.A)).x →
      Dbl.moderate ((tr.B.sub tr.A).cross (tr.C.sub tr.A)).y →
      Dbl.moderate ((tr.B.sub tr.A).cross (tr.C.sub tr.A)).z →
      ¬ Dbl.beq ((tr.B.sub tr.A).cross (tr.C.sub tr.A)).length 0 = true →
      |tr.getNormal.exact.dot tr.getNormal.exact - 1| ≤ 1 / 1000000000000 ∧
      Dbl.isFinite tr.getNormal.length = true ∧
      |Dbl.toRat tr.getNormal.length - 1| ≤ 1 / 1000000000000) ∧
    IEEE.setupTriangle.getNormal = ⟨0, 0, -1⟩ ∧
    IEEE.setupTriangle.getNormal.length = 1 ∧
    IEEE.setupTriangle.getNormal.dot (IEEE.setupTriangle.B.sub IEEE.setupTriangle.A) = 0 ∧
    IEEE.setupTriangle.getNormal.dot (IEEE.setupTriangle.C.sub IEEE.setupTriangle.A) = 0 ∧
    IEEE.setupTriangle.getNormal.dot IEEE.setupTriangle.A = -2 := by
  have hpos : ((tr.B.sub tr.A).cross (tr.C.sub tr.A)).normalize.dot tr.A > 0 →
      tr.getNormal = ((tr.B.sub tr.A).cross (tr.C.sub tr.A)).normalize.neg := by
    intro h
    simp [IEEE.Triangle.getNormal, h]
  have hneg : ¬ ((tr.B.sub tr.A).cross (tr.C.sub tr.A)).normalize.dot tr.A > 0 →
      tr.getNormal = ((tr.B.sub tr.A).cross (tr.C.sub tr.A)).normalize := by
    intro h
    simp [IEEE.Triangle.getNormal, h]
  refine ⟨?_, hpos, hneg, IEEE.Triangle.getNormal_dot_not_pos tr,
    IEEE.Triangle.getNormal_length_near tr, by decide, by decide, by decide, by decide,
    by decide⟩
  by_cases h : ((tr.B.sub tr.A).cross (tr.C.sub tr.A)).normalize.dot tr.A > 0
  · exact Or.inr (hpos h)
  · exact Or.inl (hneg h)

/-- Witness of C23 amended: The triangle `A = (1.9,0.8,1.5)`,
`B = (0.9,1.3,1.0)`, `C = (5.6,4.2,5.0)`: the computed cross product of its
edges is `(3.45, 1.6499999999999997, -5.25)`, of moderate components and a
computed length that does not compare equal to `0`; the computed length of the
normal is `0.9999999999999999`, within `1e-12` of `1`, and the squares of its
components add up to `1` within `1e-12`. -/
theorem getNormal_computed_witness :
    (IEEE.needleTriangle.B.sub IEEE.needleTriangle.A).cross
      (IEEE.needleTriangle.C.sub IEEE.needleTriangle.A) = ⟨3.45, 1.6499999999999997, -5.25⟩ ∧
    Dbl.moderate 3.45 ∧ Dbl.moderate 1.6499999999999997 ∧ Dbl.moderate (-5.25) ∧
    ¬ Dbl.beq (IEEE.Vector3D.mk 3.45 1.6499999999999997 (-5.25)).length 0 = true ∧
    IEEE.needleTriangle.getNormal.length = 0.9999999999999999 ∧
    |IEEE.needleTriangle.getNormal.exact.dot IEEE.needleTriangle.getNormal.exact - 1|
      ≤ 1 / 1000000000000 ∧
    Dbl.isFinite IEEE.needleTriangle.getNormal.length = true ∧
    |Dbl.toRat IEEE.needleTriangle.getNormal.length - 1| ≤ 1 / 1000000000000 := by
  have h : (IEEE.needleTriangle.B.sub IEEE.needleTriangle.A).cross
      (IEEE.needleTriangle.C.sub IEEE.needleTriangle.A) =
      ⟨3.45, 1.6499999999999997, -5.25⟩ := by decide
  have m1 : Dbl.moderate 3.45 := by
    show Dbl.moderate (Dbl.fin false 3884354678607053 (-50))
    simp only [Dbl.moderate, Dbl.ZeroOrBetween]
    norm_num
  have m2 : Dbl.moderate 1.6499999999999997 := by
    show Dbl.moderate (Dbl.fin false 7430939385161317 (-52))
    simp only [Dbl.moderate, Dbl.ZeroOrBetween]
    norm_num
  have m3 : Dbl.moderate (-5.25) := by
    show Dbl.moderate (Dbl.fin true 21 (-2))
    simp only [Dbl.moderate, Dbl.ZeroOrBetween]
    norm_num
  have hl : ¬ Dbl.beq (IEEE.Vector3D.mk 3.45 1.6499999999999997 (-5.25)).length 0 = true := by
    decide
  exact ⟨h, m1, m2, m3, hl, by decide,
    (getNormal_computed IEEE.needleTriangle).2.2.2.2.1 (by rw [h]; exact m1)
      (by rw [h]; exact m2) (by rw [h]; exact m3) (by rw [h]; exact hl)⟩

/-- C24, counterexample: The triangle of `setupScene`: its vertices are
not collinear, and the normal `n = (0, 0, -1)` that `Triangle::getNormal`
returns has `n . A = -2`, which is not `>= 0`. -/
theorem normal_dot_negative :
    (IEEE.setupTriangle.exact.B.sub IEEE.setupTriangle.exact.A).cross
      (IEEE.setupTriangle.exact.C.sub IEEE.setupTriangle.exact.A) ≠ Vector3D.zero ∧
    IEEE.setupTriangle.getNormal.dot IEEE.setupTriangle.A = -2 ∧
    ¬ IEEE.setupTriangle.getNormal.dot IEEE.setupTriangle.A ≥ 0 := by
  refine ⟨?_, by decide, by decide⟩
  have h0 : (0 : Dbl) = Dbl.fin false 0 0 := by decide
  have h1 : (1 : Dbl) = Dbl.fin false 1 0 := by decide
  have h2 : (2 : Dbl) = Dbl.fin false 1 1 := by decide
  simp only [IEEE.setupTriangle, IEEE.Triangle.exact, IEEE.Vector3D.exact, h0, h1, h2,
    Dbl.neg_fin, Dbl.toRat_fin, Vector3D.sub, Vector3D.cross, Vector3D.zero, ne_eq,
    Vector3D.mk.injEq]
  norm_num

/-- C24, amended: The normal `n` returned by `Triangle::getNormal` faces
the side of the coordinate origin: `n . A` never compares above `0`, and it
passes the test `n . A >= 0` only when it compares equal to `0`. -/
theorem getNormal_toward_origin (tr : IEEE.Triangle) :
    ¬ tr.getNormal.dot tr.A > 0 ∧
    (tr.getNormal.dot tr.A ≥ 0 → Dbl.beq 0 (tr.getNormal.dot tr.A) = true) := by
  have h := IEEE.Triangle.getNormal_dot_not_pos tr
  refine ⟨h, fun h0 => ?_⟩
  have h0' : Dbl.ble 0 (tr.getNormal.dot tr.A) = true := h0
  have h' : ¬ Dbl.blt 0 (tr.getNormal.dot tr.A) = true := h
  simp only [Dbl.ble, Bool.or_eq_true] at h0'
  rcases h0' with h1 | h1
  · exact absurd h1 h'
  · exact h1

/-- C31, counterexample: The triangle `A = (1.9,0.8,1.5)`,
`B = (0.9,1.3,1.0)`, `C = (5.6,4.2,5.0)`: the vertices of the stored doubles
are not collinear and their plane does not contain the coordinate origin,
and `Triangle::getNormal` returns opposite vectors for the vertex orders
`(A,B,C)` and `(C,A,B)`. -/
theorem getNormal_order_dependent :
    (IEEE.needleTriangle.exact.B.sub IEEE.needleTriangle.exact.A).cross
      (IEEE.needleTriangle.exact.C.sub IEEE.needleTriangle.exact.A) ≠ Vector3D.zero ∧
    ((IEEE.needleTriangle.exact.B.sub IEEE.needleTriangle.exact.A).cross
      (IEEE.needleTriangle.exact.C.sub IEEE.needleTriangle.exact.A)).dot
        IEEE.needleTriangle.exact.A ≠ 0 ∧
    IEEE.needleTriangle.getNormal =
      ⟨-0.5311622476544557, -0.25403411844343526, 0.808290376865476⟩ ∧
    (IEEE.needleTriangle.withVertices IEEE.needleTriangle.C IEEE.needleTriangle.A
      IEEE.needleTriangle.B).getNormal =
      ⟨0.5311622476544557, 0.25403411844343493, -0.8082903768654761⟩ ∧
    (IEEE.needleTriangle.withVertices IEEE.needleTriangle.C IEEE.needleTriangle.A
      IEEE.needleTriangle.B).getNormal ≠ IEEE.needleTriangle.getNormal := by
  have h1 : (1.9 : Dbl) = Dbl.fin false 4278419646001971 (-51) := by decide
  have h2 : (0.8 : Dbl) = Dbl.fin false 3602879701896397 (-52) := by decide
  have h3 : (1.5 : Dbl) = Dbl.fin false 3 (-1) := by decide
  have h4 : (0.9 : Dbl) = Dbl.fin false 8106479329266893 (-53) := by decide
  have h5 : (1.3 : Dbl) = Dbl.fin false 5854679515581645 (-52) := by decide
  have h6 : (1.0 : Dbl) = Dbl.fin false 1 0 := by decide
  have h7 : (5.6 : Dbl) = Dbl.fin false 3152519739159347 (-49) := by decide
  have h8 : (4.2 : Dbl) = Dbl.fin false 4728779608739021 (-50) := by decide
  have h9 : (5.0 : Dbl) = Dbl.fin false 5 0 := by decide
  refine ⟨?_, ?_, by decide, by decide, by decide⟩
  · simp only [IEEE.needleTriangle, IEEE.Triangle.exact, IEEE.Vector3D.exact, h1, h2, h3, h4,
      h5, h6, h7, h8, h9, Dbl.toRat_fin, Vector3D.sub, Vector3D.cross, Vector3D.zero, ne_eq,
      Vector3D.mk.injEq]
    norm_num
  · simp only [IEEE.needleTriangle, IEEE.Triangle.exact, IEEE.Vector3D.exact, h1, h2, h3, h4,
      h5, h6, h7, h8, h9, Dbl.toRat_fin, Vector3D.sub, Vector3D.cross, Vector3D.dot]
    norm_num

/-- C31, amended: When the dot product of
`n0 = normalize((B - A) x (C - A))` with `A`, as computed, compares above or
below `0`, `Triangle::getNormal` returns the same vector for the triangle
with `B` and `C` swapped. -/
theorem getNormal_exchange (tr : IEEE.Triangle)
    (h : ((tr.B.sub tr.A).cross (tr.C.sub tr.A)).normalize.dot tr.A > 0 ∨
      ((tr.B.sub tr.A).cross (tr.C.sub tr.A)).normalize.dot tr.A < 0) :
    (tr.withVertices tr.A tr.C tr.B).getNormal = tr.getNormal := by
  unfold IEEE.Triangle.getNormal
  simp only [IEEE.Triangle.withVertices]
  rw [IEEE.Vector3D.cross_exchange (tr.B.sub tr.A) (tr.C.sub tr.A),
    IEEE.Vector3D.normalize_of_neg, IEEE.Vector3D.dot_of_neg]
  rcases h with h | h
  · have hn : ¬ -(((tr.B.sub tr.A).cross (tr.C.sub tr.A)).normalize.dot tr.A) > 0 :=
      Dbl.not_zero_lt_neg _ h
    rw [if_neg hn, if_pos h]
  · have hp : -(((tr.B.sub tr.A).cross (tr.C.sub tr.A)).normalize.dot tr.A) > 0 :=
      Dbl.zero_lt_neg _ h
    have hn : ¬ ((tr.B.sub tr.A).cross (tr.C.sub tr.A)).normalize.dot tr.A > 0 :=
      Dbl.not_zero_lt_of_lt_zero _ h
    rw [if_pos hp, if_neg hn, IEEE.Vector3D.neg_neg_normalize]

/-- Witness of C31 amended: the triangle of `setupScene`, where
`n0 . A = 2`: both vertex orders give
`(0, 0, -1)`. -/
theorem getNormal_exchange_witness :
    ((IEEE.setupTriangle.B.sub IEEE.setupTriangle.A).cross
      (IEEE.setupTriangle.C.sub IEEE.setupTriangle.A)).normalize.dot IEEE.setupTriangle.A = 2 ∧
    IEEE.setupTriangle.getNormal = ⟨0, 0, -1⟩ ∧
    (IEEE.setupTriangle.withVertices IEEE.setupTriangle.A IEEE.setupTriangle.C
      IEEE.setupTriangle.B).getNormal = IEEE.setupTriangle.getNormal :=
  ⟨by decide, by decide, getNormal_exchange IEEE.setupTriangle (Or.inl (by decide))⟩

set_option maxRecDepth 100000 in
/-- C26, counterexample: The scene without primitives lit by one point
light of radius `0` and intensity `1` at `(0,0,2)`, the point `(0,0,0)` with
normal `(0,0,1)` and specular exponent `-1`: one run of the sample body adds
`0.8` to every channel, and `computeLighting` returns `0.7999999999999982`:
the 128 additions of `0.8` are rounded one by one, and their sum times
`1.0 / 128` is not the value of one sample. -/
theorem lighting_not_one_sample :
    (∀ light ∈ IEEE.lampOnlyScene.lights, light.type ≠ LightType.AMBIENT → light.radius = 0) ∧
    IEEE.sampleOnce IEEE.knownLibm IEEE.lampOnlyScene IEEE.lamp ⟨0, 0, 0⟩ ⟨0, 0, 1⟩ ⟨0, 0, 1⟩
      (-1) ⟨0, 0, 0⟩ = ⟨0.8, 0.8, 0.8⟩ ∧
    (IEEE.computeLighting IEEE.knownLibm IEEE.zeroDraws IEEE.lampOnlyScene ⟨0, 0, 0⟩
      ⟨0, 0, 1⟩ ⟨0, 0, 1⟩ (-1) 0).1 =
      ⟨0.7999999999999982, 0.7999999999999982, 0.7999999999999982⟩ ∧
    (0.7999999999999982 : Dbl) ≠ 0.8 := by
  refine ⟨?_, by decide, by decide, by decide⟩
  intro light hl _
  simp only [IEEE.lampOnlyScene, List.mem_singleton] at hl
  subst hl
  decide

/-- C26, amended: For a scene in which no non-ambient light has a radius
above `0` (in particular when they all have radius `0`), `computeLighting`
makes no draw and does not depend on the random stream, and the colour it
returns is the sum, taken from black in the order of the lights, of the
contributions of the lights: the intensity on every channel for an ambient
light, and for any other light the colour that 128 runs of the sample body
accumulate from black, multiplied by the double `1.0 / 128`. -/
theorem computeLighting_no_draw (m : IEEE.Libm) (rnd : Nat → Dbl) (sc : IEEE.Scene)
    (point normal view : IEEE.Vector3D) (specular : Dbl) (i : Nat)
    (hrad : ∀ light ∈ sc.lights, light.type ≠ LightType.AMBIENT → ¬ light.radius > 0) :
    (IEEE.computeLighting m rnd sc point normal view specular i).1 =
      sc.lights.foldl (fun a light =>
        a.add (IEEE.contributionOf m sc point normal view specular light)) ⟨0, 0, 0⟩ ∧
    (IEEE.computeLighting m rnd sc point normal view specular i).2 = i ∧
    ∀ (rnd' : Nat → Dbl) (i' : Nat),
      (IEEE.computeLighting m rnd' sc point normal view specular i').1 =
        (IEEE.computeLighting m rnd sc point normal view specular i).1 := by
  unfold IEEE.computeLighting
  refine ⟨?_, ?_, fun rnd' i' => ?_⟩
  · rw [IEEE.foldl_lightStep_no_draw m rnd sc point normal view specular sc.lights hrad]
  · rw [IEEE.foldl_lightStep_no_draw m rnd sc point normal view specular sc.lights hrad]
  · rw [IEEE.foldl_lightStep_no_draw m rnd sc point normal view specular sc.lights hrad,
      IEEE.foldl_lightStep_no_draw m rnd' sc point normal view specular sc.lights hrad]

set_option maxRecDepth 100000 in
/-- Witness of C26 amended: a scene with an ambient light of intensity `0.3`
and the point light
`lamp` of radius `0`: the result is `1.099999999999998`, the sum of `0.3` and `0.7999999999999982`, on every
channel, whatever the stream. -/
theorem computeLighting_no_draw_witness :
    (∀ light ∈ IEEE.lampScene.lights,
      light.type ≠ LightType.AMBIENT → ¬ light.radius > 0) ∧
    (IEEE.computeLighting IEEE.knownLibm IEEE.quarterDraws
      IEEE.lampScene
      ⟨0, 0, 0⟩ ⟨0, 0, 1⟩ ⟨0, 0, 1⟩ (-1) 7).1 =
      ⟨1.099999999999998, 1.099999999999998, 1.099999999999998⟩ ∧
    (IEEE.computeLighting IEEE.knownLibm IEEE.quarterDraws
      IEEE.lampScene
      ⟨0, 0, 0⟩ ⟨0, 0, 1⟩ ⟨0, 0, 1⟩ (-1) 7).2 = 7 ∧
    (IEEE.computeLighting IEEE.knownLibm IEEE.zeroDraws
      IEEE.lampScene
      ⟨0, 0, 0⟩ ⟨0, 0, 1⟩ ⟨0, 0, 1⟩ (-1) 0).1 =
    (IEEE.computeLighting IEEE.knownLibm IEEE.quarterDraws
      IEEE.lampScene
      ⟨0, 0, 0⟩ ⟨0, 0, 1⟩ ⟨0, 0, 1⟩ (-1) 7).1 :=
  ⟨by decide, by decide,
    (computeLighting_no_draw IEEE.knownLibm IEEE.quarterDraws
      IEEE.lampScene
      ⟨0, 0, 0⟩ ⟨0, 0, 1⟩ ⟨0, 0, 1⟩ (-1) 7 (by decide)).2.1,
    (computeLighting_no_draw IEEE.knownLibm IEEE.quarterDraws
      IEEE.lampScene
      ⟨0, 0, 0⟩ ⟨0, 0, 1⟩ ⟨0, 0, 1⟩ (-1) 7 (by decide)).2.2 IEEE.zeroDraws 0⟩

end Properties

end RayTracer
